import Mathlib

/-!
Snake: a shallow embedding of `main.go`

The game keeps its state in package-level variables and a hand-made linked
list of `SnakeBody` segments.  The embedding keeps both:

* the segments live in an explicit heap (`List SnakeBody`); a Go pointer is an
  `Option Nat` (`none` is `nil`, `some a` is the address `a`, the index of the
  segment in the heap); `&SnakeBody{...}` appends to the heap;
* the package-level variables are the fields of `State`;
* everything the program reads from outside (keyboard, clock, random source)
  is an explicit argument (`Input`);
* Go's `int` is `Int`; the values the game computes (grid coordinates, scores,
  millisecond timestamps and their differences) stay far inside 64 bits;
  Go's `%` truncates toward zero and is `Int.tmod`;
* a nil dereference (a Go panic), a traversal that never ends and a random
  source that runs dry without an admissible draw are all `none`.
-/

namespace SnakeGo

/-! ## Constants -/

def GRID_WIDTH : Int := 32
def GRID_HEIGHT : Int := 24

def DIR_UP : Int := 0
def DIR_DOWN : Int := 1
def DIR_LEFT : Int := 2
def DIR_RIGHT : Int := 3

def STATUS_PAUSED : Int := 0
def STATUS_RUNNING : Int := 1
def STATUS_GAMEOVER : Int := 2

/-! ## Data model -/

/-- One segment: `type SnakeBody struct { x, y int; prev *SnakeBody }`. -/
structure SnakeBody where
  x : Int
  y : Int
  prev : Option Nat
  deriving DecidableEq

/-- The list head: `type Snake struct { head, tail *SnakeBody; mdir int }`. -/
structure Snake where
  head : Option Nat
  tail : Option Nat
  mdir : Int
  deriving DecidableEq

/-- The allocated segments; the address of a segment is its index. -/
abbrev Heap := List SnakeBody

/-- The package-level variables of `main.go`, together with the heap. -/
structure State where
  heap : Heap
  snake : Snake
  movingDirection : Int
  eggX : Int
  eggY : Int
  score : Int
  highest : Int
  tickMS : Int
  lastTick : Int
  status : Int
  lastScore : Int
  lastTimer : Int
  redraw : Bool
  deriving DecidableEq

/-- The keys `handleKeyboard` and `handleGameOver` distinguish. -/
inductive Key where
  | KeyI | KeyArrowUp | KeyA
  | KeyK | KeyArrowDown | KeyZ
  | KeyJ | KeyArrowLeft | KeyBracketLeft
  | KeyL | KeyArrowRight | KeyBracketRight
  | KeySpace
  | other (code : Nat)
  deriving DecidableEq

/-- What one `Update` call reads from outside the program. -/
structure Input where
  /-- The result of `inpututil.PressedKeys()` during this call. -/
  pressedKeys : List Key
  /-- The result of `inpututil.IsKeyJustPressed(ebiten.KeySpace)`. -/
  spaceJustPressed : Bool
  /-- The clock, in milliseconds, as `handleMove` reads it. -/
  tMove : Int
  /-- The clock, in milliseconds, as `handleTimeout` reads it. -/
  tTimeout : Int
  /-- The clock, in milliseconds, as `resetGame` reads it. -/
  tReset : Int
  /-- The pairs `(rand.Intn(GRID_WIDTH), rand.Intn(GRID_HEIGHT))` that
  `randomEgg` draws, in order. -/
  draws : List (Int × Int)
  deriving DecidableEq

/-! ## Snake operations -/

/-- The Go function `createSnake`. -/
def createSnake (s : State) : State :=
  let body : Nat := s.heap.length
  { s with
    heap := s.heap ++ [{ x := GRID_WIDTH / 2, y := GRID_HEIGHT / 2, prev := none }]
    snake := { head := some body, tail := some body, mdir := 0 } }

/-- The Go function `growSnakeAt`. -/
def growSnakeAt (s : State) (x y : Int) : Option State :=
  let newHead : Nat := s.heap.length
  let heap1 : Heap := s.heap ++ [{ x := x, y := y, prev := none }]
  match s.snake.head with
  | none => none
  | some oldHead =>
    match heap1[oldHead]? with
    | none => none
    | some b =>
      some { s with
        heap := heap1.set oldHead { b with prev := some newHead }
        snake := { s.snake with head := some newHead } }

/-- The Go function `appendSnakeTail`. -/
def appendSnakeTail (s : State) : Option State :=
  match s.snake.tail with
  | none => none
  | some t =>
    match s.heap[t]? with
    | none => none
    | some b =>
      some { s with
        heap := s.heap ++ [{ x := b.x, y := b.y, prev := some t }]
        snake := { s.snake with tail := some s.heap.length } }

/-- The Go function `moveSnakeTo`. -/
def moveSnakeTo (s : State) (x y : Int) : Option State :=
  let newHead : Nat := s.heap.length
  let heap1 : Heap := s.heap ++ [{ x := x, y := y, prev := none }]
  match s.snake.head with
  | none => none
  | some oldHead =>
    match heap1[oldHead]? with
    | none => none
    | some b =>
      let heap2 : Heap := heap1.set oldHead { b with prev := some newHead }
      match s.snake.tail with
      | none => none
      | some t =>
        match heap2[t]? with
        | none => none
        | some tb =>
          some { s with
            heap := heap2
            snake := { s.snake with head := some newHead, tail := tb.prev } }

/-- The direction `moveSnake` moves in: the requested one unless it is the
reverse of the current one (the `if` of `moveSnake`). -/
def turn (mdir dir : Int) : Int :=
  if (dir = DIR_UP ∧ mdir ≠ DIR_DOWN) ∨
     (dir = DIR_DOWN ∧ mdir ≠ DIR_UP) ∨
     (dir = DIR_LEFT ∧ mdir ≠ DIR_RIGHT) ∨
     (dir = DIR_RIGHT ∧ mdir ≠ DIR_LEFT) then dir else mdir

/-- The `switch snake.mdir` of `moveSnake` followed by the two wrapping
assignments. -/
def stepFrom (mdir x y : Int) : Int × Int :=
  let x1 := if mdir = DIR_UP then x
    else if mdir = DIR_DOWN then x
    else if mdir = DIR_LEFT then x - 1
    else if mdir = DIR_RIGHT then x + 1
    else x
  let y1 := if mdir = DIR_UP then y - 1
    else if mdir = DIR_DOWN then y + 1
    else y
  (Int.tmod (x1 + GRID_WIDTH) GRID_WIDTH, Int.tmod (y1 + GRID_HEIGHT) GRID_HEIGHT)

/-- The Go function `moveSnake`: it stores the direction it moves in into
`snake.mdir` and returns the candidate cell. -/
def moveSnake (s : State) (dir : Int) : Option (State × Int × Int) :=
  match s.snake.head with
  | none => none
  | some h =>
    match s.heap[h]? with
    | none => none
    | some b =>
      let mdir := turn s.snake.mdir dir
      let c := stepFrom mdir b.x b.y
      some ({ s with snake := { s.snake with mdir := mdir } }, c.1, c.2)

/-- The loop of `isSnakeBody`, from the pointer `body` on, running for at most
`fuel` segments. -/
def isSnakeBodyFrom (heap : Heap) (x y : Int) : Nat → Option Nat → Option Bool
  | _, none => some false
  | 0, some _ => none
  | fuel + 1, some a =>
    match heap[a]? with
    | none => none
    | some body =>
      if x = body.x ∧ y = body.y then some true
      else isSnakeBodyFrom heap x y fuel body.prev

/-- The Go function `isSnakeBody`.  A chain of `prev` links that ends has at
most as many segments as the heap, so the traversal is given that many steps;
a traversal that needs more is caught in a cycle and never ends. -/
def isSnakeBody (s : State) (x y : Int) : Option Bool :=
  isSnakeBodyFrom s.heap x y s.heap.length s.snake.tail

/-- The traversal `for body := snake.tail; body != nil; body = body.prev` of
`drawSnake`, collecting the cells it visits (tail first, head last). -/
def cellsFrom (heap : Heap) : Nat → Option Nat → Option (List (Int × Int))
  | _, none => some []
  | 0, some _ => none
  | fuel + 1, some a =>
    match heap[a]? with
    | none => none
    | some body =>
      match cellsFrom heap fuel body.prev with
      | none => none
      | some cs => some ((body.x, body.y) :: cs)

/-- The cell sequence of the snake, tail to head. -/
def snakeCells (s : State) : Option (List (Int × Int)) :=
  cellsFrom s.heap s.heap.length s.snake.tail

/-! ## Game logic -/

/-- The Go function `fasterTicker`. -/
def fasterTicker (s : State) (t : Int) : State :=
  if s.tickMS < 10 then s else { s with tickMS := s.tickMS - t }

/-- The Go function `randomEgg`: each round stores the next draw into
`eggX`, `eggY` and stops when the cell is not on the snake. -/
def randomEgg (s : State) : List (Int × Int) → Option State
  | [] => none
  | d :: ds =>
    let s1 : State := { s with eggX := d.1, eggY := d.2 }
    match isSnakeBody s1 s1.eggX s1.eggY with
    | none => none
    | some true => randomEgg s1 ds
    | some false => some s1

/-- The Go function `resetGame`; `now` is the clock in milliseconds. -/
def resetGame (s : State) (now : Int) (draws : List (Int × Int)) : Option State :=
  let s1 := createSnake s
  let s2 : State := { s1 with score := 0 }
  match randomEgg s2 draws with
  | none => none
  | some s3 =>
    some { s3 with
      status := STATUS_PAUSED
      tickMS := 150
      lastTick := now
      lastTimer := now
      lastScore := s3.score
      redraw := true }

/-- The Go function `handleGameOver`. -/
def handleGameOver (s : State) (inp : Input) : Option State :=
  if inp.spaceJustPressed then resetGame s inp.tReset inp.draws else some s

/-- The Go function `handlePaused`. -/
def handlePaused (s : State) (inp : Input) : State :=
  if inp.pressedKeys.length > 0 then { s with status := STATUS_RUNNING } else s

/-- The `switch keys[0]` of `handleKeyboard`. -/
def keyDirection (k : Key) (old : Int) : Int :=
  match k with
  | .KeyI | .KeyArrowUp | .KeyA => DIR_UP
  | .KeyK | .KeyArrowDown | .KeyZ => DIR_DOWN
  | .KeyJ | .KeyArrowLeft | .KeyBracketLeft => DIR_LEFT
  | .KeyL | .KeyArrowRight | .KeyBracketRight => DIR_RIGHT
  | _ => old

/-- The Go function `handleKeyboard`. -/
def handleKeyboard (s : State) (inp : Input) : State :=
  match inp.pressedKeys with
  | [k] => { s with movingDirection := keyDirection k s.movingDirection }
  | _ => s

/-- The Go function `handleMove`; `t` is the clock in milliseconds. -/
def handleMove (s : State) (t : Int) (draws : List (Int × Int)) : Option State :=
  if t - s.lastTick > s.tickMS then
    let s1 : State := { s with lastTick := t }
    match moveSnake s1 s1.movingDirection with
    | none => none
    | some (s2, x, y) =>
      match isSnakeBody s2 x y with
      | none => none
      | some true => some { s2 with status := STATUS_GAMEOVER }
      | some false =>
        if x = s2.eggX ∧ y = s2.eggY then
          match growSnakeAt s2 x y with
          | none => none
          | some s3 =>
            match randomEgg s3 draws with
            | none => none
            | some s4 =>
              let s5 := fasterTicker s4 1
              let s6 : State := { s5 with score := s5.score + 1 }
              let s7 : State :=
                if s6.score > s6.highest then { s6 with highest := s6.score } else s6
              some { s7 with lastTimer := t, redraw := true }
        else
          match moveSnakeTo s2 x y with
          | none => none
          | some s3 => some { s3 with redraw := true }
  else some s

/-- The Go function `handleTimeout`; `t` is the clock in milliseconds. -/
def handleTimeout (s : State) (t : Int) : Option State :=
  if t - s.lastTimer > 30 * 1000 then
    let s1 : State := { s with lastTimer := t }
    if s1.score > s1.lastScore then some { s1 with lastScore := s1.score }
    else appendSnakeTail (fasterTicker s1 5)
  else some s

/-- The Go method `Game.Update`. -/
def Update (s : State) (inp : Input) : Option State :=
  if s.status = STATUS_PAUSED then some (handlePaused s inp)
  else if s.status = STATUS_RUNNING then
    match handleMove (handleKeyboard s inp) inp.tMove inp.draws with
    | none => none
    | some s1 => handleTimeout s1 inp.tTimeout
  else if s.status = STATUS_GAMEOVER then handleGameOver s inp
  else some s

/-- Consecutive `Update` calls, one per input. -/
def run (s : State) : List Input → Option State
  | [] => some s
  | inp :: inps =>
    match Update s inp with
    | none => none
    | some s1 => run s1 inps

/-- The variables as the Go runtime initialises them, before `main` calls
`resetGame`. -/
def zeroState : State :=
  { heap := [], snake := { head := none, tail := none, mdir := 0 },
    movingDirection := 0, eggX := 0, eggY := 0, score := 0, highest := 0,
    tickMS := 0, lastTick := 0, status := 0, lastScore := 0, lastTimer := 0,
    redraw := false }

/-! ## Well-formed snakes -/

/-- `Chain h p as`: following the `prev` links in the heap `h` from the
pointer `p` visits the addresses `as`, in this order, and then reaches nil. -/
inductive Chain (h : Heap) : Option Nat → List Nat → Prop
  | nil : Chain h none []
  | cons {a : Nat} {b : SnakeBody} {as : List Nat} :
      h[a]? = some b → Chain h b.prev as → Chain h (some a) (a :: as)

/-- A snake is well formed when following the `prev` links from `snake.tail`
reaches `snake.head` after finitely many steps, `snake.head.prev` is nil and
neither `snake.head` nor `snake.tail` is nil: the chain from the tail ends in
nil, and its last segment is the head. -/
def WellFormed (s : State) : Prop :=
  ∃ as, Chain s.heap s.snake.tail as ∧ as.getLast? = s.snake.head ∧ s.snake.head ≠ none

/-- The cell of the segment at address `a`. -/
def cellAt (h : Heap) (a : Nat) : Int × Int :=
  match h[a]? with
  | some b => (b.x, b.y)
  | none => (0, 0)

/-! ## Vocabulary of the specification -/

/-- The four directions. -/
def IsDir (d : Int) : Prop :=
  d = DIR_UP ∨ d = DIR_DOWN ∨ d = DIR_LEFT ∨ d = DIR_RIGHT

instance (d : Int) : Decidable (IsDir d) := by
  unfold IsDir
  infer_instance

/-- The exact opposite of a direction: UP/DOWN and LEFT/RIGHT. -/
def opposite (d : Int) : Int :=
  if d = DIR_UP then DIR_DOWN
  else if d = DIR_DOWN then DIR_UP
  else if d = DIR_LEFT then DIR_RIGHT
  else if d = DIR_RIGHT then DIR_LEFT
  else d

/-- One unit in a direction, as `(dx, dy)`: UP is `y - 1`, DOWN is `y + 1`,
LEFT is `x - 1`, RIGHT is `x + 1`. -/
def delta (d : Int) : Int × Int :=
  if d = DIR_UP then (0, -1)
  else if d = DIR_DOWN then (0, 1)
  else if d = DIR_LEFT then (-1, 0)
  else if d = DIR_RIGHT then (1, 0)
  else (0, 0)

/-- The wrap of GridGeometry, `((v + size) % size)` on both coordinates, with
the `%` of Go. -/
def wrap (x y : Int) : Int × Int :=
  (Int.tmod (x + GRID_WIDTH) GRID_WIDTH, Int.tmod (y + GRID_HEIGHT) GRID_HEIGHT)

/-! ## Sample states -/

/-- The state right after `main` has called `resetGame` at time 1000 with the
egg drawn at (16, 11): one segment at the centre. -/
def centreState : State :=
  { heap := [{ x := 16, y := 12, prev := none }],
    snake := { head := some 0, tail := some 0, mdir := 0 },
    movingDirection := 0, eggX := 16, eggY := 11, score := 0, highest := 0,
    tickMS := 150, lastTick := 1000, status := 0, lastScore := 0, lastTimer := 1000,
    redraw := true }

/-- A running game whose snake has three segments, (4,7), (5,7), (6,7) from
tail to head, moving RIGHT. -/
def lineState : State :=
  { heap := [{ x := 4, y := 7, prev := some 1 }, { x := 5, y := 7, prev := some 2 },
      { x := 6, y := 7, prev := none }],
    snake := { head := some 2, tail := some 0, mdir := 3 },
    movingDirection := 3, eggX := 20, eggY := 20, score := 2, highest := 6,
    tickMS := 148, lastTick := 39840, status := 1, lastScore := 2, lastTimer := 9990,
    redraw := false }

/-- A running game whose snake has four segments laid out in a square,
(5,5), (6,5), (6,6), (5,6) from tail to head; it last moved LEFT and the
player asks for UP, so the candidate cell is the tail cell (5,5). -/
def squareState : State :=
  { heap := [{ x := 5, y := 5, prev := some 1 }, { x := 6, y := 5, prev := some 2 },
      { x := 6, y := 6, prev := some 3 }, { x := 5, y := 6, prev := none }],
    snake := { head := some 3, tail := some 0, mdir := 2 },
    movingDirection := 0, eggX := 20, eggY := 20, score := 3, highest := 3,
    tickMS := 147, lastTick := 39840, status := 1, lastScore := 3, lastTimer := 9990,
    redraw := false }

/-- A running game whose one-segment snake sits in the corner (31, 0),
moving RIGHT. -/
def cornerState : State :=
  { heap := [{ x := 31, y := 0, prev := none }],
    snake := { head := some 0, tail := some 0, mdir := 3 },
    movingDirection := 3, eggX := 3, eggY := 4, score := 0, highest := 0,
    tickMS := 150, lastTick := 1000, status := 1, lastScore := 0, lastTimer := 1000,
    redraw := false }

/-- The square snake after the game has ended. -/
def gameOverState : State :=
  { squareState with status := 2 }

/-- The square snake with the egg put on its tail cell (5,5), which a running
game never does. -/
def eggOnTailState : State :=
  { squareState with eggX := 5, eggY := 5 }

/-- The state of `centreState` once a key has been pressed: RUNNING, one
segment at the centre, the egg at (16, 11) right above the head. -/
def startedState : State :=
  { centreState with status := 1 }

/-- An input with no key pressed and every clock read at `now`. -/
def idleAt (now : Int) : Input :=
  { pressedKeys := [], spaceJustPressed := false, tMove := now, tTimeout := now,
    tReset := now, draws := [] }

/-- Following the `prev` links `n` times from a pointer. -/
def follow (h : Heap) : Nat → Option Nat → Option Nat
  | 0, p => p
  | _ + 1, none => none
  | n + 1, some a =>
    match h[a]? with
    | none => none
    | some b => follow h n b.prev

/-- Well-formedness in the words of the specification: head and tail are not
nil, following the `prev` links from the tail reaches the head after finitely
many steps, and the `prev` of the head is nil. -/
def LinkedTailToHead (s : State) : Prop :=
  ∃ tl hd b n, s.snake.tail = some tl ∧ s.snake.head = some hd ∧
    follow s.heap n (some tl) = some hd ∧ s.heap[hd]? = some b ∧ b.prev = none

/-- The cell of the head segment. -/
def headCell (s : State) : Option (Int × Int) :=
  match s.snake.head with
  | none => none
  | some h =>
    match s.heap[h]? with
    | none => none
    | some b => some (b.x, b.y)

/-- One movement tick that does not end the game, as `handleMove` performs it:
`moveSnake`, then `growSnakeAt` (when `grow`) or `moveSnakeTo` on the candidate
cell. -/
def moveTick (s : State) (dir : Int) (grow : Bool) : Option State :=
  match moveSnake s dir with
  | none => none
  | some (s1, x, y) => if grow then growSnakeAt s1 x y else moveSnakeTo s1 x y

/-- Consecutive movement ticks with the same requested direction. -/
def moveTicks (s : State) (dir : Int) : List Bool → Option State
  | [] => some s
  | g :: gs =>
    match moveTick s dir g with
    | none => none
    | some s1 => moveTicks s1 dir gs

/-- The states the program can be in: `main` calls `resetGame` on the
zero-initialised variables, then the engine calls `Update` again and again
(a restart is the `Update` call that runs `resetGame`). -/
inductive Reachable : State → Prop
  | init {now : Int} {draws : List (Int × Int)} {s : State} :
      resetGame zeroState now draws = some s → Reachable s
  | step {s s2 : State} {inp : Input} :
      Reachable s → Update s inp = some s2 → Reachable s2

/-- `ReachableMax s m`: the state `s` is reachable and `m` is the largest score
of any state on the way to it, the zero-initialised state included. -/
inductive ReachableMax : State → Int → Prop
  | init {now : Int} {draws : List (Int × Int)} {s : State} :
      resetGame zeroState now draws = some s → ReachableMax s (max 0 s.score)
  | step {s s2 : State} {m : Int} {inp : Input} :
      ReachableMax s m → Update s inp = some s2 → ReachableMax s2 (max m s2.score)

/-- The shape of the cell sequence (tail to head) of a live snake: one or more
copies of the tail cell, followed by cells that are pairwise distinct and
differ from the tail cell. -/
def TailRun (cs : List (Int × Int)) : Prop :=
  ∃ c m rest, cs = List.replicate (m + 1) c ++ rest ∧ (c :: rest).Nodup

/-- An input with the up arrow pressed and every clock read at `now`. -/
def upAt (now : Int) : Input :=
  { pressedKeys := [Key.KeyArrowUp], spaceJustPressed := false, tMove := now,
    tTimeout := now, tReset := now, draws := [] }

/-- The state after a reset at time 1000 with the egg at (3, 4), a key press at
1017 and one more `Update` call at 31001: the snake has moved up once and the
escalation has appended a tail segment. -/
def stalledState : State :=
  { heap := [{ x := 16, y := 12, prev := some 1 }, { x := 16, y := 11, prev := none },
      { x := 16, y := 11, prev := some 1 }],
    snake := { head := some 1, tail := some 2, mdir := 0 },
    movingDirection := 0, eggX := 3, eggY := 4, score := 0, highest := 0,
    tickMS := 145, lastTick := 31001, status := 1, lastScore := 0, lastTimer := 31001,
    redraw := true }

/-- The column of the `k`-th cell of the filling path. -/
def fillX (k : Nat) : Nat :=
  (16 + k / 24) % 32

/-- The row of the `k`-th cell of the filling path. -/
def fillY (k : Nat) : Nat :=
  (36 + k / 24 - k % 24) % 24

/-- The `k`-th cell of a path through all 768 cells of the grid: it starts at
the centre (16, 12), runs up a column (wrapping at the top) for 24 cells, then
steps right into the next column, and so on through the 32 columns. -/
def fillCell (k : Nat) : Int × Int :=
  ((fillX k : Int), (fillY k : Int))

/-- The direction of the step from the `k`-th cell of the path to the next. -/
def fillDir (k : Nat) : Int :=
  if k % 24 = 23 then DIR_RIGHT else DIR_UP

/-- The key the player holds for the step from the `k`-th cell of the path. -/
def fillKey (k : Nat) : Key :=
  if k % 24 = 23 then Key.KeyArrowRight else Key.KeyArrowUp

/-- The input of the `Update` call that takes the head from the `k`-th cell of
the path to the next: the right key, 200 ms after the previous call, and the
given draws for the next egg. -/
def fillInput (k : Nat) (draws : List (Int × Int)) : Input :=
  { pressedKeys := [fillKey k], spaceJustPressed := false,
    tMove := 1000 + 200 * ((k : Int) + 1), tTimeout := 1000 + 200 * ((k : Int) + 1),
    tReset := 0, draws := draws }

/-- The inputs of perfect play: at step `k` the next egg is drawn on the cell
after the one the head is about to enter. -/
def fillInputs (n : Nat) : List Input :=
  (List.range n).map (fun k => fillInput k [fillCell (k + 2)])

/-- What is true after `k` eggs of perfect play: the snake lies on the first
`k + 1` cells of the path and the egg on the next one. -/
def FillInv (k : Nat) (s : State) : Prop :=
  WellFormed s ∧ snakeCells s = some ((List.range (k + 1)).map fillCell) ∧
    (s.eggX, s.eggY) = fillCell (k + 1) ∧
    (s.snake.mdir = DIR_UP ∨ s.snake.mdir = DIR_RIGHT) ∧
    s.status = STATUS_RUNNING ∧ s.lastTick = 1000 + 200 * (k : Int) ∧
    s.lastTimer = 1000 + 200 * (k : Int) ∧ s.tickMS ≤ 150 ∧ s.score = (k : Int)

/-! ## Chains -/

theorem chain_none_iff {h : Heap} {as : List Nat} : Chain h none as ↔ as = [] := by
  constructor
  · intro hc
    cases hc
    rfl
  · rintro rfl
    exact Chain.nil

theorem chain_some_inv {h : Heap} {a : Nat} {as : List Nat} (hc : Chain h (some a) as) :
    ∃ b rest, h[a]? = some b ∧ as = a :: rest ∧ Chain h b.prev rest := by
  cases hc with
  | cons hb hrest => exact ⟨_, _, hb, rfl, hrest⟩

theorem chain_lt {h : Heap} {p : Option Nat} {as : List Nat} (hc : Chain h p as) :
    ∀ a ∈ as, a < h.length := by
  induction hc with
  | nil => simp
  | cons hb _ ih =>
    intro a ha
    rcases List.mem_cons.mp ha with rfl | ha
    · exact (List.getElem?_eq_some.mp hb).1
    · exact ih a ha

theorem chain_unique {h : Heap} {p : Option Nat} {as bs : List Nat}
    (hc : Chain h p as) (hd : Chain h p bs) : as = bs := by
  induction hc generalizing bs with
  | nil => exact (chain_none_iff.mp hd).symm
  | cons hb _ ih =>
    obtain ⟨b2, rest, hb2, rfl, hrest⟩ := chain_some_inv hd
    rw [hb] at hb2
    cases hb2
    rw [ih hrest]

theorem chain_suffix {h : Heap} {p : Option Nat} {l1 l2 : List Nat} {a : Nat}
    (hc : Chain h p (l1 ++ a :: l2)) : Chain h (some a) (a :: l2) := by
  induction l1 generalizing p with
  | nil =>
    cases hc with
    | cons hb hrest => exact Chain.cons hb hrest
  | cons c l1 ih =>
    cases hc with
    | cons hb hrest => exact ih hrest

theorem chain_nodup {h : Heap} {p : Option Nat} {as : List Nat} (hc : Chain h p as) :
    as.Nodup := by
  induction hc with
  | nil => exact List.nodup_nil
  | @cons a b as hb hrest ih =>
    refine List.nodup_cons.mpr ⟨?_, ih⟩
    intro hmem
    obtain ⟨l1, l2, rfl⟩ := List.append_of_mem hmem
    have h1 : Chain h (some a) (a :: (l1 ++ a :: l2)) := Chain.cons hb hrest
    have h2 : Chain h (some a) (a :: l2) := chain_suffix hrest
    have h3 := congrArg List.length (chain_unique h1 h2)
    simp at h3
    omega

theorem chain_length_le {h : Heap} {p : Option Nat} {as : List Nat} (hc : Chain h p as) :
    as.length ≤ h.length := by
  have hsub : as ⊆ List.range h.length := fun a ha => List.mem_range.mpr (chain_lt hc a ha)
  have := (List.subperm_of_subset (chain_nodup hc) hsub).length_le
  simpa using this

theorem chain_congr {h h2 : Heap} {p : Option Nat} {as : List Nat} (hc : Chain h p as)
    (hsame : ∀ a ∈ as, h2[a]? = h[a]?) : Chain h2 p as := by
  induction hc with
  | nil => exact Chain.nil
  | @cons a b as hb _ ih =>
    refine Chain.cons ((hsame a (List.mem_cons_self _ _)).trans hb) (ih ?_)
    intro c hc
    exact hsame c (List.mem_cons_of_mem _ hc)

theorem cellsFrom_chain {h : Heap} {p : Option Nat} {as : List Nat} (hc : Chain h p as) :
    ∀ fuel, as.length ≤ fuel → cellsFrom h fuel p = some (as.map (cellAt h)) := by
  induction hc with
  | nil =>
    intro fuel _
    cases fuel <;> rfl
  | @cons a b as hb _ ih =>
    intro fuel hfuel
    cases fuel with
    | zero => simp at hfuel
    | succ fuel =>
      have hlen : as.length ≤ fuel := by simpa using hfuel
      simp [cellsFrom, hb, ih fuel hlen, cellAt]

theorem chain_of_cellsFrom {h : Heap} :
    ∀ (fuel : Nat) (p : Option Nat) (cs : List (Int × Int)), cellsFrom h fuel p = some cs →
      ∃ as, Chain h p as ∧ cs = as.map (cellAt h) := by
  intro fuel
  induction fuel with
  | zero =>
    intro p cs hcs
    cases p with
    | none =>
      simp [cellsFrom] at hcs
      exact ⟨[], Chain.nil, by simp [hcs]⟩
    | some a => simp [cellsFrom] at hcs
  | succ fuel ih =>
    intro p cs hcs
    cases p with
    | none =>
      simp [cellsFrom] at hcs
      exact ⟨[], Chain.nil, by simp [hcs]⟩
    | some a =>
      simp only [cellsFrom] at hcs
      cases hb : h[a]? with
      | none => simp [hb] at hcs
      | some b =>
        rw [hb] at hcs
        cases hr : cellsFrom h fuel b.prev with
        | none => simp [hr] at hcs
        | some cs2 =>
          simp [hr] at hcs
          obtain ⟨as, has, rfl⟩ := ih _ _ hr
          exact ⟨a :: as, Chain.cons hb has, by simp [← hcs, cellAt, hb]⟩

theorem isSnakeBodyFrom_chain {h : Heap} {p : Option Nat} {as : List Nat} (x y : Int)
    (hc : Chain h p as) :
    ∀ fuel, as.length ≤ fuel →
      isSnakeBodyFrom h x y fuel p = some (decide ((x, y) ∈ as.map (cellAt h))) := by
  induction hc with
  | nil =>
    intro fuel _
    cases fuel <;> simp [isSnakeBodyFrom]
  | @cons a b as hb _ ih =>
    intro fuel hfuel
    cases fuel with
    | zero => simp at hfuel
    | succ fuel =>
      have hlen : as.length ≤ fuel := by simpa using hfuel
      by_cases hxy : x = b.x ∧ y = b.y
      · simp [isSnakeBodyFrom, hb, hxy, cellAt]
      · have hne : ¬ (x, y) = (b.x, b.y) := by
          intro he
          exact hxy ⟨congrArg Prod.fst he, congrArg Prod.snd he⟩
        simp only [isSnakeBodyFrom, hb, hxy, if_false, ih fuel hlen, List.map_cons,
          List.mem_cons, cellAt, hne, false_or]

/-- The membership test and the traversal agree: `isSnakeBody` answers whether
the cell is in the cell sequence. -/
theorem isSnakeBody_of_snakeCells {s : State} {cs : List (Int × Int)} (x y : Int)
    (hcs : snakeCells s = some cs) : isSnakeBody s x y = some (decide ((x, y) ∈ cs)) := by
  obtain ⟨as, has, rfl⟩ := chain_of_cellsFrom _ _ _ hcs
  exact isSnakeBodyFrom_chain x y has _ (chain_length_le has)

/-- A well-formed snake has a cell sequence, and it is not empty. -/
theorem WellFormed.cells {s : State} (hwf : WellFormed s) :
    ∃ as, Chain s.heap s.snake.tail as ∧ as.getLast? = s.snake.head ∧ as ≠ [] ∧
      snakeCells s = some (as.map (cellAt s.heap)) := by
  obtain ⟨as, has, hlast, hhead⟩ := hwf
  refine ⟨as, has, hlast, ?_, cellsFrom_chain has _ (chain_length_le has)⟩
  rintro rfl
  exact hhead (by simpa using hlast.symm)

/-! ## The heap after an allocation and a relinking of the head -/

theorem chain_nil_ptr {h : Heap} {p : Option Nat} (hc : Chain h p []) : p = none := by
  cases hc
  rfl

theorem getElem?_grow_ne {h : Heap} {n v : SnakeBody} {hd a : Nat} (ha : a < h.length)
    (hne : a ≠ hd) : ((h ++ [n]).set hd v)[a]? = h[a]? := by
  rw [List.getElem?_set_ne (Ne.symm hne), List.getElem?_append_left ha]

theorem getElem?_grow_head {h : Heap} {n v : SnakeBody} {hd : Nat} (hhd : hd < h.length) :
    ((h ++ [n]).set hd v)[hd]? = some v := by
  apply List.getElem?_set_self
  simp
  omega

theorem getElem?_grow_new {h : Heap} {n v : SnakeBody} {hd : Nat} (hhd : hd < h.length) :
    ((h ++ [n]).set hd v)[h.length]? = some n := by
  rw [List.getElem?_set_ne (by omega)]
  simp

theorem chain_grow {h : Heap} {p : Option Nat} {as : List Nat} {hd : Nat} {b n : SnakeBody}
    (hc : Chain h p as) (hlast : as.getLast? = some hd) (hb : h[hd]? = some b)
    (hn : n.prev = none) :
    Chain ((h ++ [n]).set hd { b with prev := some h.length }) p (as ++ [h.length]) := by
  have hnd := chain_nodup hc
  have hhd : hd < h.length := (List.getElem?_eq_some.mp hb).1
  induction hc with
  | nil => simp at hlast
  | @cons a b2 rest hb2 hrest ih =>
    cases rest with
    | nil =>
      have ha : a = hd := by simpa using hlast
      subst ha
      rw [hb] at hb2
      cases hb2
      refine Chain.cons (getElem?_grow_head hhd) ?_
      refine Chain.cons (getElem?_grow_new hhd) ?_
      rw [hn]
      exact Chain.nil
    | cons c rest2 =>
      have hlast2 : (c :: rest2).getLast? = some hd := by
        simpa [List.getLast?_cons_cons] using hlast
      have hmem : hd ∈ c :: rest2 := List.mem_of_getLast?_eq_some hlast2
      have hne : a ≠ hd := by
        rintro rfl
        exact (List.nodup_cons.mp hnd).1 hmem
      have ha : a < h.length := (List.getElem?_eq_some.mp hb2).1
      refine Chain.cons ((getElem?_grow_ne ha hne).trans hb2) ?_
      exact ih hlast2 (List.nodup_cons.mp hnd).2

theorem cellAt_grow {h : Heap} {n b : SnakeBody} {hd a : Nat} (hb : h[hd]? = some b)
    (ha : a < h.length) :
    cellAt ((h ++ [n]).set hd { b with prev := some h.length }) a = cellAt h a := by
  have hhd : hd < h.length := (List.getElem?_eq_some.mp hb).1
  by_cases hne : a = hd
  · subst hne
    simp [cellAt, getElem?_grow_head hhd, hb]
  · simp [cellAt, getElem?_grow_ne ha hne]

theorem cells_grow {h : Heap} {p : Option Nat} {as : List Nat} {hd : Nat} {b n : SnakeBody}
    (hc : Chain h p as) (hb : h[hd]? = some b) :
    (as ++ [h.length]).map (cellAt ((h ++ [n]).set hd { b with prev := some h.length })) =
      as.map (cellAt h) ++ [(n.x, n.y)] := by
  have hhd : hd < h.length := (List.getElem?_eq_some.mp hb).1
  rw [List.map_append]
  congr 1
  · apply List.map_congr_left
    intro a ha
    exact cellAt_grow hb (chain_lt hc a ha)
  · simp [cellAt, getElem?_grow_new hhd]

/-- What a well-formed snake looks like in the heap. -/
theorem WellFormed.shape {s : State} (hwf : WellFormed s) :
    ∃ as hd b, Chain s.heap s.snake.tail as ∧ as.getLast? = some hd ∧
      s.snake.head = some hd ∧ s.heap[hd]? = some b ∧ b.prev = none ∧
      snakeCells s = some (as.map (cellAt s.heap)) := by
  obtain ⟨as, has, hlast, hne, hcells⟩ := hwf.cells
  cases hh : s.snake.head with
  | none =>
    rw [hh] at hlast
    simp at hlast
    exact absurd hlast hne
  | some hd =>
    rw [hh] at hlast
    obtain ⟨l1, rfl⟩ : ∃ l1, as = l1 ++ [hd] := by
      have := List.getLast?_eq_some_iff.mp hlast
      exact this
    obtain ⟨b, rest, hb, hrest, hprev⟩ := chain_some_inv (chain_suffix has)
    have hr : rest = [] := by simpa using hrest.symm
    subst hr
    exact ⟨_, hd, b, has, hlast, rfl, hb, chain_nil_ptr hprev, hcells⟩

/-! ## The snake operations on well-formed snakes -/

theorem chain_tail_ptr {h : Heap} {p : Option Nat} {a : Nat} {rest : List Nat}
    (hc : Chain h p (a :: rest)) : p = some a := by
  cases hc
  rfl

theorem growSnakeAt_spec (s : State) (x y : Int) (cs : List (Int × Int))
    (hwf : WellFormed s) (hcs : snakeCells s = some cs) :
    ∃ s2, growSnakeAt s x y = some s2 ∧ WellFormed s2 ∧
      snakeCells s2 = some (cs ++ [(x, y)]) ∧
      s2.snake.tail = s.snake.tail ∧ s2.snake.mdir = s.snake.mdir ∧
      s2.snake.head = some s.heap.length ∧
      s2 = { s with heap := s2.heap, snake := s2.snake } := by
  obtain ⟨as, hd, b, has, hlast, hhead, hb, _, hcells⟩ := hwf.shape
  have hhd : hd < s.heap.length := (List.getElem?_eq_some.mp hb).1
  have hb1 : (s.heap ++ [({ x := x, y := y, prev := none } : SnakeBody)])[hd]? = some b := by
    rw [List.getElem?_append_left hhd, hb]
  have hch := chain_grow (n := { x := x, y := y, prev := none }) has hlast hb rfl
  rw [hcells] at hcs
  cases hcs
  refine ⟨{ s with
    heap := (s.heap ++ [({ x := x, y := y, prev := none } : SnakeBody)]).set hd
      { b with prev := some s.heap.length }
    snake := { s.snake with head := some s.heap.length } },
    by simp only [growSnakeAt, hhead, hb1], ?_, ?_, rfl, rfl, rfl, rfl⟩
  · exact ⟨as ++ [s.heap.length], hch, by simp, by simp⟩
  · have := cellsFrom_chain hch _ (chain_length_le hch)
    rw [cells_grow has hb] at this
    exact this

theorem moveSnakeTo_spec (s : State) (x y : Int) (cs : List (Int × Int))
    (hwf : WellFormed s) (hcs : snakeCells s = some cs) :
    ∃ s2, moveSnakeTo s x y = some s2 ∧ WellFormed s2 ∧
      snakeCells s2 = some (cs.tail ++ [(x, y)]) ∧
      s2.snake.mdir = s.snake.mdir ∧
      s2.snake.head = some s.heap.length ∧
      (cs.length = 1 → s2.snake.tail = s2.snake.head) ∧
      s2 = { s with heap := s2.heap, snake := s2.snake } := by
  obtain ⟨as, hd, b, has, hlast, hhead, hb, _, hcells⟩ := hwf.shape
  have hhd : hd < s.heap.length := (List.getElem?_eq_some.mp hb).1
  have hb1 : (s.heap ++ [({ x := x, y := y, prev := none } : SnakeBody)])[hd]? = some b := by
    rw [List.getElem?_append_left hhd, hb]
  have hch := chain_grow (n := { x := x, y := y, prev := none }) has hlast hb rfl
  have hmap := cells_grow (n := { x := x, y := y, prev := none }) has hb
  rw [hcells] at hcs
  cases hcs
  cases as with
  | nil => simp at hlast
  | cons a rest =>
    have htail : s.snake.tail = some a := chain_tail_ptr has
    rw [htail] at hch
    obtain ⟨tb, rest2, htb, hrest2, hprev⟩ := chain_some_inv hch
    have hr : rest2 = rest ++ [s.heap.length] := by
      simpa using hrest2.symm
    subst hr
    refine ⟨{ s with
      heap := (s.heap ++ [({ x := x, y := y, prev := none } : SnakeBody)]).set hd
        { b with prev := some s.heap.length }
      snake := { s.snake with head := some s.heap.length, tail := tb.prev } },
      by simp only [moveSnakeTo, hhead, hb1, htail, htb], ?_, ?_, rfl, rfl, ?_, rfl⟩
    · exact ⟨rest ++ [s.heap.length], hprev, by simp, by simp⟩
    · have := cellsFrom_chain hprev _ (chain_length_le hprev)
      simp only [List.cons_append, List.map_cons, List.cons.injEq] at hmap
      rw [hmap.2] at this
      exact this
    · intro hlen
      have hr : rest = [] := by
        simpa using hlen
      subst hr
      exact chain_tail_ptr hprev

theorem appendSnakeTail_spec (s : State) (cs : List (Int × Int))
    (hwf : WellFormed s) (hcs : snakeCells s = some cs) :
    ∃ s2 c rest, appendSnakeTail s = some s2 ∧ WellFormed s2 ∧ cs = c :: rest ∧
      snakeCells s2 = some (c :: c :: rest) ∧
      s2.snake.head = s.snake.head ∧ s2.snake.mdir = s.snake.mdir ∧
      s2.snake.tail = some s.heap.length ∧
      s2 = { s with heap := s2.heap, snake := s2.snake } := by
  obtain ⟨as, hd, b, has, hlast, hhead, hb, _, hcells⟩ := hwf.shape
  rw [hcells] at hcs
  cases hcs
  cases as with
  | nil => simp at hlast
  | cons a rest =>
    have htail : s.snake.tail = some a := chain_tail_ptr has
    rw [htail] at has
    obtain ⟨tb, rest2, htb, hrest2, _⟩ := chain_some_inv has
    have hkeep : ∀ c ∈ a :: rest,
        (s.heap ++ [({ x := tb.x, y := tb.y, prev := some a } : SnakeBody)])[c]? = s.heap[c]? :=
      fun c hc => List.getElem?_append_left (chain_lt has c hc)
    have hch : Chain (s.heap ++ [({ x := tb.x, y := tb.y, prev := some a } : SnakeBody)])
        (some s.heap.length) (s.heap.length :: a :: rest) :=
      Chain.cons (b := { x := tb.x, y := tb.y, prev := some a }) (by simp)
        (chain_congr has hkeep)
    refine ⟨{ s with
      heap := s.heap ++ [{ x := tb.x, y := tb.y, prev := some a }]
      snake := { s.snake with tail := some s.heap.length } },
      cellAt s.heap a, rest.map (cellAt s.heap),
      by simp only [appendSnakeTail, htail, htb], ?_, rfl, ?_, rfl, rfl, rfl, rfl⟩
    · refine ⟨_, hch, ?_, by simp [hhead]⟩
      rw [List.getLast?_cons_cons]
      simpa [hhead] using hlast
    · refine Eq.trans (cellsFrom_chain hch _ (chain_length_le hch)) ?_
      have hsame : (a :: rest).map
          (cellAt (s.heap ++ [({ x := tb.x, y := tb.y, prev := some a } : SnakeBody)])) =
          (a :: rest).map (cellAt s.heap) := by
        apply List.map_congr_left
        intro c hc
        simp only [cellAt, hkeep c hc]
      rw [List.map_cons, hsame]
      simp [cellAt, htb]

/-! ## Sample states are well formed -/

theorem centreState_wf : WellFormed centreState :=
  ⟨[0], Chain.cons (b := ⟨16, 12, none⟩) rfl Chain.nil, rfl, by decide⟩

theorem lineState_wf : WellFormed lineState :=
  ⟨[0, 1, 2],
    Chain.cons (b := ⟨4, 7, some 1⟩) rfl
      (Chain.cons (b := ⟨5, 7, some 2⟩) rfl (Chain.cons (b := ⟨6, 7, none⟩) rfl Chain.nil)),
    rfl, by decide⟩

theorem squareState_wf : WellFormed squareState :=
  ⟨[0, 1, 2, 3],
    Chain.cons (b := ⟨5, 5, some 1⟩) rfl
      (Chain.cons (b := ⟨6, 5, some 2⟩) rfl
        (Chain.cons (b := ⟨6, 6, some 3⟩) rfl (Chain.cons (b := ⟨5, 6, none⟩) rfl Chain.nil))),
    rfl, by decide⟩

/-! ## Sliding and growing (C5, C6) -/

/-- C5: for a well-formed snake with cell sequence `cs` (tail to head),
`moveSnakeTo x y` returns, and the new cell sequence is `cs` without its first
cell followed by `(x, y)`: the old tail is dropped, the new tail is the segment
ahead of it, `(x, y)` is the new head, the length is unchanged; the snake is
well formed again and nothing but the heap and the snake changes.  When the
snake has one segment the result is `[(x, y)]` and head and tail are the same
new segment. -/
theorem moveSnakeTo_slides (s : State) (x y : Int) (cs : List (Int × Int))
    (hwf : WellFormed s) (hcs : snakeCells s = some cs) :
    ∃ s2, moveSnakeTo s x y = some s2 ∧
      snakeCells s2 = some (cs.tail ++ [(x, y)]) ∧
      (cs.tail ++ [(x, y)]).length = cs.length ∧
      (cs.tail ++ [(x, y)]).getLast? = some (x, y) ∧
      (cs.length = 1 →
        snakeCells s2 = some [(x, y)] ∧ s2.snake.tail = s2.snake.head ∧
          s2.snake.head = some s.heap.length) ∧
      WellFormed s2 ∧
      s2 = { s with heap := s2.heap, snake := s2.snake } := by
  obtain ⟨s2, hres, hwf2, hcells, _, hhead, hone, hframe⟩ := moveSnakeTo_spec s x y cs hwf hcs
  obtain ⟨as, _, _, hne, hmap⟩ := hwf.cells
  have hpos : 0 < cs.length := by
    rw [hmap] at hcs
    cases hcs
    simpa using List.length_pos.mpr hne
  refine ⟨s2, hres, hcells, ?_, by simp, ?_, hwf2, hframe⟩
  · simp
    omega
  · intro hlen
    refine ⟨?_, hone hlen, hhead⟩
    rw [hcells]
    match cs, hlen with
    | [c], _ => rfl

theorem moveSnakeTo_slides_witness :
    ∃ s2, moveSnakeTo lineState 7 7 = some s2 ∧
      snakeCells s2 = some ([(4, 7), (5, 7), (6, 7)].tail ++ [(7, 7)]) ∧
      ([(4, 7), (5, 7), (6, 7)].tail ++ [((7 : Int), (7 : Int))]).length =
        [((4 : Int), (7 : Int)), (5, 7), (6, 7)].length ∧
      ([(4, 7), (5, 7), (6, 7)].tail ++ [((7 : Int), (7 : Int))]).getLast? = some (7, 7) ∧
      ([((4 : Int), (7 : Int)), (5, 7), (6, 7)].length = 1 →
        snakeCells s2 = some [(7, 7)] ∧ s2.snake.tail = s2.snake.head ∧
          s2.snake.head = some lineState.heap.length) ∧
      WellFormed s2 ∧
      s2 = { lineState with heap := s2.heap, snake := s2.snake } :=
  moveSnakeTo_slides lineState 7 7 [(4, 7), (5, 7), (6, 7)] lineState_wf (by decide)

/-- C6: for a well-formed snake with cell sequence `cs = c1 :: rest` (tail to
head), `growSnakeAt x y` returns with cell sequence `cs ++ [(x, y)]` and the
same tail segment, and `appendSnakeTail` returns with cell sequence
`c1 :: c1 :: rest` and the same head segment; each adds exactly one to the
length, leaves the snake well formed and changes nothing but the heap and the
snake. -/
theorem grow_and_append (s : State) (x y : Int) (cs : List (Int × Int))
    (hwf : WellFormed s) (hcs : snakeCells s = some cs) :
    (∃ s2, growSnakeAt s x y = some s2 ∧
      snakeCells s2 = some (cs ++ [(x, y)]) ∧
      (cs ++ [(x, y)]).length = cs.length + 1 ∧
      s2.snake.tail = s.snake.tail ∧
      WellFormed s2 ∧
      s2 = { s with heap := s2.heap, snake := s2.snake }) ∧
    (∃ s3 c1 rest, appendSnakeTail s = some s3 ∧
      cs = c1 :: rest ∧
      snakeCells s3 = some (c1 :: c1 :: rest) ∧
      (c1 :: c1 :: rest).length = cs.length + 1 ∧
      s3.snake.head = s.snake.head ∧
      WellFormed s3 ∧
      s3 = { s with heap := s3.heap, snake := s3.snake }) := by
  constructor
  · obtain ⟨s2, hres, hwf2, hcells, htail, _, _, hframe⟩ := growSnakeAt_spec s x y cs hwf hcs
    exact ⟨s2, hres, hcells, by simp, htail, hwf2, hframe⟩
  · obtain ⟨s3, c1, rest, hres, hwf3, hcs3, hcells, hhead, _, _, hframe⟩ :=
      appendSnakeTail_spec s cs hwf hcs
    exact ⟨s3, c1, rest, hres, hcs3, hcells, by simp [hcs3], hhead, hwf3, hframe⟩

theorem grow_and_append_witness :
    (∃ s2, growSnakeAt lineState 7 7 = some s2 ∧
      snakeCells s2 = some ([(4, 7), (5, 7), (6, 7)] ++ [(7, 7)]) ∧
      ([((4 : Int), (7 : Int)), (5, 7), (6, 7)] ++ [(7, 7)]).length =
        [((4 : Int), (7 : Int)), (5, 7), (6, 7)].length + 1 ∧
      s2.snake.tail = lineState.snake.tail ∧
      WellFormed s2 ∧
      s2 = { lineState with heap := s2.heap, snake := s2.snake }) ∧
    (∃ s3 c1 rest, appendSnakeTail lineState = some s3 ∧
      [((4 : Int), (7 : Int)), (5, 7), (6, 7)] = c1 :: rest ∧
      snakeCells s3 = some (c1 :: c1 :: rest) ∧
      (c1 :: c1 :: rest).length = [((4 : Int), (7 : Int)), (5, 7), (6, 7)].length + 1 ∧
      s3.snake.head = lineState.snake.head ∧
      WellFormed s3 ∧
      s3 = { lineState with heap := s3.heap, snake := s3.snake }) :=
  grow_and_append lineState 7 7 [(4, 7), (5, 7), (6, 7)] lineState_wf (by decide)

/-! ## The candidate cell (C7, C8) -/

theorem moveSnake_eq (s : State) (h : Nat) (b : SnakeBody) (r : Int)
    (hhead : s.snake.head = some h) (hb : s.heap[h]? = some b) :
    moveSnake s r =
      some ({ s with snake := { s.snake with mdir := turn s.snake.mdir r } },
        stepFrom (turn s.snake.mdir r) b.x b.y) := by
  simp only [moveSnake, hhead, hb]

theorem stepFrom_eq_wrap (d x y : Int) :
    stepFrom d x y = wrap (x + (delta d).1) (y + (delta d).2) := by
  unfold stepFrom wrap delta
  split_ifs <;> simp <;> ring_nf

theorem turn_opposite (d : Int) (hd : IsDir d) : turn d (opposite d) = d := by
  rcases hd with rfl | rfl | rfl | rfl <;> decide

theorem turn_other (d r : Int) (hd : IsDir d) (hr : IsDir r) (hne : r ≠ opposite d) :
    turn d r = r := by
  rcases hd with rfl | rfl | rfl | rfl <;> rcases hr with rfl | rfl | rfl | rfl <;>
    first
      | decide
      | exact absurd (by decide) hne

theorem turn_isDir (d r : Int) (hd : IsDir d) : IsDir (turn d r) := by
  unfold turn
  split_ifs with h
  · rcases h with h | h | h | h
    · exact Or.inl h.1
    · exact Or.inr (Or.inl h.1)
    · exact Or.inr (Or.inr (Or.inl h.1))
    · exact Or.inr (Or.inr (Or.inr h.1))
  · exact hd

/-- C7: for a snake moving in direction `d` (one of the four) and a requested
direction `r`: if `r` is the opposite of `d`, `moveSnake r` keeps the moving
direction (the state is unchanged) and returns the head cell stepped one unit
in direction `d` and wrapped; if `r` is one of the four directions and not the
opposite of `d`, the moving direction becomes `r` and the returned cell is the
head stepped one unit in direction `r` and wrapped. -/
theorem moveSnake_direction (s : State) (h : Nat) (b : SnakeBody) (r : Int)
    (hhead : s.snake.head = some h) (hb : s.heap[h]? = some b) (hd : IsDir s.snake.mdir) :
    (r = opposite s.snake.mdir →
      moveSnake s r =
        some (s, wrap (b.x + (delta s.snake.mdir).1) (b.y + (delta s.snake.mdir).2))) ∧
    (IsDir r → r ≠ opposite s.snake.mdir →
      moveSnake s r =
        some ({ s with snake := { s.snake with mdir := r } },
          wrap (b.x + (delta r).1) (b.y + (delta r).2))) := by
  constructor
  · intro hr
    rw [moveSnake_eq s h b r hhead hb, hr, turn_opposite _ hd, stepFrom_eq_wrap]
  · intro hr hne
    rw [moveSnake_eq s h b r hhead hb, turn_other _ _ hd hr hne, stepFrom_eq_wrap]

theorem moveSnake_direction_witness :
    (DIR_LEFT = opposite lineState.snake.mdir →
      moveSnake lineState DIR_LEFT =
        some (lineState, wrap (6 + (delta lineState.snake.mdir).1)
          (7 + (delta lineState.snake.mdir).2))) ∧
    (IsDir DIR_LEFT → DIR_LEFT ≠ opposite lineState.snake.mdir →
      moveSnake lineState DIR_LEFT =
        some ({ lineState with snake := { lineState.snake with mdir := DIR_LEFT } },
          wrap (6 + (delta DIR_LEFT).1) (7 + (delta DIR_LEFT).2))) :=
  moveSnake_direction lineState 2 ⟨6, 7, none⟩ DIR_LEFT rfl rfl (by decide)

theorem wrap_of_near (x y : Int) (hx : -GRID_WIDTH ≤ x) (hy : -GRID_HEIGHT ≤ y) :
    wrap x y = ((x + GRID_WIDTH) % GRID_WIDTH, (y + GRID_HEIGHT) % GRID_HEIGHT) := by
  unfold wrap
  unfold GRID_WIDTH at hx
  unfold GRID_HEIGHT at hy
  rw [Int.tmod_eq_emod (by unfold GRID_WIDTH; omega) (by decide),
    Int.tmod_eq_emod (by unfold GRID_HEIGHT; omega) (by decide)]

theorem delta_small (d : Int) :
    -1 ≤ (delta d).1 ∧ (delta d).1 ≤ 1 ∧ -1 ≤ (delta d).2 ∧ (delta d).2 ≤ 1 := by
  unfold delta
  split_ifs <;> simp

/-- C8: for a snake whose head cell `(x, y)` lies in the grid, and for every
requested direction and moving direction, `moveSnake` returns the head stepped
one unit in the direction it moves in, with wrap-around:
`((x + dx) mod 32, (y + dy) mod 24)`, a cell of the grid.  At the edges the
cell is on the opposite side: RIGHT from `(31, y)` gives `(0, y)`, LEFT from
`(0, y)` gives `(31, y)`, UP from `(x, 0)` gives `(x, 23)`, DOWN from `(x, 23)`
gives `(x, 0)`. -/
theorem moveSnake_wraps (s : State) (h : Nat) (b : SnakeBody) (r : Int)
    (hhead : s.snake.head = some h) (hb : s.heap[h]? = some b)
    (hx : 0 ≤ b.x ∧ b.x < 32) (hy : 0 ≤ b.y ∧ b.y < 24) :
    ∃ s2 x2 y2, moveSnake s r = some (s2, x2, y2) ∧
      s2.snake.mdir = turn s.snake.mdir r ∧
      (IsDir s.snake.mdir → IsDir s2.snake.mdir) ∧
      x2 = (b.x + (delta s2.snake.mdir).1) % 32 ∧
      y2 = (b.y + (delta s2.snake.mdir).2) % 24 ∧
      (0 ≤ x2 ∧ x2 < 32) ∧ (0 ≤ y2 ∧ y2 < 24) ∧
      (s2.snake.mdir = DIR_RIGHT → b.x = 31 → (x2, y2) = (0, b.y)) ∧
      (s2.snake.mdir = DIR_LEFT → b.x = 0 → (x2, y2) = (31, b.y)) ∧
      (s2.snake.mdir = DIR_UP → b.y = 0 → (x2, y2) = (b.x, 23)) ∧
      (s2.snake.mdir = DIR_DOWN → b.y = 23 → (x2, y2) = (b.x, 0)) := by
  obtain ⟨d1, d2, d3, d4⟩ := delta_small (turn s.snake.mdir r)
  have hm := moveSnake_eq s h b r hhead hb
  rw [stepFrom_eq_wrap, wrap_of_near _ _ (by unfold GRID_WIDTH; omega)
    (by unfold GRID_HEIGHT; omega)] at hm
  refine ⟨_, _, _, hm, rfl, turn_isDir _ _, ?_⟩
  dsimp only [GRID_WIDTH, GRID_HEIGHT]
  refine ⟨by omega, by omega, by omega, by omega, ?_, ?_, ?_, ?_⟩
  · intro hdir hedge
    rw [hdir, hedge, show delta DIR_RIGHT = (1, 0) from rfl]
    simp
    omega
  · intro hdir hedge
    rw [hdir, hedge, show delta DIR_LEFT = (-1, 0) from rfl]
    simp
    omega
  · intro hdir hedge
    rw [hdir, hedge, show delta DIR_UP = (0, -1) from rfl]
    simp
    omega
  · intro hdir hedge
    rw [hdir, hedge, show delta DIR_DOWN = (0, 1) from rfl]
    simp
    omega

theorem moveSnake_wraps_witness :
    ∃ s2 x2 y2, moveSnake cornerState DIR_RIGHT = some (s2, x2, y2) ∧
      s2.snake.mdir = turn cornerState.snake.mdir DIR_RIGHT ∧
      (IsDir cornerState.snake.mdir → IsDir s2.snake.mdir) ∧
      x2 = (31 + (delta s2.snake.mdir).1) % 32 ∧
      y2 = (0 + (delta s2.snake.mdir).2) % 24 ∧
      (0 ≤ x2 ∧ x2 < 32) ∧ (0 ≤ y2 ∧ y2 < 24) ∧
      (s2.snake.mdir = DIR_RIGHT → (31 : Int) = 31 → (x2, y2) = (0, 0)) ∧
      (s2.snake.mdir = DIR_LEFT → (31 : Int) = 0 → (x2, y2) = (31, 0)) ∧
      (s2.snake.mdir = DIR_UP → (0 : Int) = 0 → (x2, y2) = (31, 23)) ∧
      (s2.snake.mdir = DIR_DOWN → (0 : Int) = 23 → (x2, y2) = (31, 0)) :=
  moveSnake_wraps cornerState 0 ⟨31, 0, none⟩ DIR_RIGHT rfl rfl (by decide) (by decide)

/-! ## The move period (C9) -/

theorem fasterTicker_tickMS (s : State) (t : Int) :
    (fasterTicker s t).tickMS = if s.tickMS < 10 then s.tickMS else s.tickMS - t := by
  unfold fasterTicker
  split_ifs <;> rfl

theorem fasterTicker_bounds (s : State) (t : Int) (ht : t = 1 ∨ t = 5)
    (h : 5 ≤ s.tickMS ∧ s.tickMS ≤ 150) :
    5 ≤ (fasterTicker s t).tickMS ∧ (fasterTicker s t).tickMS ≤ 150 := by
  rw [fasterTicker_tickMS]
  split_ifs <;> rcases ht with rfl | rfl <;> omega

theorem foldl_fasterTicker_bounds (ts : List Int) (hts : ∀ t ∈ ts, t = 1 ∨ t = 5) :
    ∀ s : State, 5 ≤ s.tickMS ∧ s.tickMS ≤ 150 →
      5 ≤ (ts.foldl fasterTicker s).tickMS ∧ (ts.foldl fasterTicker s).tickMS ≤ 150 := by
  induction ts with
  | nil =>
    intro s h
    exact h
  | cons t ts ih =>
    intro s h
    rw [List.foldl_cons]
    exact ih (fun u hu => hts u (List.mem_cons_of_mem _ hu)) _
      (fasterTicker_bounds s t (hts t (List.mem_cons_self _ _)) h)

/-- C9, as stated, fails: from the reset state (tickMS = 150), 29 calls of
`fasterTicker(5)` leave tickMS at 5, and 141 calls of `fasterTicker(1)` leave
it at 9; both are below the threshold 10 that `fasterTicker` tests. -/
theorem fasterTicker_below_threshold :
    centreState.tickMS = 150 ∧
      (List.foldl fasterTicker centreState (List.replicate 29 5)).tickMS = 5 ∧
      (List.foldl fasterTicker centreState (List.replicate 141 1)).tickMS = 9 ∧
      ¬ (10 ≤ (List.foldl fasterTicker centreState (List.replicate 29 5)).tickMS) ∧
      ¬ (10 ≤ (List.foldl fasterTicker centreState (List.replicate 141 1)).tickMS) := by
  set_option maxRecDepth 100000 in decide

/-- C9, amended: starting from tickMS = 150, after any finite sequence of
calls `fasterTicker(1)` and `fasterTicker(5)` in any order, tickMS is at least
5 (and at most 150): a call changes nothing once tickMS is below 10, and the
last decrement before that takes at most 5 from a value of at least 10. -/
theorem fasterTicker_floor (s : State) (ts : List Int) (hinit : s.tickMS = 150)
    (hts : ∀ t ∈ ts, t = 1 ∨ t = 5) :
    5 ≤ (ts.foldl fasterTicker s).tickMS ∧ (ts.foldl fasterTicker s).tickMS ≤ 150 :=
  foldl_fasterTicker_bounds ts hts s (by omega)

theorem fasterTicker_floor_witness :
    5 ≤ ([1, 5, 5, 1].foldl fasterTicker centreState).tickMS ∧
      ([1, 5, 5, 1].foldl fasterTicker centreState).tickMS ≤ 150 :=
  fasterTicker_floor centreState [1, 5, 5, 1] rfl (by decide)

/-! ## Paused and game over (C3) -/

theorem update_gameover (s : State) (inp : Input) (hs : s.status = STATUS_GAMEOVER)
    (hinp : inp.spaceJustPressed = false) : Update s inp = some s := by
  simp [Update, hs, handleGameOver, hinp, STATUS_GAMEOVER, STATUS_PAUSED, STATUS_RUNNING]

theorem run_gameover (inps : List Input) (s : State) (hs : s.status = STATUS_GAMEOVER)
    (hinps : ∀ inp ∈ inps, inp.spaceJustPressed = false) : run s inps = some s := by
  induction inps with
  | nil => rfl
  | cons inp inps ih =>
    simp only [run, update_gameover s inp hs (hinps inp (List.mem_cons_self _ _))]
    exact ih (fun i hi => hinps i (List.mem_cons_of_mem _ hi))

/-- C3: in a GAME_OVER state any number of consecutive `Update` calls without
the restart signal, at any times, return the state they were given, every
variable unchanged; in a PAUSED state an `Update` call changes nothing but
the status, which becomes RUNNING exactly when some key is pressed and stays
PAUSED otherwise. -/
theorem frozen_outside_running (s : State) (inp : Input) (inps : List Input) :
    (s.status = STATUS_GAMEOVER → (∀ i ∈ inps, i.spaceJustPressed = false) →
      run s inps = some s) ∧
    (s.status = STATUS_GAMEOVER → inp.spaceJustPressed = false → Update s inp = some s) ∧
    (s.status = STATUS_PAUSED →
      ∃ s2, Update s inp = some s2 ∧ s2 = { s with status := s2.status } ∧
        (s2.status = STATUS_RUNNING ↔ inp.pressedKeys ≠ []) ∧
        (s2.status = STATUS_PAUSED ↔ inp.pressedKeys = [])) := by
  refine ⟨fun hs h => run_gameover inps s hs h, fun hs h => update_gameover s inp hs h, ?_⟩
  intro hs
  refine ⟨handlePaused s inp, by simp [Update, hs], ?_, ?_, ?_⟩
  · unfold handlePaused
    split_ifs
    · rfl
    · cases s
      rfl
  · unfold handlePaused
    split_ifs with hk
    · simp only [true_iff]
      intro hnil
      simp [hnil] at hk
    · have : inp.pressedKeys = [] := by simpa using hk
      simp [this, hs, STATUS_PAUSED, STATUS_RUNNING]
  · unfold handlePaused
    split_ifs with hk
    · have hne : inp.pressedKeys ≠ [] := by
        intro hnil
        simp [hnil] at hk
      simp [hne, STATUS_PAUSED, STATUS_RUNNING]
    · have : inp.pressedKeys = [] := by simpa using hk
      simp [this, hs]

theorem frozen_outside_running_witness :
    run gameOverState [idleAt 40017, idleAt 40033, idleAt 90000] = some gameOverState :=
  (frozen_outside_running gameOverState (idleAt 40017)
    [idleAt 40017, idleAt 40033, idleAt 90000]).1 rfl (by decide)

/-! ## A movement tick that ends the game (C1) -/

theorem isSnakeBody_congr {s s2 : State} (x y : Int) (hheap : s2.heap = s.heap)
    (htail : s2.snake.tail = s.snake.tail) : isSnakeBody s2 x y = isSnakeBody s x y := by
  unfold isSnakeBody
  rw [hheap, htail]

theorem snakeCells_congr {s s2 : State} (hheap : s2.heap = s.heap)
    (htail : s2.snake.tail = s.snake.tail) : snakeCells s2 = snakeCells s := by
  unfold snakeCells
  rw [hheap, htail]

theorem WellFormed.congr {s s2 : State} (hwf : WellFormed s) (hheap : s2.heap = s.heap)
    (hhead : s2.snake.head = s.snake.head) (htail : s2.snake.tail = s.snake.tail) :
    WellFormed s2 := by
  unfold WellFormed at *
  rw [hheap, hhead, htail]
  exact hwf

theorem moveSnake_inv {s s1 : State} {d x y : Int} (hm : moveSnake s d = some (s1, x, y)) :
    ∃ h b, s.snake.head = some h ∧ s.heap[h]? = some b ∧
      s1 = { s with snake := { s.snake with mdir := turn s.snake.mdir d } } ∧
      (x, y) = stepFrom (turn s.snake.mdir d) b.x b.y := by
  cases hh : s.snake.head with
  | none => simp [moveSnake, hh] at hm
  | some h =>
    cases hb : s.heap[h]? with
    | none => simp [moveSnake, hh, hb] at hm
    | some b =>
      rw [moveSnake_eq s h b d hh hb] at hm
      simp only [Option.some.injEq, Prod.mk.injEq] at hm
      exact ⟨h, b, rfl, hb, hm.1.symm, hm.2.symm⟩

theorem handleMove_gameover (s : State) (t : Int) (draws : List (Int × Int)) (s1 : State)
    (x y : Int) (hdue : t - s.lastTick > s.tickMS)
    (hcand : moveSnake s s.movingDirection = some (s1, x, y))
    (hbody : isSnakeBody s x y = some true) :
    handleMove s t draws = some { s1 with lastTick := t, status := STATUS_GAMEOVER } := by
  obtain ⟨h, b, hhead, hb, hs1, hxy⟩ := moveSnake_inv hcand
  have hm := moveSnake_eq { s with lastTick := t } h b s.movingDirection hhead hb
  have hx : (stepFrom (turn s.snake.mdir s.movingDirection) b.x b.y).1 = x :=
    (congrArg Prod.fst hxy).symm
  have hy : (stepFrom (turn s.snake.mdir s.movingDirection) b.x b.y).2 = y :=
    (congrArg Prod.snd hxy).symm
  have hbody2 : isSnakeBody
      { s with lastTick := t, snake := { s.snake with mdir := turn s.snake.mdir s.movingDirection } }
      x y = some true := hbody
  unfold handleMove
  rw [if_pos hdue]
  simp only [hm, hx, hy, hbody2, hs1]

/-- C1: in a RUNNING state in which a movement tick is due at time `t` and the
candidate cell of `moveSnake` is occupied by the body as it is before the move
(`isSnakeBody` says true; the tail cell counts, and so does a cell that also
holds the egg), `handleMove` returns with status GAME_OVER and neither eats
nor moves: the segments, head and tail, the cell sequence, the egg, score,
highest and tickMS are as before.  The result differs from the state before
only in status, lastTick and the moving direction stored by `moveSnake`. -/
theorem handleMove_collision (s : State) (t : Int) (draws : List (Int × Int)) (s1 : State)
    (x y : Int) (hrun : s.status = STATUS_RUNNING) (hdue : t - s.lastTick > s.tickMS)
    (hcand : moveSnake s s.movingDirection = some (s1, x, y))
    (hbody : isSnakeBody s x y = some true) :
    ∃ s2, handleMove s t draws = some s2 ∧ s2.status = STATUS_GAMEOVER ∧
      s.status = STATUS_RUNNING ∧
      s2.heap = s.heap ∧ s2.snake.head = s.snake.head ∧ s2.snake.tail = s.snake.tail ∧
      snakeCells s2 = snakeCells s ∧
      s2.eggX = s.eggX ∧ s2.eggY = s.eggY ∧ s2.score = s.score ∧
      s2.highest = s.highest ∧ s2.tickMS = s.tickMS ∧
      s2 = { s with
        status := STATUS_GAMEOVER
        lastTick := t
        snake := { s.snake with mdir := turn s.snake.mdir s.movingDirection } } := by
  obtain ⟨h, b, hhead, hb, hs1, hxy⟩ := moveSnake_inv hcand
  refine ⟨_, handleMove_gameover s t draws s1 x y hdue hcand hbody, rfl, hrun, ?_⟩
  subst hs1
  exact ⟨rfl, rfl, rfl, rfl, rfl, rfl, rfl, rfl, rfl, rfl⟩

theorem handleMove_collision_witness :
    ∃ s2, handleMove eggOnTailState 40000 [] = some s2 ∧ s2.status = STATUS_GAMEOVER ∧
      eggOnTailState.status = STATUS_RUNNING ∧
      s2.heap = eggOnTailState.heap ∧ s2.snake.head = eggOnTailState.snake.head ∧
      s2.snake.tail = eggOnTailState.snake.tail ∧
      snakeCells s2 = snakeCells eggOnTailState ∧
      s2.eggX = eggOnTailState.eggX ∧ s2.eggY = eggOnTailState.eggY ∧
      s2.score = eggOnTailState.score ∧
      s2.highest = eggOnTailState.highest ∧ s2.tickMS = eggOnTailState.tickMS ∧
      s2 = { eggOnTailState with
        status := STATUS_GAMEOVER
        lastTick := 40000
        snake := { eggOnTailState.snake with
          mdir := turn eggOnTailState.snake.mdir eggOnTailState.movingDirection } } :=
  handleMove_collision eggOnTailState 40000 []
    { eggOnTailState with snake := { eggOnTailState.snake with mdir := 0 } } 5 5
    (by decide) (by decide) (by decide) (by decide)

/-! ## The escalation check (C10) -/

theorem handleTimeout_idle (s : State) (t : Int) (h : t - s.lastTimer ≤ 30000) :
    handleTimeout s t = some s := by
  unfold handleTimeout
  rw [if_neg (by omega)]

theorem handleTimeout_progress (s : State) (t : Int) (h : t - s.lastTimer > 30000)
    (hp : s.score > s.lastScore) :
    handleTimeout s t = some { s with lastTimer := t, lastScore := s.score } := by
  unfold handleTimeout
  rw [if_pos (by omega)]
  simp only [hp, if_true]

theorem handleTimeout_stagnant (s : State) (t : Int) (h : t - s.lastTimer > 30000)
    (hp : ¬ s.score > s.lastScore) :
    handleTimeout s t = appendSnakeTail (fasterTicker { s with lastTimer := t } 5) := by
  unfold handleTimeout
  rw [if_pos (by omega)]
  simp only [hp, if_false]

theorem fasterTicker_frame (s : State) (t : Int) :
    fasterTicker s t = { s with tickMS := (fasterTicker s t).tickMS } := by
  unfold fasterTicker
  split_ifs <;> rfl

/-- C10: the escalation rule of `handleTimeout` at time `t`, for a well-formed
snake with cell sequence `cs`.  If `t - lastTimer <= 30000` the state is
returned unchanged.  If `t - lastTimer > 30000` and `score > lastScore`, only
lastTimer (now `t`) and lastScore (now `score`) change.  If
`t - lastTimer > 30000` and the score has not risen, lastTimer becomes `t`, the
cell sequence `c1 :: rest` becomes `c1 :: c1 :: rest` (one more tail segment,
as `appendSnakeTail` makes it), tickMS goes down by exactly 5 when it was at
least 10 and stays when it was below 10, and nothing else changes besides
the heap and the tail pointer; in particular score, highest and the egg are
as before in all three cases. -/
theorem handleTimeout_rule (s : State) (t : Int) (cs : List (Int × Int))
    (hwf : WellFormed s) (hcs : snakeCells s = some cs) :
    (t - s.lastTimer ≤ 30000 → handleTimeout s t = some s) ∧
    (t - s.lastTimer > 30000 → s.score > s.lastScore →
      handleTimeout s t = some { s with lastTimer := t, lastScore := s.score }) ∧
    (t - s.lastTimer > 30000 → ¬ s.score > s.lastScore →
      ∃ s2 c1 rest, handleTimeout s t = some s2 ∧
        s2.lastTimer = t ∧
        cs = c1 :: rest ∧ snakeCells s2 = some (c1 :: c1 :: rest) ∧
        (c1 :: c1 :: rest).length = cs.length + 1 ∧
        s2.snake.head = s.snake.head ∧
        (10 ≤ s.tickMS → s2.tickMS = s.tickMS - 5) ∧
        (s.tickMS < 10 → s2.tickMS = s.tickMS) ∧
        s2.score = s.score ∧ s2.highest = s.highest ∧
        s2.eggX = s.eggX ∧ s2.eggY = s.eggY ∧
        WellFormed s2 ∧
        s2 = { s with
          heap := s2.heap, snake := s2.snake, tickMS := s2.tickMS, lastTimer := t }) := by
  refine ⟨handleTimeout_idle s t, handleTimeout_progress s t, ?_⟩
  intro hdue hp
  have hwf1 : WellFormed (fasterTicker { s with lastTimer := t } 5) := by
    rw [fasterTicker_frame]
    exact hwf.congr rfl rfl rfl
  have hcs1 : snakeCells (fasterTicker { s with lastTimer := t } 5) = some cs := by
    rw [fasterTicker_frame]
    exact hcs
  obtain ⟨s2, c1, rest, hres, hwf2, hcons, hcells, hhead, _, _, hframe⟩ :=
    appendSnakeTail_spec _ cs hwf1 hcs1
  have htick : s2.tickMS = if s.tickMS < 10 then s.tickMS else s.tickMS - 5 := by
    rw [hframe]
    exact fasterTicker_tickMS { s with lastTimer := t } 5
  rw [fasterTicker_frame] at hframe hhead
  refine ⟨s2, c1, rest, (handleTimeout_stagnant s t hdue hp).trans hres, ?_, hcons, hcells,
    by simp [hcons], hhead, ?_, ?_, ?_, ?_, ?_, ?_, hwf2, ?_⟩
  · rw [hframe]
  · intro h10
    rw [htick, if_neg (by omega)]
  · intro h10
    rw [htick, if_pos h10]
  · rw [hframe]
  · rw [hframe]
  · rw [hframe]
  · rw [hframe]
  · rw [htick]
    rw [hframe]
    simp only [fasterTicker_tickMS]

theorem handleTimeout_rule_witness :
    (40000 - lineState.lastTimer ≤ 30000 → handleTimeout lineState 40000 = some lineState) ∧
    (40000 - lineState.lastTimer > 30000 → lineState.score > lineState.lastScore →
      handleTimeout lineState 40000 =
        some { lineState with lastTimer := 40000, lastScore := lineState.score }) ∧
    (40000 - lineState.lastTimer > 30000 → ¬ lineState.score > lineState.lastScore →
      ∃ s2 c1 rest, handleTimeout lineState 40000 = some s2 ∧
        s2.lastTimer = 40000 ∧
        [((4 : Int), (7 : Int)), (5, 7), (6, 7)] = c1 :: rest ∧
        snakeCells s2 = some (c1 :: c1 :: rest) ∧
        (c1 :: c1 :: rest).length = [((4 : Int), (7 : Int)), (5, 7), (6, 7)].length + 1 ∧
        s2.snake.head = lineState.snake.head ∧
        (10 ≤ lineState.tickMS → s2.tickMS = lineState.tickMS - 5) ∧
        (lineState.tickMS < 10 → s2.tickMS = lineState.tickMS) ∧
        s2.score = lineState.score ∧ s2.highest = lineState.highest ∧
        s2.eggX = lineState.eggX ∧ s2.eggY = lineState.eggY ∧
        WellFormed s2 ∧
        s2 = { lineState with
          heap := s2.heap, snake := s2.snake, tickMS := s2.tickMS, lastTimer := 40000 }) :=
  handleTimeout_rule lineState 40000 [(4, 7), (5, 7), (6, 7)] lineState_wf (by decide)

/-! ## Placing the egg -/

theorem randomEgg_cons (s : State) (d : Int × Int) (ds : List (Int × Int)) :
    randomEgg s (d :: ds) =
      match isSnakeBody s d.1 d.2 with
      | none => none
      | some true => randomEgg { s with eggX := d.1, eggY := d.2 } ds
      | some false => some { s with eggX := d.1, eggY := d.2 } := rfl

theorem randomEgg_spec (draws : List (Int × Int)) :
    ∀ (s : State) (cs : List (Int × Int)), snakeCells s = some cs →
      (∃ d ∈ draws, d ∉ cs) →
      ∃ s2 pre d post, randomEgg s draws = some s2 ∧ draws = pre ++ d :: post ∧
        (∀ e ∈ pre, e ∈ cs) ∧ d ∉ cs ∧ s2 = { s with eggX := d.1, eggY := d.2 } := by
  induction draws with
  | nil =>
    intro s cs _ hfree
    obtain ⟨d, hd, _⟩ := hfree
    simp at hd
  | cons d ds ih =>
    intro s cs hcs hfree
    have hbody := isSnakeBody_of_snakeCells d.1 d.2 hcs
    by_cases hmem : d ∈ cs
    · have hmem2 : (d.1, d.2) ∈ cs := hmem
      have hfree2 : ∃ e ∈ ds, e ∉ cs := by
        obtain ⟨e, he, hne⟩ := hfree
        rcases List.mem_cons.mp he with rfl | he
        · exact absurd hmem hne
        · exact ⟨e, he, hne⟩
      obtain ⟨s2, pre, e, post, hres, hsplit, hpre, he, hs2⟩ :=
        ih { s with eggX := d.1, eggY := d.2 } cs hcs hfree2
      refine ⟨s2, d :: pre, e, post, ?_, by rw [hsplit]; rfl, ?_, he, hs2⟩
      · rw [randomEgg_cons, hbody]
        simp only [hmem2, decide_True]
        exact hres
      · intro f hf
        rcases List.mem_cons.mp hf with rfl | hf
        · exact hmem
        · exact hpre f hf
    · have hmem2 : ¬ (d.1, d.2) ∈ cs := hmem
      refine ⟨_, [], d, ds, ?_, rfl, by simp, hmem, rfl⟩
      rw [randomEgg_cons, hbody]
      simp only [hmem2, decide_False]

/-! ## A movement tick that eats the egg (C4) -/

theorem eat_fields (s4 : State) (t : Int) :
    ∀ fin : State,
      fin = { (if (fasterTicker s4 1).score + 1 > (fasterTicker s4 1).highest then
          { fasterTicker s4 1 with
            score := (fasterTicker s4 1).score + 1
            highest := (fasterTicker s4 1).score + 1 }
        else { fasterTicker s4 1 with score := (fasterTicker s4 1).score + 1 }) with
        lastTimer := t, redraw := true } →
      fin.heap = s4.heap ∧ fin.snake = s4.snake ∧ fin.eggX = s4.eggX ∧ fin.eggY = s4.eggY ∧
        fin.score = s4.score + 1 ∧ fin.highest = max s4.highest (s4.score + 1) ∧
        fin.tickMS = (if s4.tickMS < 10 then s4.tickMS else s4.tickMS - 1) ∧
        fin.lastTick = s4.lastTick ∧ fin.lastTimer = t ∧ fin.status = s4.status := by
  intro fin hfin
  have hframe := fasterTicker_frame s4 1
  have htick := fasterTicker_tickMS s4 1
  have hscore : (fasterTicker s4 1).score = s4.score := by rw [hframe]
  have hhigh : (fasterTicker s4 1).highest = s4.highest := by rw [hframe]
  rw [hscore, hhigh] at hfin
  by_cases hgt : s4.score + 1 > s4.highest
  · rw [if_pos hgt] at hfin
    subst hfin
    refine ⟨?_, ?_, ?_, ?_, rfl, ?_, htick, ?_, rfl, ?_⟩
    · show (fasterTicker s4 1).heap = s4.heap
      rw [hframe]
    · show (fasterTicker s4 1).snake = s4.snake
      rw [hframe]
    · show (fasterTicker s4 1).eggX = s4.eggX
      rw [hframe]
    · show (fasterTicker s4 1).eggY = s4.eggY
      rw [hframe]
    · show s4.score + 1 = max s4.highest (s4.score + 1)
      rw [max_eq_right (le_of_lt hgt)]
    · show (fasterTicker s4 1).lastTick = s4.lastTick
      rw [hframe]
    · show (fasterTicker s4 1).status = s4.status
      rw [hframe]
  · rw [if_neg hgt] at hfin
    subst hfin
    refine ⟨?_, ?_, ?_, ?_, rfl, ?_, htick, ?_, rfl, ?_⟩
    · show (fasterTicker s4 1).heap = s4.heap
      rw [hframe]
    · show (fasterTicker s4 1).snake = s4.snake
      rw [hframe]
    · show (fasterTicker s4 1).eggX = s4.eggX
      rw [hframe]
    · show (fasterTicker s4 1).eggY = s4.eggY
      rw [hframe]
    · show (fasterTicker s4 1).highest = max s4.highest (s4.score + 1)
      rw [hhigh, max_eq_left (not_lt.mp hgt)]
    · show (fasterTicker s4 1).lastTick = s4.lastTick
      rw [hframe]
    · show (fasterTicker s4 1).status = s4.status
      rw [hframe]

theorem handleMove_eat_eq (s : State) (t : Int) (draws : List (Int × Int)) (s1 s3 s4 : State)
    (x y : Int) (hdue : t - s.lastTick > s.tickMS)
    (hcand : moveSnake s s.movingDirection = some (s1, x, y))
    (hbody : isSnakeBody s x y = some false) (hegg : x = s.eggX ∧ y = s.eggY)
    (hgrow : growSnakeAt { s1 with lastTick := t } x y = some s3)
    (hrand : randomEgg s3 draws = some s4) :
    handleMove s t draws =
      some { (if (fasterTicker s4 1).score + 1 > (fasterTicker s4 1).highest then
          { fasterTicker s4 1 with
            score := (fasterTicker s4 1).score + 1
            highest := (fasterTicker s4 1).score + 1 }
        else { fasterTicker s4 1 with score := (fasterTicker s4 1).score + 1 }) with
        lastTimer := t, redraw := true } := by
  obtain ⟨h, b, hhead, hb, hs1, hxy⟩ := moveSnake_inv hcand
  have hm := moveSnake_eq { s with lastTick := t } h b s.movingDirection hhead hb
  have hx : (stepFrom (turn s.snake.mdir s.movingDirection) b.x b.y).1 = x :=
    (congrArg Prod.fst hxy).symm
  have hy : (stepFrom (turn s.snake.mdir s.movingDirection) b.x b.y).2 = y :=
    (congrArg Prod.snd hxy).symm
  have hbody2 : isSnakeBody
      { s with lastTick := t, snake := { s.snake with mdir := turn s.snake.mdir s.movingDirection } }
      x y = some false := hbody
  subst hs1
  have hgrow2 : growSnakeAt
      { s with lastTick := t, snake := { s.snake with mdir := turn s.snake.mdir s.movingDirection } }
      x y = some s3 := hgrow
  unfold handleMove
  rw [if_pos hdue]
  simp only [hm, hx, hy, hbody2]
  rw [if_pos hegg]
  simp only [hgrow2, hrand]

/-- Eating the egg while a free cell is left: in a RUNNING state with a
well-formed snake of cell sequence `cs`, in which a movement tick is due at
time `t`, the candidate cell `c = (x, y)` of `moveSnake` is not on the body and
is the egg cell, and the random source offers at least one cell off the grown
body, `handleMove` returns and: the
cell sequence is `cs ++ [c]` (one longer, same tail segment); score is one
more; highest is the maximum of the old highest and the new score; tickMS is
one less when it was at least 10 (and as before when it was below 10);
lastTick and lastTimer are `t`; the new egg is a drawn cell that is not on the
new body; the status stays RUNNING and the snake is well formed.  In
particular a one-segment snake with score 0 and tickMS 150, as `resetGame`
leaves it, has length 2, score 1 and tickMS 149 afterwards. -/
theorem handleMove_eats (s : State) (t : Int) (draws : List (Int × Int))
    (cs : List (Int × Int)) (s1 : State) (x y : Int)
    (hwf : WellFormed s) (hcs : snakeCells s = some cs)
    (hrun : s.status = STATUS_RUNNING) (hdue : t - s.lastTick > s.tickMS)
    (hcand : moveSnake s s.movingDirection = some (s1, x, y))
    (hbody : isSnakeBody s x y = some false) (hegg : x = s.eggX ∧ y = s.eggY)
    (hfree : ∃ d ∈ draws, d ∉ cs ++ [(x, y)]) :
    ∃ s2, handleMove s t draws = some s2 ∧
      snakeCells s2 = some (cs ++ [(x, y)]) ∧
      (cs ++ [(x, y)]).length = cs.length + 1 ∧
      s2.snake.tail = s.snake.tail ∧
      s2.score = s.score + 1 ∧
      s2.highest = max s.highest (s.score + 1) ∧
      (10 ≤ s.tickMS → s2.tickMS = s.tickMS - 1) ∧
      (s.tickMS < 10 → s2.tickMS = s.tickMS) ∧
      s2.lastTick = t ∧ s2.lastTimer = t ∧
      (s2.eggX, s2.eggY) ∈ draws ∧
      (s2.eggX, s2.eggY) ∉ cs ++ [(x, y)] ∧
      isSnakeBody s2 s2.eggX s2.eggY = some false ∧
      s2.status = STATUS_RUNNING ∧
      WellFormed s2 ∧
      (cs.length = 1 → s.score = 0 → s.tickMS = 150 →
        (cs ++ [(x, y)]).length = 2 ∧ s2.score = 1 ∧ s2.tickMS = 149) := by
  obtain ⟨h, b, hhead, hb, hs1, hxy⟩ := moveSnake_inv hcand
  have hwfB : WellFormed { s1 with lastTick := t } := by
    rw [hs1]
    exact hwf.congr rfl rfl rfl
  have hcsB : snakeCells { s1 with lastTick := t } = some cs := by
    rw [hs1]
    exact hcs
  obtain ⟨s3, hgrow, hwf3, hcells3, htail3, _, _, hframe3⟩ :=
    growSnakeAt_spec _ x y cs hwfB hcsB
  obtain ⟨s4, pre, d, post, hrand, hsplit, _, hd, hs4⟩ :=
    randomEgg_spec draws s3 _ hcells3 hfree
  have hmove := handleMove_eat_eq s t draws s1 s3 s4 x y hdue hcand hbody hegg hgrow hrand
  obtain ⟨f1, f2, f3, f4, f5, f6, f7, f8, f9, f10⟩ := eat_fields s4 t _ rfl
  have h4heap : s4.heap = s3.heap := by rw [hs4]
  have h4snake : s4.snake = s3.snake := by rw [hs4]
  have h4x : s4.eggX = d.1 := by rw [hs4]
  have h4y : s4.eggY = d.2 := by rw [hs4]
  have h3tail : s3.snake.tail = s.snake.tail := by
    rw [htail3, hs1]
  have h4score : s4.score = s.score := by rw [hs4, hframe3, hs1]
  have h4high : s4.highest = s.highest := by rw [hs4, hframe3, hs1]
  have h4tick : s4.tickMS = s.tickMS := by rw [hs4, hframe3, hs1]
  have h4last : s4.lastTick = t := by rw [hs4, hframe3]
  have h4status : s4.status = s.status := by rw [hs4, hframe3, hs1]
  have hcellsF := snakeCells_congr (f1.trans h4heap) ((congrArg Snake.tail f2).trans
    (congrArg Snake.tail h4snake))
  have heggF : ((_ : State).eggX, (_ : State).eggY) = d :=
    Prod.ext (f3.trans h4x) (f4.trans h4y)
  refine ⟨_, hmove, hcellsF.trans hcells3, by simp, ?_, ?_, ?_, ?_, ?_, ?_, f9, ?_, ?_, ?_,
    ?_, ?_, ?_⟩
  · rw [f2, h4snake, h3tail]
  · rw [f5, h4score]
  · rw [f6, h4score, h4high]
  · intro h10
    rw [f7, h4tick]
    exact if_neg (by omega)
  · intro h10
    rw [f7, h4tick]
    exact if_pos h10
  · rw [f8, h4last]
  · rw [heggF, hsplit]
    simp
  · rw [heggF]
    exact hd
  · rw [isSnakeBody_of_snakeCells _ _ (hcellsF.trans hcells3), heggF]
    simp only [hd, decide_False]
  · rw [f10, h4status]
    exact hrun
  · exact hwf3.congr (f1.trans h4heap) ((congrArg Snake.head f2).trans
      (congrArg Snake.head h4snake)) ((congrArg Snake.tail f2).trans
      (congrArg Snake.tail h4snake))
  · intro hlen hscore htick
    refine ⟨by simp [hlen], ?_, ?_⟩
    · rw [f5, h4score, hscore]
      rfl
    · rw [f7, h4tick, htick]
      rfl

theorem startedState_wf : WellFormed startedState :=
  ⟨[0], Chain.cons (b := ⟨16, 12, none⟩) rfl Chain.nil, rfl, by decide⟩

theorem handleMove_eats_witness :
    ∃ s2, handleMove startedState 1200 [(16, 11), (3, 4)] = some s2 ∧
      snakeCells s2 = some [(16, 12), (16, 11)] ∧
      s2.score = 1 ∧ s2.highest = 1 ∧ s2.tickMS = 149 ∧
      s2.lastTick = 1200 ∧ s2.lastTimer = 1200 ∧
      (s2.eggX, s2.eggY) ∉ [((16 : Int), (12 : Int)), (16, 11)] ∧
      s2.status = STATUS_RUNNING := by
  obtain ⟨s2, h1, h2, _, _, h5, h6, h7, _, h9, h10, _, h12, _, h14, _, _⟩ :=
    handleMove_eats startedState 1200 [(16, 11), (3, 4)] [(16, 12)]
      { startedState with snake := { startedState.snake with mdir := 0 } } 16 11
      startedState_wf (by decide) (by decide) (by decide) (by decide) (by decide)
      (by decide) ⟨(3, 4), by decide, by decide⟩
  exact ⟨s2, h1, h2, h5, h6, h7 (by decide), h9, h10, h12, h14⟩

/-! ## A whole `Update` call that ends the game (C2) -/

theorem isSnakeBody_true_tail {s : State} {x y : Int} (h : isSnakeBody s x y = some true) :
    ∃ a b, s.snake.tail = some a ∧ s.heap[a]? = some b := by
  unfold isSnakeBody at h
  cases ht : s.snake.tail with
  | none =>
    rw [ht] at h
    cases hl : s.heap.length <;> simp [hl, isSnakeBodyFrom] at h
  | some a =>
    cases hb : s.heap[a]? with
    | none =>
      rw [ht] at h
      cases hl : s.heap.length <;> simp [hl, isSnakeBodyFrom, hb] at h
    | some b => exact ⟨a, b, rfl, hb⟩

theorem appendSnakeTail_eq (s : State) (a : Nat) (b : SnakeBody) (htail : s.snake.tail = some a)
    (hb : s.heap[a]? = some b) :
    appendSnakeTail s =
      some { s with
        heap := s.heap ++ [{ x := b.x, y := b.y, prev := some a }]
        snake := { s.snake with tail := some s.heap.length } } := by
  simp only [appendSnakeTail, htail, hb]

theorem handleTimeout_fields (s : State) (t : Int) (a : Nat) (b : SnakeBody)
    (htail : s.snake.tail = some a) (hb : s.heap[a]? = some b) :
    ∃ s2, handleTimeout s t = some s2 ∧ s2.status = s.status ∧
      s2.eggX = s.eggX ∧ s2.eggY = s.eggY ∧ s2.score = s.score ∧ s2.highest = s.highest ∧
      s2.snake.head = s.snake.head ∧ s2.snake.mdir = s.snake.mdir ∧
      s2.lastTick = s.lastTick ∧
      (t - s.lastTimer ≤ 30000 → s2.lastTimer = s.lastTimer) ∧
      (t - s.lastTimer > 30000 → s2.lastTimer = t) ∧
      (t - s.lastTimer ≤ 30000 ∨ s.score > s.lastScore →
        s2.heap = s.heap ∧ s2.snake = s.snake ∧ s2.tickMS = s.tickMS) ∧
      (t - s.lastTimer > 30000 → ¬ s.score > s.lastScore →
        s2.heap = s.heap ++ [{ x := b.x, y := b.y, prev := some a }] ∧
          s2.snake.tail = some s.heap.length ∧
          s2.tickMS = if s.tickMS < 10 then s.tickMS else s.tickMS - 5) := by
  by_cases hdue : t - s.lastTimer > 30000
  · by_cases hp : s.score > s.lastScore
    · refine ⟨_, handleTimeout_progress s t hdue hp, rfl, rfl, rfl, rfl, rfl, rfl, rfl, rfl,
        ?_, fun _ => rfl, fun _ => ⟨rfl, rfl, rfl⟩, fun _ hnp => absurd hp hnp⟩
      intro hle
      omega
    · have hframe := fasterTicker_frame { s with lastTimer := t } 5
      have htick := fasterTicker_tickMS { s with lastTimer := t } 5
      have hres := appendSnakeTail_eq (fasterTicker { s with lastTimer := t } 5) a b
        (by rw [hframe]; exact htail) (by rw [hframe]; exact hb)
      refine ⟨_, (handleTimeout_stagnant s t hdue hp).trans hres, ?_, ?_, ?_, ?_, ?_, ?_, ?_, ?_,
        ?_, ?_, ?_, ?_⟩
      · show (fasterTicker { s with lastTimer := t } 5).status = s.status
        rw [hframe]
      · show (fasterTicker { s with lastTimer := t } 5).eggX = s.eggX
        rw [hframe]
      · show (fasterTicker { s with lastTimer := t } 5).eggY = s.eggY
        rw [hframe]
      · show (fasterTicker { s with lastTimer := t } 5).score = s.score
        rw [hframe]
      · show (fasterTicker { s with lastTimer := t } 5).highest = s.highest
        rw [hframe]
      · show (fasterTicker { s with lastTimer := t } 5).snake.head = s.snake.head
        rw [hframe]
      · show (fasterTicker { s with lastTimer := t } 5).snake.mdir = s.snake.mdir
        rw [hframe]
      · show (fasterTicker { s with lastTimer := t } 5).lastTick = s.lastTick
        rw [hframe]
      · intro hle
        omega
      · intro _
        show (fasterTicker { s with lastTimer := t } 5).lastTimer = t
        rw [hframe]
      · rintro (hle | hgt)
        · omega
        · exact absurd hgt hp
      · intro _ _
        refine ⟨?_, ?_, htick⟩
        · show (fasterTicker { s with lastTimer := t } 5).heap ++ _ = _
          rw [hframe]
        · show some (fasterTicker { s with lastTimer := t } 5).heap.length = _
          rw [hframe]
  · have hle : t - s.lastTimer ≤ 30000 := by omega
    exact ⟨s, handleTimeout_idle s t hle, rfl, rfl, rfl, rfl, rfl, rfl, rfl, rfl, fun _ => rfl,
      fun h => absurd h hdue, fun _ => ⟨rfl, rfl, rfl⟩, fun h => absurd h hdue⟩

theorem handleKeyboard_frame (s : State) (inp : Input) :
    handleKeyboard s inp = { s with movingDirection := (handleKeyboard s inp).movingDirection } := by
  unfold handleKeyboard
  split <;> rfl

theorem update_running_gameover (s : State) (inp : Input) (s1 : State) (x y : Int)
    (hrun : s.status = STATUS_RUNNING) (hdue : inp.tMove - s.lastTick > s.tickMS)
    (hcand : moveSnake s (handleKeyboard s inp).movingDirection = some (s1, x, y))
    (hbody : isSnakeBody s x y = some true) :
    Update s inp =
      handleTimeout
        { s with
          movingDirection := (handleKeyboard s inp).movingDirection
          snake := { s.snake with
            mdir := turn s.snake.mdir (handleKeyboard s inp).movingDirection }
          lastTick := inp.tMove
          status := STATUS_GAMEOVER } inp.tTimeout := by
  have hne : ¬ s.status = STATUS_PAUSED := by
    rw [hrun]
    decide
  unfold Update
  rw [if_neg hne, if_pos hrun]
  obtain ⟨d, hk⟩ : ∃ d, handleKeyboard s inp = { s with movingDirection := d } :=
    ⟨_, handleKeyboard_frame s inp⟩
  rw [hk] at hcand
  rw [hk]
  dsimp only at hcand ⊢
  obtain ⟨h, b, hhead, hb, _, hxy⟩ := moveSnake_inv hcand
  have hm : moveSnake { s with movingDirection := d } d =
      some ({ s with
        movingDirection := d
        snake := { s.snake with mdir := turn s.snake.mdir d } }, x, y) := by
    rw [moveSnake_eq { s with movingDirection := d } h b d hhead hb, ← hxy]
  rw [handleMove_gameover { s with movingDirection := d } inp.tMove inp.draws _ x y hdue hm
    hbody]

/-- C2, as stated, fails: the square snake runs into its tail cell (5,5) in an
`Update` call at time 40000, when the escalation check is due as well
(40000 - 9990 > 30000, score 3 = lastScore).  `handleMove` sets GAME_OVER and
returns, and `Update` goes on to `handleTimeout`: the snake gains a fifth
segment, tickMS drops from 147 to 142 and lastTimer moves from 9990 to
40000. -/
theorem collision_tick_escalates :
    squareState.status = STATUS_RUNNING ∧
      (idleAt 40000).tMove - squareState.lastTick > squareState.tickMS ∧
      moveSnake squareState (handleKeyboard squareState (idleAt 40000)).movingDirection =
        some ({ squareState with snake := { squareState.snake with mdir := 0 } }, 5, 5) ∧
      isSnakeBody squareState 5 5 = some true ∧
      (Update squareState (idleAt 40000)).map State.status = some STATUS_GAMEOVER ∧
      snakeCells squareState = some [(5, 5), (6, 5), (6, 6), (5, 6)] ∧
      (Update squareState (idleAt 40000)).bind snakeCells =
        some [(5, 5), (5, 5), (6, 5), (6, 6), (5, 6)] ∧
      squareState.tickMS = 147 ∧
      (Update squareState (idleAt 40000)).map State.tickMS = some 142 ∧
      squareState.lastTimer = 9990 ∧
      (Update squareState (idleAt 40000)).map State.lastTimer = some 40000 := by
  decide

/-- C2, amended: when one `Update` call in a RUNNING state detects a
self-collision, the call returns with status GAME_OVER and with the egg, score,
highest and the head segment as before; what else changes is what the
escalation check of `handleTimeout`, which `Update` runs after `handleMove` in
the same call, changes.  If that check is not due
(`tTimeout - lastTimer <= 30000`), lastTimer is as before; if it is due,
lastTimer becomes `tTimeout`.  If it is not due or the score has risen above
lastScore, the segments, the tail, the cell sequence and tickMS are as before.
If it is due and the score has not risen, the snake gains one tail segment on
its old tail cell and tickMS goes down by 5 unless it was below 10. -/
theorem update_collision (s : State) (inp : Input) (s1 : State) (x y : Int)
    (hrun : s.status = STATUS_RUNNING) (hdue : inp.tMove - s.lastTick > s.tickMS)
    (hcand : moveSnake s (handleKeyboard s inp).movingDirection = some (s1, x, y))
    (hbody : isSnakeBody s x y = some true) :
    ∃ s2, Update s inp = some s2 ∧ s2.status = STATUS_GAMEOVER ∧
      s2.eggX = s.eggX ∧ s2.eggY = s.eggY ∧ s2.score = s.score ∧ s2.highest = s.highest ∧
      s2.snake.head = s.snake.head ∧
      (inp.tTimeout - s.lastTimer ≤ 30000 → s2.lastTimer = s.lastTimer) ∧
      (inp.tTimeout - s.lastTimer > 30000 → s2.lastTimer = inp.tTimeout) ∧
      (inp.tTimeout - s.lastTimer ≤ 30000 ∨ s.score > s.lastScore →
        s2.heap = s.heap ∧ s2.snake.tail = s.snake.tail ∧
          snakeCells s2 = snakeCells s ∧ s2.tickMS = s.tickMS) ∧
      (inp.tTimeout - s.lastTimer > 30000 → ¬ s.score > s.lastScore →
        (s2.tickMS = if s.tickMS < 10 then s.tickMS else s.tickMS - 5) ∧
          ∀ cs, WellFormed s → snakeCells s = some cs →
            ∃ c1 rest, cs = c1 :: rest ∧ snakeCells s2 = some (c1 :: c1 :: rest)) := by
  obtain ⟨a, b, htail, hb⟩ := isSnakeBody_true_tail hbody
  obtain ⟨s2, hres, f1, f2, f3, f4, f5, f6, _, _, f9, f10, f11, f12⟩ :=
    handleTimeout_fields
      { s with
        movingDirection := (handleKeyboard s inp).movingDirection
        snake := { s.snake with
          mdir := turn s.snake.mdir (handleKeyboard s inp).movingDirection }
        lastTick := inp.tMove
        status := STATUS_GAMEOVER } inp.tTimeout a b htail hb
  refine ⟨s2, (update_running_gameover s inp s1 x y hrun hdue hcand hbody).trans hres,
    f1, f2, f3, f4, f5, f6, f9, f10, ?_, ?_⟩
  · intro hc
    obtain ⟨g1, g2, g3⟩ := f11 hc
    have gt : s2.snake.tail = s.snake.tail := by rw [g2]
    exact ⟨g1, gt, snakeCells_congr g1 gt, g3⟩
  · intro hd hp
    obtain ⟨g1, g2, g3⟩ := f12 hd hp
    refine ⟨g3, ?_⟩
    intro cs hwf hcs
    obtain ⟨s3, c1, rest, hres3, _, hcons, hcells, _, _, _, _⟩ := appendSnakeTail_spec s cs hwf hcs
    rw [appendSnakeTail_eq s a b htail hb] at hres3
    cases hres3
    exact ⟨c1, rest, hcons, (snakeCells_congr g1 g2).trans hcells⟩

theorem update_collision_witness :
    ∃ s2, Update squareState (idleAt 40000) = some s2 ∧ s2.status = STATUS_GAMEOVER ∧
      s2.eggX = 20 ∧ s2.eggY = 20 ∧ s2.score = 3 ∧ s2.highest = 3 ∧
      s2.lastTimer = 40000 ∧ s2.tickMS = 142 ∧
      snakeCells s2 = some [(5, 5), (5, 5), (6, 5), (6, 6), (5, 6)] := by
  obtain ⟨s2, h1, h2, h3, h4, h5, h6, _, _, h9, _, h11⟩ :=
    update_collision squareState (idleAt 40000)
      { squareState with snake := { squareState.snake with mdir := 0 } } 5 5
      (by decide) (by decide) (by decide) (by decide)
  obtain ⟨h12, h13⟩ := h11 (by decide) (by decide)
  obtain ⟨c1, rest, hcons, hcells⟩ :=
    h13 [(5, 5), (6, 5), (6, 6), (5, 6)] squareState_wf (by decide)
  cases hcons
  exact ⟨s2, h1, h2, h3, h4, h5, h6, h9 (by decide), h12, hcells⟩

/-! ## Where the egg lands (C11) -/

theorem randomEgg_inv (draws : List (Int × Int)) :
    ∀ (s s2 : State), randomEgg s draws = some s2 →
      ∃ pre d post, draws = pre ++ d :: post ∧
        (∀ e ∈ pre, isSnakeBody s e.1 e.2 = some true) ∧
        isSnakeBody s d.1 d.2 = some false ∧ s2 = { s with eggX := d.1, eggY := d.2 } := by
  induction draws with
  | nil =>
    intro s s2 h
    simp [randomEgg] at h
  | cons d ds ih =>
    intro s s2 h
    rw [randomEgg_cons] at h
    cases hb : isSnakeBody s d.1 d.2 with
    | none => simp [hb] at h
    | some r =>
      cases r with
      | true =>
        simp only [hb] at h
        obtain ⟨pre, e, post, hsplit, hpre, he, hs2⟩ := ih _ _ h
        refine ⟨d :: pre, e, post, by rw [hsplit]; rfl, ?_, he, hs2⟩
        intro f hf
        rcases List.mem_cons.mp hf with rfl | hf
        · exact hb
        · exact hpre f hf
      | false =>
        simp only [hb, Option.some.injEq] at h
        exact ⟨[], d, ds, rfl, by simp, hb, h.symm⟩

/-- C11: for every snake and every sequence of draws inside the grid: if
`randomEgg` returns, the egg cell it leaves lies in the grid, `isSnakeBody`
is false on it, it is the first drawn cell that is not on the snake (every
draw before it is on the snake), and nothing but `eggX` and `eggY` has
changed, so the snake is as before.  And `randomEgg` does return whenever the
snake has a cell sequence and some draw is off it. -/
theorem randomEgg_places (s : State) (draws : List (Int × Int))
    (hrange : ∀ d ∈ draws, 0 ≤ d.1 ∧ d.1 < 32 ∧ 0 ≤ d.2 ∧ d.2 < 24) :
    (∀ s2, randomEgg s draws = some s2 →
      (0 ≤ s2.eggX ∧ s2.eggX < 32 ∧ 0 ≤ s2.eggY ∧ s2.eggY < 24) ∧
      isSnakeBody s2 s2.eggX s2.eggY = some false ∧
      (∃ pre post, draws = pre ++ (s2.eggX, s2.eggY) :: post ∧
        ∀ e ∈ pre, isSnakeBody s e.1 e.2 = some true) ∧
      s2.heap = s.heap ∧ s2.snake = s.snake ∧
      s2 = { s with eggX := s2.eggX, eggY := s2.eggY }) ∧
    (∀ cs, snakeCells s = some cs → (∃ d ∈ draws, d ∉ cs) →
      ∃ s2, randomEgg s draws = some s2 ∧ (s2.eggX, s2.eggY) ∉ cs) := by
  constructor
  · intro s2 hret
    obtain ⟨pre, d, post, hsplit, hpre, hd, hs2⟩ := randomEgg_inv draws s s2 hret
    have hmem : d ∈ draws := by
      rw [hsplit]
      simp
    subst hs2
    exact ⟨hrange d hmem, hd, ⟨pre, post, hsplit, hpre⟩, rfl, rfl, rfl⟩
  · intro cs hcs hfree
    obtain ⟨s2, _, d, _, hres, _, _, hd, hs2⟩ := randomEgg_spec draws s cs hcs hfree
    refine ⟨s2, hres, ?_⟩
    rw [hs2]
    exact hd

theorem randomEgg_places_witness :
    (∀ s2, randomEgg lineState [(5, 7), (6, 7), (3, 4), (4, 7)] = some s2 →
      (0 ≤ s2.eggX ∧ s2.eggX < 32 ∧ 0 ≤ s2.eggY ∧ s2.eggY < 24) ∧
      isSnakeBody s2 s2.eggX s2.eggY = some false ∧
      (∃ pre post, [(5, 7), (6, 7), (3, 4), (4, 7)] = pre ++ (s2.eggX, s2.eggY) :: post ∧
        ∀ e ∈ pre, isSnakeBody lineState e.1 e.2 = some true) ∧
      s2.heap = lineState.heap ∧ s2.snake = lineState.snake ∧
      s2 = { lineState with eggX := s2.eggX, eggY := s2.eggY }) ∧
    (∀ cs, snakeCells lineState = some cs →
      (∃ d ∈ [((5 : Int), (7 : Int)), (6, 7), (3, 4), (4, 7)], d ∉ cs) →
      ∃ s2, randomEgg lineState [(5, 7), (6, 7), (3, 4), (4, 7)] = some s2 ∧
        (s2.eggX, s2.eggY) ∉ cs) :=
  randomEgg_places lineState [(5, 7), (6, 7), (3, 4), (4, 7)] (by decide)

/-! ## Resetting the game (C14) -/

theorem createSnake_spec (s : State) :
    WellFormed (createSnake s) ∧ snakeCells (createSnake s) = some [(16, 12)] ∧
      (createSnake s).snake.head = some s.heap.length ∧
      (createSnake s).snake.tail = some s.heap.length ∧
      (createSnake s).snake.mdir = 0 ∧
      createSnake s = { s with heap := (createSnake s).heap, snake := (createSnake s).snake } := by
  have hc : Chain (s.heap ++ [({ x := GRID_WIDTH / 2, y := GRID_HEIGHT / 2, prev := none } :
      SnakeBody)]) (some s.heap.length) [s.heap.length] :=
    Chain.cons (b := { x := GRID_WIDTH / 2, y := GRID_HEIGHT / 2, prev := none }) (by simp)
      Chain.nil
  refine ⟨⟨[s.heap.length], hc, rfl, by simp [createSnake]⟩, ?_, rfl, rfl, rfl, rfl⟩
  refine Eq.trans (cellsFrom_chain hc _ (chain_length_le hc)) ?_
  simp [cellAt]
  decide

/-- C14: from every prior state, with draws inside the grid of which at least
one is not the centre cell, `resetGame` returns with: a well-formed snake of
exactly one segment at the centre (16, 12), head and tail the same (newly
allocated) segment, moving direction UP; score 0, lastScore 0, tickMS 150,
lastTick and lastTimer equal to the reset time, status PAUSED; an egg inside
the grid and not on the centre cell; and `highest` as before. -/
theorem resetGame_resets (s : State) (now : Int) (draws : List (Int × Int))
    (hrange : ∀ d ∈ draws, 0 ≤ d.1 ∧ d.1 < 32 ∧ 0 ≤ d.2 ∧ d.2 < 24)
    (hfree : ∃ d ∈ draws, d ≠ (16, 12)) :
    ∃ s2, resetGame s now draws = some s2 ∧
      snakeCells s2 = some [(16, 12)] ∧
      s2.snake.head = s2.snake.tail ∧ s2.snake.head = some s.heap.length ∧
      WellFormed s2 ∧
      s2.snake.mdir = DIR_UP ∧
      s2.score = 0 ∧ s2.lastScore = 0 ∧ s2.tickMS = 150 ∧
      s2.lastTick = now ∧ s2.lastTimer = now ∧
      s2.status = STATUS_PAUSED ∧
      (0 ≤ s2.eggX ∧ s2.eggX < 32 ∧ 0 ≤ s2.eggY ∧ s2.eggY < 24) ∧
      (s2.eggX, s2.eggY) ≠ (16, 12) ∧
      isSnakeBody s2 s2.eggX s2.eggY = some false ∧
      s2.highest = s.highest := by
  obtain ⟨hwf, hcells, hhead, htail, hmdir, hframe⟩ := createSnake_spec s
  have hcells1 : snakeCells { createSnake s with score := 0 } = some [(16, 12)] := hcells
  have hfree1 : ∃ d ∈ draws, d ∉ [((16 : Int), (12 : Int))] := by
    obtain ⟨d, hd, hne⟩ := hfree
    exact ⟨d, hd, by simpa using hne⟩
  obtain ⟨s3, pre, d, post, hres, hsplit, _, hd, hs3⟩ :=
    randomEgg_spec draws _ _ hcells1 hfree1
  have hmem : d ∈ draws := by
    rw [hsplit]
    simp
  have hne : d ≠ (16, 12) := by simpa using hd
  have hreset : resetGame s now draws =
      some { s3 with
        status := STATUS_PAUSED
        tickMS := 150
        lastTick := now
        lastTimer := now
        lastScore := s3.score
        redraw := true } := by
    simp only [resetGame, hres]
  have hbody := isSnakeBody_of_snakeCells d.1 d.2 hcells1
  subst hs3
  refine ⟨_, hreset, hcells, hhead.trans htail.symm, hhead, hwf.congr rfl rfl rfl, hmdir, rfl, rfl,
    rfl, rfl, rfl, rfl, hrange d hmem, hne, ?_, ?_⟩
  · refine Eq.trans ?_ (hbody.trans ?_)
    · rfl
    · simp only [show ¬ (d.1, d.2) ∈ [((16 : Int), (12 : Int))] from hd, decide_False]
  · show (createSnake s).highest = s.highest
    rw [hframe]

theorem resetGame_resets_witness :
    ∃ s2, resetGame gameOverState 50000 [(16, 12), (3, 4)] = some s2 ∧
      snakeCells s2 = some [(16, 12)] ∧
      s2.snake.head = s2.snake.tail ∧ s2.snake.head = some gameOverState.heap.length ∧
      WellFormed s2 ∧
      s2.snake.mdir = DIR_UP ∧
      s2.score = 0 ∧ s2.lastScore = 0 ∧ s2.tickMS = 150 ∧
      s2.lastTick = 50000 ∧ s2.lastTimer = 50000 ∧
      s2.status = STATUS_PAUSED ∧
      (0 ≤ s2.eggX ∧ s2.eggX < 32 ∧ 0 ≤ s2.eggY ∧ s2.eggY < 24) ∧
      (s2.eggX, s2.eggY) ≠ (16, 12) ∧
      isSnakeBody s2 s2.eggX s2.eggY = some false ∧
      s2.highest = gameOverState.highest :=
  resetGame_resets gameOverState 50000 [(16, 12), (3, 4)] (by decide)
    ⟨(3, 4), by decide, by decide⟩

/-! ## Membership in the body (C15) -/

theorem cellAt_eq_iff {h : Heap} {a : Nat} (ha : a < h.length) (x y : Int) :
    (x, y) = cellAt h a ↔ ∃ b, h[a]? = some b ∧ x = b.x ∧ y = b.y := by
  have hb : h[a]? = some h[a] := List.getElem?_eq_getElem ha
  constructor
  · intro hxy
    refine ⟨h[a], hb, ?_, ?_⟩
    · have := congrArg Prod.fst hxy
      simpa [cellAt, hb] using this
    · have := congrArg Prod.snd hxy
      simpa [cellAt, hb] using this
  · rintro ⟨b, hb2, rfl, rfl⟩
    simp [cellAt, hb2]

/-- C15: for a well-formed snake, whose chain from the tail visits the
addresses `as` and ends at the head, `isSnakeBody x y` returns, and it returns
true if and only if `(x, y)` is the position of at least one segment of that
chain, the tail and the head included; equivalently, if and only if `(x, y)`
is in the cell sequence.  The function only returns a boolean: the state is
not among its results. -/
theorem isSnakeBody_iff (s : State) (x y : Int) (hwf : WellFormed s) :
    ∃ as r, Chain s.heap s.snake.tail as ∧ as.getLast? = s.snake.head ∧
      as.head? = s.snake.tail ∧
      isSnakeBody s x y = some r ∧
      (r = true ↔ ∃ a ∈ as, ∃ b, s.heap[a]? = some b ∧ x = b.x ∧ y = b.y) ∧
      (∀ cs, snakeCells s = some cs → (r = true ↔ (x, y) ∈ cs)) := by
  obtain ⟨as, has, hlast, hne, hcells⟩ := hwf.cells
  have hbody : isSnakeBody s x y = some (decide ((x, y) ∈ as.map (cellAt s.heap))) :=
    isSnakeBodyFrom_chain x y has _ (chain_length_le has)
  have hhead : as.head? = s.snake.tail := by
    cases as with
    | nil => exact absurd rfl hne
    | cons a rest => exact (chain_tail_ptr has).symm
  refine ⟨as, _, has, hlast, hhead, hbody, ?_, ?_⟩
  · rw [decide_eq_true_iff, List.mem_map]
    constructor
    · rintro ⟨a, ha, hxy⟩
      exact ⟨a, ha, (cellAt_eq_iff (chain_lt has a ha) x y).mp hxy.symm⟩
    · rintro ⟨a, ha, hb⟩
      exact ⟨a, ha, ((cellAt_eq_iff (chain_lt has a ha) x y).mpr hb).symm⟩
  · intro cs hcs
    rw [hcells] at hcs
    cases hcs
    exact decide_eq_true_iff

theorem isSnakeBody_iff_witness :
    ∃ as r, Chain squareState.heap squareState.snake.tail as ∧
      as.getLast? = squareState.snake.head ∧
      as.head? = squareState.snake.tail ∧
      isSnakeBody squareState 6 6 = some r ∧
      (r = true ↔ ∃ a ∈ as, ∃ b, squareState.heap[a]? = some b ∧ 6 = b.x ∧ 6 = b.y) ∧
      (∀ cs, snakeCells squareState = some cs → (r = true ↔ (6, 6) ∈ cs)) :=
  isSnakeBody_iff squareState 6 6 squareState_wf

/-! ## What `moveSnake` writes (C16) -/

/-- C16, as stated, fails: the line snake moves RIGHT; `moveSnake` with UP
requested returns the candidate cell (6, 6) and a state whose `snake.mdir` is
UP, so the state it leaves is not the state it was given. -/
theorem moveSnake_writes_mdir :
    lineState.snake.mdir = DIR_RIGHT ∧
      (moveSnake lineState DIR_UP).map (fun r => (r.1.snake.mdir, r.2)) =
        some (DIR_UP, 6, 6) ∧
      (moveSnake lineState DIR_UP).map (fun r => r.1) ≠ some lineState := by
  decide

/-- C16, amended: `moveSnake` leaves the body chain (the segments, head and
tail, hence the cell sequence) and every variable other than `snake.mdir`
unchanged; it stores into `snake.mdir` the direction it moves in, which is the
requested direction when that is one of the four and not the opposite of the
current one, and the current one otherwise; so the state is unchanged exactly
when the direction it moves in is the current one.  It returns whenever the
head is a segment. -/
theorem moveSnake_frame (s : State) (r : Int) :
    (∀ s1 x y, moveSnake s r = some (s1, x, y) →
      s1.heap = s.heap ∧ s1.snake.head = s.snake.head ∧ s1.snake.tail = s.snake.tail ∧
      snakeCells s1 = snakeCells s ∧
      s1 = { s with snake := { s.snake with mdir := s1.snake.mdir } } ∧
      s1.snake.mdir = turn s.snake.mdir r ∧
      (IsDir s.snake.mdir → IsDir r → r ≠ opposite s.snake.mdir → s1.snake.mdir = r) ∧
      (IsDir s.snake.mdir → r = opposite s.snake.mdir → s1.snake.mdir = s.snake.mdir) ∧
      (¬ IsDir r → s1.snake.mdir = s.snake.mdir) ∧
      (s1 = s ↔ turn s.snake.mdir r = s.snake.mdir)) ∧
    (∀ h b, s.snake.head = some h → s.heap[h]? = some b →
      ∃ s1 x y, moveSnake s r = some (s1, x, y)) := by
  constructor
  · intro s1 x y hm
    obtain ⟨h, b, _, _, hs1, _⟩ := moveSnake_inv hm
    subst hs1
    refine ⟨rfl, rfl, rfl, rfl, rfl, rfl, ?_, ?_, ?_, ?_⟩
    · intro hd hr hne
      exact turn_other _ _ hd hr hne
    · intro hd hr
      rw [hr]
      exact turn_opposite _ hd
    · intro hr
      show turn s.snake.mdir r = s.snake.mdir
      unfold turn
      rw [if_neg]
      rintro (h1 | h1 | h1 | h1)
      · exact hr (Or.inl h1.1)
      · exact hr (Or.inr (Or.inl h1.1))
      · exact hr (Or.inr (Or.inr (Or.inl h1.1)))
      · exact hr (Or.inr (Or.inr (Or.inr h1.1)))
    · constructor
      · intro he
        have := congrArg (fun t : State => t.snake.mdir) he
        exact this
      · intro ht
        rw [ht]
  · intro h b hhead hb
    exact ⟨_, _, _, moveSnake_eq s h b r hhead hb⟩

/-! ## Well-formedness is an invariant of the snake operations (C18) -/

theorem follow_none (h : Heap) (n : Nat) : follow h n none = none := by
  cases n <;> rfl

theorem follow_of_chain {h : Heap} {hd : Nat} (l1 : List Nat) :
    ∀ p, Chain h p (l1 ++ [hd]) → follow h l1.length p = some hd := by
  induction l1 with
  | nil =>
    intro p hc
    exact chain_tail_ptr hc
  | cons a l1 ih =>
    intro p hc
    have hp : p = some a := chain_tail_ptr hc
    subst hp
    obtain ⟨b, rest, hb, hrest, hprev⟩ := chain_some_inv hc
    have hr : rest = l1 ++ [hd] := by simpa using hrest.symm
    subst hr
    simp only [List.length_cons, follow, hb]
    exact ih _ hprev

theorem chain_of_follow {h : Heap} {hd : Nat} {b : SnakeBody} (hb : h[hd]? = some b)
    (hprev : b.prev = none) :
    ∀ (n tl : Nat), follow h n (some tl) = some hd →
      ∃ as, Chain h (some tl) as ∧ as.getLast? = some hd := by
  intro n
  induction n with
  | zero =>
    intro tl hf
    have : tl = hd := by simpa [follow] using hf
    subst this
    exact ⟨[tl], Chain.cons hb (hprev ▸ Chain.nil), rfl⟩
  | succ n ih =>
    intro tl hf
    simp only [follow] at hf
    cases hb2 : h[tl]? with
    | none => simp [hb2] at hf
    | some b2 =>
      rw [hb2] at hf
      simp only [] at hf
      cases hp : b2.prev with
      | none =>
        rw [hp, follow_none] at hf
        simp at hf
      | some tl2 =>
        simp only [hp] at hf
        obtain ⟨as, has, hlast⟩ := ih tl2 hf
        refine ⟨tl :: as, Chain.cons hb2 (hp ▸ has), ?_⟩
        cases as with
        | nil => simp at hlast
        | cons c rest => simpa [List.getLast?_cons_cons] using hlast

theorem wellFormed_iff_linked (s : State) : WellFormed s ↔ LinkedTailToHead s := by
  constructor
  · intro hwf
    obtain ⟨as, hd, b, has, hlast, hhead, hb, hprev, _⟩ := hwf.shape
    obtain ⟨l1, rfl⟩ : ∃ l1, as = l1 ++ [hd] := List.getLast?_eq_some_iff.mp hlast
    have hf := follow_of_chain l1 _ has
    cases htl : s.snake.tail with
    | none =>
      rw [htl] at has
      have := chain_none_iff.mp has
      simp at this
    | some tl =>
      rw [htl] at hf
      exact ⟨tl, hd, b, l1.length, htl, hhead, hf, hb, hprev⟩
  · rintro ⟨tl, hd, b, n, htail, hhead, hf, hb, hprev⟩
    obtain ⟨as, has, hlast⟩ := chain_of_follow hb hprev n tl hf
    exact ⟨as, htail ▸ has, hlast.trans hhead.symm, by simp [hhead]⟩

/-- C18: the snake is well formed (following `prev` from `snake.tail` reaches
`snake.head` after finitely many steps, `snake.head.prev` is nil, head and tail
are not nil; the two formulations agree) after `createSnake`, and
`growSnakeAt`, `moveSnakeTo` and `appendSnakeTail` return on a well-formed
snake, for every argument, with a well-formed snake.  Consequently on a
well-formed snake the tail-to-head traversal ends: the chain has no repeated
segment and at most as many segments as the heap, the traversal visits
exactly as many cells as the chain has segments, and `isSnakeBody` returns
with any number of steps that is at least that length. -/
theorem wellFormed_invariant :
    (∀ s, WellFormed s ↔ LinkedTailToHead s) ∧
    (∀ s, WellFormed (createSnake s)) ∧
    (∀ s x y, WellFormed s → ∃ s2, growSnakeAt s x y = some s2 ∧ WellFormed s2) ∧
    (∀ s x y, WellFormed s → ∃ s2, moveSnakeTo s x y = some s2 ∧ WellFormed s2) ∧
    (∀ s, WellFormed s → ∃ s2, appendSnakeTail s = some s2 ∧ WellFormed s2) ∧
    (∀ s, WellFormed s →
      ∃ as, Chain s.heap s.snake.tail as ∧ as.getLast? = s.snake.head ∧
        as.Nodup ∧ 1 ≤ as.length ∧ as.length ≤ s.heap.length ∧
        (∃ cs, snakeCells s = some cs ∧ cs.length = as.length) ∧
        ∀ x y fuel, as.length ≤ fuel →
          ∃ r, isSnakeBodyFrom s.heap x y fuel s.snake.tail = some r ∧
            isSnakeBody s x y = some r) := by
  refine ⟨wellFormed_iff_linked, fun s => (createSnake_spec s).1, ?_, ?_, ?_, ?_⟩
  · intro s x y hwf
    obtain ⟨as, _, _, _, hcells⟩ := hwf.cells
    obtain ⟨s2, hres, hwf2, _⟩ := growSnakeAt_spec s x y _ hwf hcells
    exact ⟨s2, hres, hwf2⟩
  · intro s x y hwf
    obtain ⟨as, _, _, _, hcells⟩ := hwf.cells
    obtain ⟨s2, hres, hwf2, _⟩ := moveSnakeTo_spec s x y _ hwf hcells
    exact ⟨s2, hres, hwf2⟩
  · intro s hwf
    obtain ⟨as, _, _, _, hcells⟩ := hwf.cells
    obtain ⟨s2, _, _, hres, hwf2, _⟩ := appendSnakeTail_spec s _ hwf hcells
    exact ⟨s2, hres, hwf2⟩
  · intro s hwf
    obtain ⟨as, has, hlast, hne, hcells⟩ := hwf.cells
    refine ⟨as, has, hlast, chain_nodup has, List.length_pos.mpr hne, chain_length_le has,
      ⟨_, hcells, by simp⟩, ?_⟩
    intro x y fuel hfuel
    exact ⟨_, isSnakeBodyFrom_chain x y has fuel hfuel,
      isSnakeBodyFrom_chain x y has _ (chain_length_le has)⟩

/-! ## What each handler can do to a state -/

theorem growSnakeAt_inv {s s2 : State} {x y : Int} (h : growSnakeAt s x y = some s2) :
    ∃ hd b, s.snake.head = some hd ∧
      (s.heap ++ [({ x := x, y := y, prev := none } : SnakeBody)])[hd]? = some b ∧
      s2 = { s with
        heap := (s.heap ++ [({ x := x, y := y, prev := none } : SnakeBody)]).set hd
          { b with prev := some s.heap.length }
        snake := { s.snake with head := some s.heap.length } } := by
  unfold growSnakeAt at h
  cases hh : s.snake.head with
  | none => simp [hh] at h
  | some hd =>
    cases hb : (s.heap ++ [({ x := x, y := y, prev := none } : SnakeBody)])[hd]? with
    | none => simp [hh, hb] at h
    | some b =>
      simp only [hh, hb, Option.some.injEq] at h
      exact ⟨hd, b, rfl, hb, h.symm⟩

theorem moveSnakeTo_inv {s s2 : State} {x y : Int} (h : moveSnakeTo s x y = some s2) :
    ∃ (hd : Nat) (b tb : SnakeBody), s.snake.head = some hd ∧
      (s.heap ++ [({ x := x, y := y, prev := none } : SnakeBody)])[hd]? = some b ∧
      s2 = { s with
        heap := (s.heap ++ [({ x := x, y := y, prev := none } : SnakeBody)]).set hd
          { b with prev := some s.heap.length }
        snake := { s.snake with head := some s.heap.length, tail := tb.prev } } := by
  unfold moveSnakeTo at h
  cases hh : s.snake.head with
  | none => simp [hh] at h
  | some hd =>
    cases hb : (s.heap ++ [({ x := x, y := y, prev := none } : SnakeBody)])[hd]? with
    | none => simp [hh, hb] at h
    | some b =>
      cases ht : s.snake.tail with
      | none => simp [hh, hb, ht] at h
      | some t =>
        cases htb : ((s.heap ++ [({ x := x, y := y, prev := none } : SnakeBody)]).set hd
            { b with prev := some s.heap.length })[t]? with
        | none => simp [hh, hb, ht, htb] at h
        | some tb =>
          simp only [hh, hb, ht, htb, Option.some.injEq] at h
          exact ⟨hd, b, tb, rfl, hb, h.symm⟩

theorem appendSnakeTail_inv {s s2 : State} (h : appendSnakeTail s = some s2) :
    ∃ a b, s.snake.tail = some a ∧ s.heap[a]? = some b ∧
      s2 = { s with
        heap := s.heap ++ [{ x := b.x, y := b.y, prev := some a }]
        snake := { s.snake with tail := some s.heap.length } } := by
  unfold appendSnakeTail at h
  cases ht : s.snake.tail with
  | none => simp [ht] at h
  | some a =>
    cases hb : s.heap[a]? with
    | none => simp [ht, hb] at h
    | some b =>
      simp only [ht, hb, Option.some.injEq] at h
      exact ⟨a, b, rfl, hb, h.symm⟩

theorem moveSnake_lastTick (s : State) (t d : Int) :
    moveSnake { s with lastTick := t } d =
      (moveSnake s d).map (fun r => ({ r.1 with lastTick := t }, r.2)) := by
  unfold moveSnake
  cases hh : s.snake.head with
  | none => simp [hh]
  | some h =>
    cases hb : s.heap[h]? with
    | none => simp [hh, hb]
    | some b => simp [hh, hb]

theorem handleMove_cases {s s2 : State} {t : Int} {draws : List (Int × Int)}
    (h : handleMove s t draws = some s2) :
    (¬ t - s.lastTick > s.tickMS ∧ s2 = s) ∨
    (t - s.lastTick > s.tickMS ∧ ∃ s1 x y, moveSnake s s.movingDirection = some (s1, x, y) ∧
      ((isSnakeBody s x y = some true ∧
          s2 = { s1 with lastTick := t, status := STATUS_GAMEOVER }) ∨
        (isSnakeBody s x y = some false ∧ (x = s.eggX ∧ y = s.eggY) ∧
          ∃ s3 s4, growSnakeAt { s1 with lastTick := t } x y = some s3 ∧
            randomEgg s3 draws = some s4 ∧
            s2 = { (if (fasterTicker s4 1).score + 1 > (fasterTicker s4 1).highest then
                { fasterTicker s4 1 with
                  score := (fasterTicker s4 1).score + 1
                  highest := (fasterTicker s4 1).score + 1 }
              else { fasterTicker s4 1 with score := (fasterTicker s4 1).score + 1 }) with
              lastTimer := t, redraw := true }) ∨
        (isSnakeBody s x y = some false ∧ ¬ (x = s.eggX ∧ y = s.eggY) ∧
          ∃ s3, moveSnakeTo { s1 with lastTick := t } x y = some s3 ∧
            s2 = { s3 with redraw := true }))) := by
  by_cases hdue : t - s.lastTick > s.tickMS
  · right
    refine ⟨hdue, ?_⟩
    unfold handleMove at h
    rw [if_pos hdue] at h
    simp only [moveSnake_lastTick] at h
    cases hm : moveSnake s s.movingDirection with
    | none => simp [hm] at h
    | some r =>
      obtain ⟨s1, x, y⟩ := r
      obtain ⟨_, _, _, _, hs1, _⟩ := moveSnake_inv hm
      refine ⟨s1, x, y, rfl, ?_⟩
      simp only [hm, Option.map_some'] at h
      have hbody : isSnakeBody { s1 with lastTick := t } x y = isSnakeBody s x y := by
        rw [hs1]
        rfl
      rw [hbody] at h
      cases hb : isSnakeBody s x y with
      | none => simp [hb] at h
      | some r =>
        cases r with
        | true =>
          simp only [hb, Option.some.injEq] at h
          exact Or.inl ⟨rfl, h.symm⟩
        | false =>
          simp only [hb] at h
          have hegg : ({ s1 with lastTick := t } : State).eggX = s.eggX ∧
              ({ s1 with lastTick := t } : State).eggY = s.eggY := by
            rw [hs1]
            exact ⟨rfl, rfl⟩
          by_cases hc : x = s.eggX ∧ y = s.eggY
          · right
            left
            refine ⟨rfl, hc, ?_⟩
            rw [if_pos (by rw [hegg.1, hegg.2]; exact hc)] at h
            cases hg : growSnakeAt { s1 with lastTick := t } x y with
            | none => simp [hg] at h
            | some s3 =>
              simp only [hg] at h
              cases hr : randomEgg s3 draws with
              | none => simp [hr] at h
              | some s4 =>
                simp only [hr, Option.some.injEq] at h
                exact ⟨s3, s4, rfl, hr, h.symm⟩
          · right
            right
            refine ⟨rfl, hc, ?_⟩
            rw [if_neg (by rw [hegg.1, hegg.2]; exact hc)] at h
            cases hg : moveSnakeTo { s1 with lastTick := t } x y with
            | none => simp [hg] at h
            | some s3 =>
              simp only [hg, Option.some.injEq] at h
              exact ⟨s3, rfl, h.symm⟩
  · left
    unfold handleMove at h
    rw [if_neg hdue] at h
    exact ⟨hdue, (Option.some.inj h).symm⟩

theorem handleTimeout_cases {s s2 : State} {t : Int} (h : handleTimeout s t = some s2) :
    (t - s.lastTimer ≤ 30000 ∧ s2 = s) ∨
    (t - s.lastTimer > 30000 ∧ s.score > s.lastScore ∧
      s2 = { s with lastTimer := t, lastScore := s.score }) ∨
    (t - s.lastTimer > 30000 ∧ ¬ s.score > s.lastScore ∧
      appendSnakeTail (fasterTicker { s with lastTimer := t } 5) = some s2) := by
  by_cases hdue : t - s.lastTimer > 30000
  · by_cases hp : s.score > s.lastScore
    · rw [handleTimeout_progress s t hdue hp] at h
      exact Or.inr (Or.inl ⟨hdue, hp, (Option.some.inj h).symm⟩)
    · rw [handleTimeout_stagnant s t hdue hp] at h
      exact Or.inr (Or.inr ⟨hdue, hp, h⟩)
  · have hle : t - s.lastTimer ≤ 30000 := by omega
    rw [handleTimeout_idle s t hle] at h
    exact Or.inl ⟨hle, (Option.some.inj h).symm⟩

theorem update_cases {s s2 : State} {inp : Input} (h : Update s inp = some s2) :
    (s.status = STATUS_PAUSED ∧ s2 = handlePaused s inp) ∨
    (s.status = STATUS_RUNNING ∧ ∃ s1,
      handleMove (handleKeyboard s inp) inp.tMove inp.draws = some s1 ∧
        handleTimeout s1 inp.tTimeout = some s2) ∨
    (s.status = STATUS_GAMEOVER ∧ inp.spaceJustPressed = true ∧
      resetGame s inp.tReset inp.draws = some s2) ∨
    (s.status = STATUS_GAMEOVER ∧ inp.spaceJustPressed = false ∧ s2 = s) ∨
    (s.status ≠ STATUS_PAUSED ∧ s.status ≠ STATUS_RUNNING ∧ s.status ≠ STATUS_GAMEOVER ∧
      s2 = s) := by
  unfold Update at h
  by_cases hp : s.status = STATUS_PAUSED
  · rw [if_pos hp] at h
    exact Or.inl ⟨hp, (Option.some.inj h).symm⟩
  · rw [if_neg hp] at h
    by_cases hr : s.status = STATUS_RUNNING
    · rw [if_pos hr] at h
      right
      left
      refine ⟨hr, ?_⟩
      cases hm : handleMove (handleKeyboard s inp) inp.tMove inp.draws with
      | none => simp [hm] at h
      | some s1 =>
        simp only [hm] at h
        exact ⟨s1, rfl, h⟩
    · rw [if_neg hr] at h
      by_cases hg : s.status = STATUS_GAMEOVER
      · rw [if_pos hg] at h
        unfold handleGameOver at h
        cases hsp : inp.spaceJustPressed with
        | true =>
          simp only [hsp, if_true] at h
          exact Or.inr (Or.inr (Or.inl ⟨hg, rfl, h⟩))
        | false =>
          simp only [hsp] at h
          exact Or.inr (Or.inr (Or.inr (Or.inl ⟨hg, rfl, by simpa using h.symm⟩)))
      · rw [if_neg hg] at h
        exact Or.inr (Or.inr (Or.inr (Or.inr ⟨hp, hr, hg, (Option.some.inj h).symm⟩)))

/-! ## Moving RIGHT across the edge (C17) -/

theorem headCell_inv {s : State} {c : Int × Int} (h : headCell s = some c) :
    ∃ hd b, s.snake.head = some hd ∧ s.heap[hd]? = some b ∧ c = (b.x, b.y) := by
  unfold headCell at h
  cases hh : s.snake.head with
  | none => simp [hh] at h
  | some hd =>
    cases hb : s.heap[hd]? with
    | none => simp [hh, hb] at h
    | some b =>
      simp only [hh, hb, Option.some.injEq] at h
      exact ⟨hd, b, rfl, hb, h.symm⟩

theorem getElem?_new_head {h : Heap} {n b : SnakeBody} {hd : Nat} (p : Option Nat)
    (hb : (h ++ [n])[hd]? = some b) :
    ∃ b2, ((h ++ [n]).set hd { b with prev := p })[h.length]? = some b2 ∧
      b2.x = n.x ∧ b2.y = n.y := by
  by_cases he : hd = h.length
  · subst he
    have hn : b = n := by simpa using hb.symm
    subst hn
    exact ⟨_, List.getElem?_set_self (by simp), rfl, rfl⟩
  · refine ⟨n, ?_, rfl, rfl⟩
    rw [List.getElem?_set_ne he]
    simp

theorem headCell_growSnakeAt {s s2 : State} {x y : Int} (h : growSnakeAt s x y = some s2) :
    headCell s2 = some (x, y) ∧ s2.snake.mdir = s.snake.mdir := by
  obtain ⟨hd, b, _, hb, hs2⟩ := growSnakeAt_inv h
  obtain ⟨b2, hb2, hx, hy⟩ := getElem?_new_head (some s.heap.length) hb
  subst hs2
  refine ⟨?_, rfl⟩
  simp only [headCell, hb2, hx, hy]

theorem headCell_moveSnakeTo {s s2 : State} {x y : Int} (h : moveSnakeTo s x y = some s2) :
    headCell s2 = some (x, y) ∧ s2.snake.mdir = s.snake.mdir := by
  obtain ⟨hd, b, tb, _, hb, hs2⟩ := moveSnakeTo_inv h
  obtain ⟨b2, hb2, hx, hy⟩ := getElem?_new_head (some s.heap.length) hb
  subst hs2
  refine ⟨?_, rfl⟩
  simp only [headCell, hb2, hx, hy]

theorem turn_right {d : Int} (hd : d ≠ DIR_LEFT) : turn d DIR_RIGHT = DIR_RIGHT := by
  unfold turn
  rw [if_pos (Or.inr (Or.inr (Or.inr ⟨rfl, hd⟩)))]

theorem stepFrom_right {x y : Int} (hx : 0 ≤ x ∧ x < 32) (hy : 0 ≤ y ∧ y < 24) :
    stepFrom DIR_RIGHT x y = ((x + 1) % 32, y) := by
  rw [stepFrom_eq_wrap, show delta DIR_RIGHT = (1, 0) from rfl,
    wrap_of_near _ _ (by unfold GRID_WIDTH; omega) (by unfold GRID_HEIGHT; omega)]
  simp only [GRID_WIDTH, GRID_HEIGHT]
  refine Prod.ext ?_ ?_
  · show (x + 1 + 32) % 32 = (x + 1) % 32
    omega
  · show (y + 0 + 24) % 24 = y
    omega

theorem moveTick_right {s s2 : State} {g : Bool} {x0 y0 : Int}
    (hhead : headCell s = some (x0, y0)) (hx : 0 ≤ x0 ∧ x0 < 32) (hy : 0 ≤ y0 ∧ y0 < 24)
    (hdir : s.snake.mdir ≠ DIR_LEFT) (h : moveTick s DIR_RIGHT g = some s2) :
    headCell s2 = some ((x0 + 1) % 32, y0) ∧ s2.snake.mdir = DIR_RIGHT := by
  obtain ⟨hd, b, hh, hb, hc⟩ := headCell_inv hhead
  have hbx : b.x = x0 := (congrArg Prod.fst hc).symm
  have hby : b.y = y0 := (congrArg Prod.snd hc).symm
  have hm := moveSnake_eq s hd b DIR_RIGHT hh hb
  rw [turn_right hdir, hbx, hby, stepFrom_right hx hy] at hm
  unfold moveTick at h
  rw [hm] at h
  cases g with
  | true =>
    simp only [if_true] at h
    exact headCell_growSnakeAt h
  | false =>
    simp only [Bool.false_eq_true, if_false] at h
    exact headCell_moveSnakeTo h

theorem moveTick_wf {s : State} (d : Int) (g : Bool) (hwf : WellFormed s) :
    ∃ s2, moveTick s d g = some s2 ∧ WellFormed s2 := by
  obtain ⟨as, hd, b, _, _, hh, hb, _, hcells⟩ := hwf.shape
  have hm := moveSnake_eq s hd b d hh hb
  have hwf1 : WellFormed { s with snake := { s.snake with mdir := turn s.snake.mdir d } } :=
    hwf.congr rfl rfl rfl
  have hcells1 : snakeCells { s with snake := { s.snake with mdir := turn s.snake.mdir d } } =
      some (as.map (cellAt s.heap)) := hcells
  unfold moveTick
  rw [hm]
  cases g with
  | true =>
    obtain ⟨s2, hres, hwf2, _⟩ := growSnakeAt_spec _ (stepFrom (turn s.snake.mdir d) b.x b.y).1
      (stepFrom (turn s.snake.mdir d) b.x b.y).2 _ hwf1 hcells1
    exact ⟨s2, by simpa using hres, hwf2⟩
  | false =>
    obtain ⟨s2, hres, hwf2, _⟩ := moveSnakeTo_spec _ (stepFrom (turn s.snake.mdir d) b.x b.y).1
      (stepFrom (turn s.snake.mdir d) b.x b.y).2 _ hwf1 hcells1
    exact ⟨s2, by simpa using hres, hwf2⟩

theorem moveTicks_right (gs : List Bool) :
    ∀ (s s2 : State) (x0 y0 : Int), headCell s = some (x0, y0) → (0 ≤ x0 ∧ x0 < 32) →
      (0 ≤ y0 ∧ y0 < 24) → s.snake.mdir ≠ DIR_LEFT → moveTicks s DIR_RIGHT gs = some s2 →
      headCell s2 = some ((x0 + gs.length) % 32, y0) := by
  induction gs with
  | nil =>
    intro s s2 x0 y0 hhead hx _ _ h
    simp only [moveTicks, Option.some.injEq] at h
    subst h
    rw [hhead]
    simp only [List.length_nil, Nat.cast_zero, add_zero]
    rw [Int.emod_eq_of_lt hx.1 hx.2]
  | cons g gs ih =>
    intro s s2 x0 y0 hhead hx hy hdir h
    simp only [moveTicks] at h
    cases hm : moveTick s DIR_RIGHT g with
    | none => simp [hm] at h
    | some s1 =>
      simp only [hm] at h
      obtain ⟨hhead1, hdir1⟩ := moveTick_right hhead hx hy hdir hm
      have hx1 : 0 ≤ (x0 + 1) % 32 ∧ (x0 + 1) % 32 < 32 := by omega
      have := ih s1 s2 _ y0 hhead1 hx1 hy (by rw [hdir1]; decide) h
      rw [this]
      simp only [List.length_cons, Nat.cast_add, Nat.cast_one]
      congr 2
      omega

theorem moveTicks_wf (d : Int) (gs : List Bool) :
    ∀ s, WellFormed s → ∃ s2, moveTicks s d gs = some s2 ∧ WellFormed s2 := by
  induction gs with
  | nil =>
    intro s hwf
    exact ⟨s, rfl, hwf⟩
  | cons g gs ih =>
    intro s hwf
    obtain ⟨s1, h1, hwf1⟩ := moveTick_wf d g hwf
    obtain ⟨s2, h2, hwf2⟩ := ih s1 hwf1
    exact ⟨s2, by simp only [moveTicks, h1, h2], hwf2⟩

theorem growSnakeAt_lastTick (s : State) (t x y : Int) :
    growSnakeAt { s with lastTick := t } x y =
      (growSnakeAt s x y).map (fun r => { r with lastTick := t }) := by
  unfold growSnakeAt
  cases hh : s.snake.head with
  | none => simp [hh]
  | some hd =>
    cases hb : (s.heap ++ [({ x := x, y := y, prev := none } : SnakeBody)])[hd]? with
    | none => simp [hh, hb]
    | some b => simp [hh, hb]

theorem moveSnakeTo_lastTick (s : State) (t x y : Int) :
    moveSnakeTo { s with lastTick := t } x y =
      (moveSnakeTo s x y).map (fun r => { r with lastTick := t }) := by
  unfold moveSnakeTo
  cases hh : s.snake.head with
  | none => simp [hh]
  | some hd =>
    cases hb : (s.heap ++ [({ x := x, y := y, prev := none } : SnakeBody)])[hd]? with
    | none => simp [hh, hb]
    | some b =>
      cases ht : s.snake.tail with
      | none => simp [hh, hb, ht]
      | some tl =>
        cases htb : ((s.heap ++ [({ x := x, y := y, prev := none } : SnakeBody)]).set hd
            { b with prev := some s.heap.length })[tl]? with
        | none => simp [hh, hb, ht, htb]
        | some tb => simp [hh, hb, ht, htb]

theorem handleMove_is_moveTick {s s2 : State} {t : Int} {draws : List (Int × Int)}
    (hdue : t - s.lastTick > s.tickMS) (h : handleMove s t draws = some s2)
    (hnot : s2.status ≠ STATUS_GAMEOVER) :
    ∃ g s3, moveTick s s.movingDirection g = some s3 ∧ s2.heap = s3.heap ∧
      s2.snake = s3.snake := by
  rcases handleMove_cases h with ⟨hnd, _⟩ | ⟨_, s1, x, y, hm, hcase⟩
  · exact absurd hdue hnd
  · rcases hcase with ⟨_, hs2⟩ | ⟨_, _, s3, s4, hg, hr, hs2⟩ | ⟨_, _, s3, hg, hs2⟩
    · exact absurd (by rw [hs2]) hnot
    · rw [growSnakeAt_lastTick] at hg
      cases hg1 : growSnakeAt s1 x y with
      | none => simp [hg1] at hg
      | some s3b =>
        simp only [hg1, Option.map_some', Option.some.injEq] at hg
        obtain ⟨_, d, _, _, _, _, hs4⟩ := randomEgg_inv draws s3 s4 hr
        obtain ⟨f1, f2, _⟩ := eat_fields s4 t s2 hs2
        refine ⟨true, s3b, by simp only [moveTick, hm, hg1, if_true], ?_, ?_⟩
        · rw [f1, hs4, ← hg]
        · rw [f2, hs4, ← hg]
    · rw [moveSnakeTo_lastTick] at hg
      cases hg1 : moveSnakeTo s1 x y with
      | none => simp [hg1] at hg
      | some s3b =>
        simp only [hg1, Option.map_some', Option.some.injEq] at hg
        refine ⟨false, s3b, by simp [moveTick, hm, hg1], ?_, ?_⟩
        · rw [hs2, ← hg]
        · rw [hs2, ← hg]

/-- C17: take a start state whose head `(x0, y0)` is in the grid and whose
moving direction is not LEFT, and run movement ticks with RIGHT requested, each
being `moveSnake` followed by `growSnakeAt` or `moveSnakeTo` (which is what a
due `handleMove` that does not end in GAME_OVER does to the snake).  After `k`
ticks the head is at `((x0 + k) mod 32, y0)`, and so after every shorter
prefix of them; on a well-formed snake the ticks do return, and the snake
stays well formed. -/
theorem right_ticks (s : State) (x0 y0 : Int) (gs : List Bool)
    (hhead : headCell s = some (x0, y0)) (hx : 0 ≤ x0 ∧ x0 < 32) (hy : 0 ≤ y0 ∧ y0 < 24)
    (hdir : s.snake.mdir ≠ DIR_LEFT) :
    (∀ s2, moveTicks s DIR_RIGHT gs = some s2 →
      headCell s2 = some ((x0 + gs.length) % 32, y0)) ∧
    (WellFormed s →
      ∃ s2, moveTicks s DIR_RIGHT gs = some s2 ∧ WellFormed s2 ∧
        headCell s2 = some ((x0 + gs.length) % 32, y0)) ∧
    (∀ i, i ≤ gs.length → ∀ si, moveTicks s DIR_RIGHT (gs.take i) = some si →
      headCell si = some ((x0 + i) % 32, y0)) ∧
    (∀ t draws s2, s.movingDirection = DIR_RIGHT → t - s.lastTick > s.tickMS →
      handleMove s t draws = some s2 → s2.status ≠ STATUS_GAMEOVER →
      ∃ g s3, moveTick s DIR_RIGHT g = some s3 ∧ s2.heap = s3.heap ∧ s2.snake = s3.snake ∧
        headCell s2 = some ((x0 + 1) % 32, y0)) := by
  refine ⟨fun s2 h => moveTicks_right gs s s2 x0 y0 hhead hx hy hdir h, ?_, ?_, ?_⟩
  · intro hwf
    obtain ⟨s2, h, hwf2⟩ := moveTicks_wf DIR_RIGHT gs s hwf
    exact ⟨s2, h, hwf2, moveTicks_right gs s s2 x0 y0 hhead hx hy hdir h⟩
  · intro i hi si h
    have := moveTicks_right (gs.take i) s si x0 y0 hhead hx hy hdir h
    rw [this, List.length_take, Nat.min_eq_left hi]
  · intro t draws s2 hreq hdue h hnot
    obtain ⟨g, s3, hm, h1, h2⟩ := handleMove_is_moveTick hdue h hnot
    rw [hreq] at hm
    refine ⟨g, s3, hm, h1, h2, ?_⟩
    have := (moveTick_right hhead hx hy hdir hm).1
    rw [← this]
    unfold headCell
    rw [h1, h2]

theorem right_ticks_witness :
    (∃ s2, moveTicks startedState DIR_RIGHT (List.replicate 40 false) = some s2 ∧
      WellFormed s2 ∧ headCell s2 = some (24, 12)) ∧
    ((List.range 40).filter (fun i =>
      decide ((moveTicks startedState DIR_RIGHT (List.replicate i false)).bind headCell =
        some (31, 12)))).length = 1 := by
  constructor
  · obtain ⟨s2, h1, h2, h3⟩ :=
      (right_ticks startedState 16 12 (List.replicate 40 false) rfl (by decide) (by decide)
        (by decide)).2.1 startedState_wf
    exact ⟨s2, h1, h2, h3⟩
  · set_option maxRecDepth 100000 in decide

/-! ## Score, high score and move period along a step -/

theorem handleMove_scalars {s s2 : State} {t : Int} {draws : List (Int × Int)}
    (h : handleMove s t draws = some s2) :
    (s2.tickMS = s.tickMS ∧ s2.score = s.score ∧ s2.highest = s.highest) ∨
    (s2.tickMS = (if s.tickMS < 10 then s.tickMS else s.tickMS - 1) ∧
      s2.score = s.score + 1 ∧ s2.highest = max s.highest (s.score + 1)) := by
  rcases handleMove_cases h with ⟨_, hs2⟩ | ⟨_, s1, x, y, hm, hcase⟩
  · left
    rw [hs2]
    exact ⟨rfl, rfl, rfl⟩
  · obtain ⟨_, _, _, _, hs1, _⟩ := moveSnake_inv hm
    rcases hcase with ⟨_, hs2⟩ | ⟨_, _, s3, s4, hg, hr, hs2⟩ | ⟨_, _, s3, hg, hs2⟩
    · left
      rw [hs2, hs1]
      exact ⟨rfl, rfl, rfl⟩
    · right
      obtain ⟨_, _, _, _, hs3⟩ := growSnakeAt_inv hg
      obtain ⟨_, d, _, _, _, _, hs4⟩ := randomEgg_inv draws s3 s4 hr
      obtain ⟨_, _, _, _, f5, f6, f7, _⟩ := eat_fields s4 t s2 hs2
      have h4score : s4.score = s.score := by rw [hs4, hs3, hs1]
      have h4high : s4.highest = s.highest := by rw [hs4, hs3, hs1]
      have h4tick : s4.tickMS = s.tickMS := by rw [hs4, hs3, hs1]
      rw [f5, f6, f7, h4score, h4high, h4tick]
      exact ⟨rfl, rfl, rfl⟩
    · left
      obtain ⟨_, _, _, _, _, hs3⟩ := moveSnakeTo_inv hg
      rw [hs2, hs3, hs1]
      exact ⟨rfl, rfl, rfl⟩

theorem handleTimeout_scalars {s s2 : State} {t : Int} (h : handleTimeout s t = some s2) :
    s2.score = s.score ∧ s2.highest = s.highest ∧
      (s2.tickMS = s.tickMS ∨ s2.tickMS = (if s.tickMS < 10 then s.tickMS else s.tickMS - 5)) := by
  rcases handleTimeout_cases h with ⟨_, hs2⟩ | ⟨_, _, hs2⟩ | ⟨_, _, ha⟩
  · rw [hs2]
    exact ⟨rfl, rfl, Or.inl rfl⟩
  · rw [hs2]
    exact ⟨rfl, rfl, Or.inl rfl⟩
  · obtain ⟨_, _, _, _, hs2⟩ := appendSnakeTail_inv ha
    have hframe := fasterTicker_frame { s with lastTimer := t } 5
    have htick := fasterTicker_tickMS { s with lastTimer := t } 5
    refine ⟨?_, ?_, Or.inr ?_⟩
    · rw [hs2]
      show (fasterTicker { s with lastTimer := t } 5).score = s.score
      rw [hframe]
    · rw [hs2]
      show (fasterTicker { s with lastTimer := t } 5).highest = s.highest
      rw [hframe]
    · rw [hs2]
      exact htick

theorem resetGame_scalars {s s2 : State} {now : Int} {draws : List (Int × Int)}
    (h : resetGame s now draws = some s2) :
    s2.score = 0 ∧ s2.highest = s.highest ∧ s2.tickMS = 150 := by
  unfold resetGame at h
  cases hr : randomEgg { createSnake s with score := 0 } draws with
  | none => simp [hr] at h
  | some s3 =>
    simp only [hr, Option.some.injEq] at h
    obtain ⟨_, d, _, _, _, _, hs3⟩ := randomEgg_inv draws _ s3 hr
    rw [← h, hs3]
    exact ⟨rfl, rfl, rfl⟩

theorem handlePaused_frame (s : State) (inp : Input) :
    handlePaused s inp = { s with status := (handlePaused s inp).status } := by
  unfold handlePaused
  split_ifs <;> rfl

theorem update_scalars {s s2 : State} {inp : Input} (h : Update s inp = some s2) :
    ((s.status = STATUS_GAMEOVER ∧ inp.spaceJustPressed = true) ∧
      s2.tickMS = 150 ∧ s2.score = 0 ∧ s2.highest = s.highest) ∨
    (¬ (s.status = STATUS_GAMEOVER ∧ inp.spaceJustPressed = true) ∧
      s2.tickMS ≤ s.tickMS ∧ (5 ≤ s.tickMS → 5 ≤ s2.tickMS) ∧
      ((s2.score = s.score ∧ s2.highest = s.highest) ∨
        (s2.score = s.score + 1 ∧ s2.highest = max s.highest (s.score + 1)))) := by
  rcases update_cases h with ⟨hp, hs2⟩ | ⟨hr, s1, hm, ht⟩ | ⟨hg, hsp, hres⟩ | ⟨hg, hsp, hs2⟩ |
    ⟨_, _, hg, hs2⟩
  · right
    refine ⟨fun hc => ?_, ?_, ?_, Or.inl ?_⟩
    · rw [hp] at hc
      exact absurd hc.1 (by decide)
    · rw [hs2, handlePaused_frame]
    · rw [hs2, handlePaused_frame]
      exact id
    · rw [hs2, handlePaused_frame]
      exact ⟨rfl, rfl⟩
  · right
    have hk := handleKeyboard_frame s inp
    have hkt : (handleKeyboard s inp).tickMS = s.tickMS := by rw [hk]
    have hks : (handleKeyboard s inp).score = s.score := by rw [hk]
    have hkh : (handleKeyboard s inp).highest = s.highest := by rw [hk]
    obtain ⟨t1, t2, t3⟩ := handleTimeout_scalars ht
    refine ⟨fun hc => ?_, ?_, ?_, ?_⟩
    · rw [hr] at hc
      exact absurd hc.1 (by decide)
    · rcases handleMove_scalars hm with ⟨m1, _, _⟩ | ⟨m1, _, _⟩ <;>
        rcases t3 with t3 | t3 <;> rw [t3, m1, hkt] <;> (try split_ifs) <;> omega
    · intro h5
      rcases handleMove_scalars hm with ⟨m1, _, _⟩ | ⟨m1, _, _⟩ <;>
        rcases t3 with t3 | t3 <;> rw [t3, m1, hkt] <;> (try split_ifs) <;> omega
    · rcases handleMove_scalars hm with ⟨_, m2, m3⟩ | ⟨_, m2, m3⟩
      · left
        rw [t1, t2, m2, m3, hks, hkh]
        exact ⟨rfl, rfl⟩
      · right
        rw [t1, t2, m2, m3, hks, hkh]
        exact ⟨rfl, rfl⟩
  · left
    exact ⟨⟨hg, hsp⟩, (resetGame_scalars hres).2.2, (resetGame_scalars hres).1,
      (resetGame_scalars hres).2.1⟩
  · right
    refine ⟨fun hc => ?_, ?_, ?_, Or.inl ?_⟩
    · rw [hsp] at hc
      exact absurd hc.2 (by decide)
    · rw [hs2]
    · rw [hs2]
      exact id
    · rw [hs2]
      exact ⟨rfl, rfl⟩
  · right
    refine ⟨fun hc => hg hc.1, ?_, ?_, Or.inl ?_⟩
    · rw [hs2]
    · rw [hs2]
      exact id
    · rw [hs2]
      exact ⟨rfl, rfl⟩

/-! ## The move period in reachable states (C19) -/

theorem run_tickMS_le (inps : List Input) :
    ∀ s s2 : State, (∀ inp ∈ inps, inp.spaceJustPressed = false) → run s inps = some s2 →
      s2.tickMS ≤ s.tickMS := by
  induction inps with
  | nil =>
    intro s s2 _ h
    simp only [run, Option.some.injEq] at h
    rw [h]
  | cons inp inps ih =>
    intro s s2 hsp h
    simp only [run] at h
    cases hu : Update s inp with
    | none => simp [hu] at h
    | some s1 =>
      simp only [hu] at h
      have h1 := ih s1 s2 (fun i hi => hsp i (List.mem_cons_of_mem _ hi)) h
      rcases update_scalars hu with ⟨⟨_, hc⟩, _⟩ | ⟨_, hle, _⟩
      · rw [hsp inp (List.mem_cons_self _ _)] at hc
        exact absurd hc (by decide)
      · omega

/-- C19: in every state reachable from `resetGame` by `Update` steps the move
period satisfies `5 <= tickMS <= 150`, so it is strictly positive; an `Update`
call that is not a restart (GAME_OVER with the space key) never increases
tickMS, nor does any sequence of calls without the space key; a restart sets
it to 150. -/
theorem tickMS_bounds :
    (∀ s, Reachable s → 5 ≤ s.tickMS ∧ s.tickMS ≤ 150 ∧ 0 < s.tickMS) ∧
    (∀ s inp s2, Update s inp = some s2 →
      ¬ (s.status = STATUS_GAMEOVER ∧ inp.spaceJustPressed = true) →
      s2.tickMS ≤ s.tickMS) ∧
    (∀ s inps s2, (∀ inp ∈ inps, inp.spaceJustPressed = false) → run s inps = some s2 →
      s2.tickMS ≤ s.tickMS) ∧
    (∀ s inp s2, Update s inp = some s2 →
      s.status = STATUS_GAMEOVER ∧ inp.spaceJustPressed = true → s2.tickMS = 150) := by
  refine ⟨?_, ?_, fun s inps s2 => run_tickMS_le inps s s2, ?_⟩
  · intro s hs
    have hb : 5 ≤ s.tickMS ∧ s.tickMS ≤ 150 := by
      induction hs with
      | init h =>
        rw [(resetGame_scalars h).2.2]
        decide
      | step _ hu ih =>
        rcases update_scalars hu with ⟨_, ht, _⟩ | ⟨_, hle, h5, _⟩
        · rw [ht]
          decide
        · exact ⟨h5 ih.1, le_trans hle ih.2⟩
    exact ⟨hb.1, hb.2, by omega⟩
  · intro s inp s2 hu hnr
    rcases update_scalars hu with ⟨hc, _⟩ | ⟨_, hle, _⟩
    · exact absurd hc hnr
    · exact hle
  · intro s inp s2 hu hr
    rcases update_scalars hu with ⟨_, ht, _⟩ | ⟨hc, _⟩
    · exact ht
    · exact absurd hr hc

/-! ## Score and high score in reachable states (C20) -/

theorem reachableMax_inv {s : State} {m : Int} (h : ReachableMax s m) :
    0 ≤ s.score ∧ s.score ≤ s.highest ∧ s.highest = m := by
  induction h with
  | init h =>
    obtain ⟨h1, h2, _⟩ := resetGame_scalars h
    rw [h1, h2]
    decide
  | @step s s2 m inp _ hu ih =>
    obtain ⟨i1, i2, i3⟩ := ih
    rcases update_scalars hu with ⟨_, _, hsc, hhi⟩ | ⟨_, _, _, ⟨hsc, hhi⟩ | ⟨hsc, hhi⟩⟩
    · rw [hsc, hhi]
      refine ⟨le_refl _, by omega, ?_⟩
      rw [max_eq_left (by omega)]
      exact i3
    · rw [hsc, hhi]
      refine ⟨i1, i2, ?_⟩
      rw [max_eq_left (by omega)]
      exact i3
    · rw [hsc, hhi, i3]
      refine ⟨by omega, le_max_right _ _, rfl⟩

theorem reachable_has_max {s : State} (h : Reachable s) : ∃ m, ReachableMax s m := by
  induction h with
  | init h => exact ⟨_, ReachableMax.init h⟩
  | step _ hu ih =>
    obtain ⟨m, hm⟩ := ih
    exact ⟨_, ReachableMax.step hm hu⟩

/-- C20: in every state reachable from the zero-initialised variables by the
first `resetGame` and then `Update` steps (restarts among them),
`highest >= score >= 0`, and `highest` equals the largest score of any state so
far, in particular right after an egg pickup; `highest` never decreases from
one state to the next; a reset sets score to 0 and keeps `highest`; and a
`handleMove` that raises the score by one leaves `highest` at the maximum of
the old `highest` and the new score. -/
theorem highest_tracks_score :
    (zeroState.score = 0 ∧ zeroState.highest = 0) ∧
    (∀ s m, ReachableMax s m → 0 ≤ s.score ∧ s.score ≤ s.highest ∧ s.highest = m) ∧
    (∀ s, Reachable s → ∃ m, ReachableMax s m) ∧
    (∀ s, Reachable s → 0 ≤ s.score ∧ s.score ≤ s.highest) ∧
    (∀ s inp s2, Update s inp = some s2 → s.highest ≤ s2.highest) ∧
    (∀ s now draws s2, resetGame s now draws = some s2 →
      s2.score = 0 ∧ s2.highest = s.highest) ∧
    (∀ s t draws s2, handleMove s t draws = some s2 → s2.score = s.score + 1 →
      s2.highest = max s.highest s2.score) := by
  refine ⟨⟨rfl, rfl⟩, fun s m h => reachableMax_inv h, fun s h => reachable_has_max h, ?_, ?_,
    ?_, ?_⟩
  · intro s hs
    obtain ⟨m, hm⟩ := reachable_has_max hs
    exact ⟨(reachableMax_inv hm).1, (reachableMax_inv hm).2.1⟩
  · intro s inp s2 hu
    rcases update_scalars hu with ⟨_, _, _, hhi⟩ | ⟨_, _, _, ⟨_, hhi⟩ | ⟨_, hhi⟩⟩
    · rw [hhi]
    · rw [hhi]
    · rw [hhi]
      exact le_max_left _ _
  · intro s now draws s2 h
    exact ⟨(resetGame_scalars h).1, (resetGame_scalars h).2.1⟩
  · intro s t draws s2 h hsc
    rcases handleMove_scalars h with ⟨_, hs, _⟩ | ⟨_, hs, hh⟩
    · omega
    · rw [hh, hs]

/-! ## The shape of the body in reachable states (C13) -/

theorem tailRun_singleton (c : Int × Int) : TailRun [c] :=
  ⟨c, 0, [], rfl, by simp⟩

theorem tailRun_append {cs : List (Int × Int)} {x : Int × Int} (h : TailRun cs)
    (hx : x ∉ cs) : TailRun (cs ++ [x]) := by
  obtain ⟨c, m, rest, rfl, hnd⟩ := h
  refine ⟨c, m, rest ++ [x], by simp, ?_⟩
  have hxc : x ≠ c := by
    intro he
    apply hx
    rw [he]
    simp [List.replicate_succ]
  have hxr : x ∉ rest := fun hm => hx (List.mem_append_right _ hm)
  have h1 := List.nodup_cons.mp hnd
  rw [← List.cons_append]
  refine List.Nodup.append hnd (by simp) ?_
  intro a ha hb
  have : a = x := by simpa using hb
  subst this
  rcases List.mem_cons.mp ha with he | he
  · exact hxc he
  · exact hxr he

theorem tailRun_slide {cs : List (Int × Int)} {x : Int × Int} (h : TailRun cs)
    (hx : x ∉ cs) : TailRun (cs.tail ++ [x]) := by
  obtain ⟨c, m, rest, rfl, hnd⟩ := h
  cases m with
  | succ m =>
    have hx2 : x ∉ List.replicate (m + 1) c ++ rest := by
      intro hm
      apply hx
      rw [List.replicate_succ]
      exact List.mem_cons_of_mem _ hm
    have := tailRun_append (⟨c, m, rest, rfl, hnd⟩ : TailRun (List.replicate (m + 1) c ++ rest)) hx2
    simpa [List.replicate_succ] using this
  | zero =>
    cases rest with
    | nil => exact tailRun_singleton x
    | cons c2 rest2 =>
      have hnd2 : (c2 :: rest2).Nodup := (List.nodup_cons.mp hnd).2
      have hx2 : x ∉ c2 :: rest2 := by
        intro hm
        apply hx
        simp only [zero_add, List.replicate_one, List.singleton_append]
        exact List.mem_cons_of_mem _ hm
      have := tailRun_append (⟨c2, 0, rest2, rfl, hnd2⟩ : TailRun (List.replicate 1 c2 ++ rest2)) hx2
      simpa using this

theorem tailRun_dup {c : Int × Int} {rest : List (Int × Int)} (h : TailRun (c :: rest)) :
    TailRun (c :: c :: rest) := by
  obtain ⟨c2, m, rest2, hcs, hnd⟩ := h
  have hc : c = c2 := by
    rw [List.replicate_succ] at hcs
    simp at hcs
    exact hcs.1
  subst hc
  refine ⟨c, m + 1, rest2, ?_, hnd⟩
  rw [hcs]
  simp [List.replicate_succ]

theorem not_mem_of_isSnakeBody_false {s : State} {cs : List (Int × Int)} {x y : Int}
    (hcs : snakeCells s = some cs) (hb : isSnakeBody s x y = some false) : (x, y) ∉ cs := by
  rw [isSnakeBody_of_snakeCells x y hcs] at hb
  simpa using hb

/-- The invariant: the snake is well formed and its cell sequence is a run of
copies of the tail cell followed by distinct other cells. -/
theorem bodyInv_update {s s2 : State} {inp : Input} (hu : Update s inp = some s2)
    (hwf : WellFormed s) (hrun : ∃ cs, snakeCells s = some cs ∧ TailRun cs) :
    WellFormed s2 ∧ ∃ cs, snakeCells s2 = some cs ∧ TailRun cs := by
  obtain ⟨cs, hcs, htr⟩ := hrun
  have hmove : ∀ s0 s1 : State, s0.heap = s.heap → s0.snake = s.snake →
      handleMove s0 inp.tMove inp.draws = some s1 →
      WellFormed s1 ∧ ∃ cs1, snakeCells s1 = some cs1 ∧ TailRun cs1 := by
    intro s0 s1 hh hsn hm
    have hwf0 : WellFormed s0 := hwf.congr hh (by rw [hsn]) (by rw [hsn])
    have hcs0 : snakeCells s0 = some cs := (snakeCells_congr hh (by rw [hsn])).trans hcs
    rcases handleMove_cases hm with ⟨_, hs1⟩ | ⟨_, sA, x, y, hmv, hcase⟩
    · rw [hs1]
      exact ⟨hwf0, cs, hcs0, htr⟩
    · obtain ⟨_, _, _, _, hsA, _⟩ := moveSnake_inv hmv
      have hwfA : WellFormed { sA with lastTick := inp.tMove } := by
        rw [hsA]
        exact hwf0.congr rfl rfl rfl
      have hcsA : snakeCells { sA with lastTick := inp.tMove } = some cs := by
        rw [hsA]
        exact hcs0
      rcases hcase with ⟨_, hs1⟩ | ⟨hb, _, s3, s4, hg, hr, hs1⟩ | ⟨hb, _, s3, hg, hs1⟩
      · rw [hs1, hsA]
        exact ⟨hwf0.congr rfl rfl rfl, cs, hcs0, htr⟩
      · obtain ⟨s3b, hg2, hwf3, hcells3, _⟩ := growSnakeAt_spec _ x y cs hwfA hcsA
        rw [hg] at hg2
        cases hg2
        obtain ⟨_, d, _, _, _, _, hs4⟩ := randomEgg_inv inp.draws s3 s4 hr
        obtain ⟨f1, f2, _⟩ := eat_fields s4 inp.tMove s1 hs1
        have h1 : s1.heap = s3.heap := by rw [f1, hs4]
        have h2 : s1.snake = s3.snake := by rw [f2, hs4]
        exact ⟨hwf3.congr h1 (by rw [h2]) (by rw [h2]), _,
          (snakeCells_congr h1 (by rw [h2])).trans hcells3,
          tailRun_append htr (not_mem_of_isSnakeBody_false hcs0 hb)⟩
      · obtain ⟨s3b, hg2, hwf3, hcells3, _⟩ := moveSnakeTo_spec _ x y cs hwfA hcsA
        rw [hg] at hg2
        cases hg2
        rw [hs1]
        exact ⟨hwf3.congr rfl rfl rfl, _, hcells3,
          tailRun_slide htr (not_mem_of_isSnakeBody_false hcs0 hb)⟩
  have htime : ∀ s1 : State, WellFormed s1 → (∃ cs1, snakeCells s1 = some cs1 ∧ TailRun cs1) →
      handleTimeout s1 inp.tTimeout = some s2 →
      WellFormed s2 ∧ ∃ cs2, snakeCells s2 = some cs2 ∧ TailRun cs2 := by
    intro s1 hwf1 hrun1 ht
    obtain ⟨cs1, hcs1, htr1⟩ := hrun1
    rcases handleTimeout_cases ht with ⟨_, hs2⟩ | ⟨_, _, hs2⟩ | ⟨_, _, ha⟩
    · rw [hs2]
      exact ⟨hwf1, cs1, hcs1, htr1⟩
    · rw [hs2]
      exact ⟨hwf1.congr rfl rfl rfl, cs1, hcs1, htr1⟩
    · have hwfF : WellFormed (fasterTicker { s1 with lastTimer := inp.tTimeout } 5) := by
        rw [fasterTicker_frame]
        exact hwf1.congr rfl rfl rfl
      have hcsF : snakeCells (fasterTicker { s1 with lastTimer := inp.tTimeout } 5) = some cs1 := by
        rw [fasterTicker_frame]
        exact hcs1
      obtain ⟨s2b, c1, rest, hres, hwf2, hcons, hcells2, _⟩ := appendSnakeTail_spec _ cs1 hwfF hcsF
      rw [ha] at hres
      cases hres
      subst hcons
      exact ⟨hwf2, _, hcells2, tailRun_dup htr1⟩
  rcases update_cases hu with ⟨_, hs2⟩ | ⟨_, s1, hm, ht⟩ | ⟨_, _, hres⟩ | ⟨_, _, hs2⟩ |
    ⟨_, _, _, hs2⟩
  · rw [hs2, handlePaused_frame]
    exact ⟨hwf.congr rfl rfl rfl, cs, hcs, htr⟩
  · have hk := handleKeyboard_frame s inp
    obtain ⟨hwf1, hrun1⟩ := hmove (handleKeyboard s inp) s1 (by rw [hk]) (by rw [hk]) hm
    exact htime s1 hwf1 hrun1 ht
  · unfold resetGame at hres
    cases hr : randomEgg { createSnake s with score := 0 } inp.draws with
    | none => simp [hr] at hres
    | some s3 =>
      simp only [hr, Option.some.injEq] at hres
      obtain ⟨_, d, _, _, _, _, hs3⟩ := randomEgg_inv inp.draws _ s3 hr
      obtain ⟨hwfc, hcellsc, _⟩ := createSnake_spec s
      rw [← hres, hs3]
      exact ⟨hwfc.congr rfl rfl rfl, _, hcellsc, tailRun_singleton _⟩
  · rw [hs2]
    exact ⟨hwf, cs, hcs, htr⟩
  · rw [hs2]
    exact ⟨hwf, cs, hcs, htr⟩

theorem bodyInv_reset {s s2 : State} {now : Int} {draws : List (Int × Int)}
    (h : resetGame s now draws = some s2) :
    WellFormed s2 ∧ ∃ cs, snakeCells s2 = some cs ∧ TailRun cs := by
  unfold resetGame at h
  cases hr : randomEgg { createSnake s with score := 0 } draws with
  | none => simp [hr] at h
  | some s3 =>
    simp only [hr, Option.some.injEq] at h
    obtain ⟨_, d, _, _, _, _, hs3⟩ := randomEgg_inv draws _ s3 hr
    obtain ⟨hwfc, hcellsc, _⟩ := createSnake_spec s
    rw [← h, hs3]
    exact ⟨hwfc.congr rfl rfl rfl, _, hcellsc, tailRun_singleton _⟩

theorem bodyInv_reachable {s : State} (h : Reachable s) :
    WellFormed s ∧ ∃ cs, snakeCells s = some cs ∧ TailRun cs := by
  induction h with
  | init h => exact bodyInv_reset h
  | step _ hu ih => exact bodyInv_update hu ih.1 ih.2

theorem stalledState_reachable : Reachable stalledState := by
  have h0 : Reachable { centreState with eggX := 3, eggY := 4 } :=
    @Reachable.init 1000 [(3, 4)] _ (by decide)
  have h1 : Reachable { centreState with eggX := 3, eggY := 4, status := 1 } :=
    @Reachable.step _ _ (upAt 1017) h0 (by decide)
  exact @Reachable.step _ _ (idleAt 31001) h1 (by decide)

/-- C13, as stated, fails: after a reset at time 1000, a key press and one
`Update` call at time 31001 (one move up, then the escalation without score
progress), the game is RUNNING and the snake has two segments on the same
cell (16, 11): `appendSnakeTail` puts the new tail segment on the old tail
cell. -/
theorem body_repeats_tail_cell :
    Reachable stalledState ∧ stalledState.status = STATUS_RUNNING ∧
      stalledState.status ≠ STATUS_GAMEOVER ∧
      snakeCells stalledState = some [(16, 11), (16, 11)] ∧
      ¬ [((16 : Int), (11 : Int)), (16, 11)].Nodup :=
  ⟨stalledState_reachable, by decide, by decide, by decide, by decide⟩

/-- C13, amended: in every state reachable from `resetGame` by `Update` steps
the snake is well formed, has at least one segment, and its cell sequence from
tail to head is one or more copies of the tail cell followed by cells that are
pairwise distinct and differ from the tail cell: segments share a cell only
at the tail end, where `appendSnakeTail` has put copies of the tail segment
that later slides drop again. -/
theorem body_shape (s : State) (h : Reachable s) :
    WellFormed s ∧
    ∃ cs, snakeCells s = some cs ∧ 1 ≤ cs.length ∧
      ∃ c m rest, cs = List.replicate (m + 1) c ++ rest ∧ (c :: rest).Nodup ∧
        (m = 0 → cs.Nodup) := by
  obtain ⟨hwf, cs, hcs, c, m, rest, hshape, hnd⟩ := bodyInv_reachable h
  refine ⟨hwf, cs, hcs, ?_, c, m, rest, hshape, hnd, ?_⟩
  · rw [hshape]
    simp
    omega
  · intro hm
    rw [hshape, hm]
    simpa using hnd

theorem body_shape_witness :
    WellFormed stalledState ∧
    ∃ cs, snakeCells stalledState = some cs ∧ 1 ≤ cs.length ∧
      ∃ c m rest, cs = List.replicate (m + 1) c ++ rest ∧ (c :: rest).Nodup ∧
        (m = 0 → cs.Nodup) :=
  body_shape stalledState stalledState_reachable

/-! ## Perfect play fills the grid (C12) -/

theorem fillX_lt (k : Nat) : fillX k < 32 := Nat.mod_lt _ (by decide)

theorem fillY_lt (k : Nat) : fillY k < 24 := Nat.mod_lt _ (by decide)

theorem fillCell_inGrid (k : Nat) :
    0 ≤ (fillCell k).1 ∧ (fillCell k).1 < 32 ∧ 0 ≤ (fillCell k).2 ∧ (fillCell k).2 < 24 := by
  have h1 := fillX_lt k
  have h2 := fillY_lt k
  unfold fillCell
  simp only
  omega

theorem fillCell_inj {j k : Nat} (hj : j < 768) (hk : k < 768) (h : fillCell j = fillCell k) :
    j = k := by
  unfold fillCell at h
  have h1 : fillX j = fillX k := by
    have := congrArg Prod.fst h
    simp only at this
    exact_mod_cast this
  have h2 : fillY j = fillY k := by
    have := congrArg Prod.snd h
    simp only at this
    exact_mod_cast this
  unfold fillX at h1
  unfold fillY at h2
  have hc : j / 24 = k / 24 := by omega
  have hm : j % 24 = k % 24 := by
    rw [hc] at h2
    have a1 : j % 24 < 24 := Nat.mod_lt _ (by decide)
    have a2 : k % 24 < 24 := Nat.mod_lt _ (by decide)
    have a3 : k / 24 < 32 := by omega
    generalize j % 24 = u at *
    generalize k % 24 = v at *
    generalize k / 24 = c at *
    omega
  omega

theorem fillCell_surj (x y : Int) (hx : 0 ≤ x ∧ x < 32) (hy : 0 ≤ y ∧ y < 24) :
    ∃ k, k < 768 ∧ fillCell k = (x, y) := by
  obtain ⟨X, rfl⟩ := Int.eq_ofNat_of_zero_le hx.1
  obtain ⟨Y, rfl⟩ := Int.eq_ofNat_of_zero_le hy.1
  have hX : X < 32 := by omega
  have hY : Y < 24 := by omega
  have a2 : (36 + (X + 16) % 32 - Y) % 24 < 24 := Nat.mod_lt _ (by decide)
  have a3 : (X + 16) % 32 < 32 := Nat.mod_lt _ (by decide)
  have e1 : (24 * ((X + 16) % 32) + (36 + (X + 16) % 32 - Y) % 24) / 24 = (X + 16) % 32 := by
    omega
  have e2 : (24 * ((X + 16) % 32) + (36 + (X + 16) % 32 - Y) % 24) % 24 =
      (36 + (X + 16) % 32 - Y) % 24 := by
    omega
  refine ⟨24 * ((X + 16) % 32) + (36 + (X + 16) % 32 - Y) % 24, by omega, ?_⟩
  have f1 : fillX (24 * ((X + 16) % 32) + (36 + (X + 16) % 32 - Y) % 24) = X := by
    unfold fillX
    rw [e1]
    omega
  have f2 : fillY (24 * ((X + 16) % 32) + (36 + (X + 16) % 32 - Y) % 24) = Y := by
    unfold fillY
    rw [e1, e2]
    generalize (X + 16) % 32 = c at *
    omega
  unfold fillCell
  rw [f1, f2]

theorem fill_next_right {k : Nat} (hk : k % 24 = 23) :
    fillX (k + 1) = (fillX k + 1) % 32 ∧ fillY (k + 1) = fillY k := by
  have e1 : (k + 1) / 24 = k / 24 + 1 := by omega
  have e2 : (k + 1) % 24 = 0 := by omega
  unfold fillX fillY
  rw [e1, e2, hk]
  generalize k / 24 = c
  constructor <;> omega

theorem fill_next_up {k : Nat} (hk : ¬ k % 24 = 23) :
    fillX (k + 1) = fillX k ∧ fillY (k + 1) = (fillY k + 23) % 24 := by
  have e1 : (k + 1) / 24 = k / 24 := by omega
  have e2 : (k + 1) % 24 = k % 24 + 1 := by omega
  have a1 : k % 24 < 23 := by omega
  unfold fillX fillY
  rw [e1, e2]
  generalize k / 24 = c
  generalize k % 24 = j at *
  constructor <;> omega

theorem fill_next (k : Nat) :
    stepFrom (fillDir k) (fillCell k).1 (fillCell k).2 = fillCell (k + 1) := by
  have h1 := fillX_lt k
  have h2 := fillY_lt k
  rw [stepFrom_eq_wrap]
  unfold fillDir
  by_cases hk : k % 24 = 23
  · obtain ⟨e1, e2⟩ := fill_next_right hk
    rw [if_pos hk, show delta DIR_RIGHT = (1, 0) from rfl]
    unfold fillCell
    rw [wrap_of_near _ _ (by unfold GRID_WIDTH; simp only; omega)
      (by unfold GRID_HEIGHT; simp only; omega), e1, e2]
    simp only [GRID_WIDTH, GRID_HEIGHT]
    refine Prod.ext ?_ ?_
    · simp only
      omega
    · simp only
      omega
  · obtain ⟨e1, e2⟩ := fill_next_up hk
    rw [if_neg hk, show delta DIR_UP = (0, -1) from rfl]
    unfold fillCell
    rw [wrap_of_near _ _ (by unfold GRID_WIDTH; simp only; omega)
      (by unfold GRID_HEIGHT; simp only; omega), e1, e2]
    simp only [GRID_WIDTH, GRID_HEIGHT]
    refine Prod.ext ?_ ?_
    · simp only
      omega
    · simp only
      omega

theorem turn_fillDir (k : Nat) {d : Int} (hd : d = DIR_UP ∨ d = DIR_RIGHT) :
    turn d (fillDir k) = fillDir k := by
  unfold fillDir
  split_ifs <;> rcases hd with rfl | rfl <;> decide

theorem fillDir_up_or_right (k : Nat) : fillDir k = DIR_UP ∨ fillDir k = DIR_RIGHT := by
  unfold fillDir
  split_ifs
  · exact Or.inr rfl
  · exact Or.inl rfl

theorem keyDirection_fillKey (k : Nat) (old : Int) : keyDirection (fillKey k) old = fillDir k := by
  unfold fillKey fillDir
  split_ifs <;> rfl

theorem fillCell_not_mem {j n : Nat} (hj : j < 768) (hn : n ≤ j) :
    fillCell j ∉ (List.range n).map fillCell := by
  intro hm
  obtain ⟨i, hi, he⟩ := List.mem_map.mp hm
  have hi2 : i < n := List.mem_range.mp hi
  have := fillCell_inj (by omega) hj he
  omega

theorem fillCells_nodup (n : Nat) (hn : n ≤ 768) : ((List.range n).map fillCell).Nodup := by
  refine List.Nodup.map_on ?_ (List.nodup_range n)
  intro a ha b hb hab
  exact fillCell_inj (by have := List.mem_range.mp ha; omega)
    (by have := List.mem_range.mp hb; omega) hab

theorem wf_head_cell {s : State} {cs : List (Int × Int)} (hwf : WellFormed s)
    (hcs : snakeCells s = some cs) :
    ∃ hd b, s.snake.head = some hd ∧ s.heap[hd]? = some b ∧ cs.getLast? = some (b.x, b.y) := by
  obtain ⟨as, hd, b, _, hlast, hhead, hb, _, hcells⟩ := hwf.shape
  rw [hcells] at hcs
  cases hcs
  refine ⟨hd, b, hhead, hb, ?_⟩
  rw [List.getLast?_map, hlast]
  simp [cellAt, hb]

theorem randomEgg_stuck (draws : List (Int × Int)) :
    ∀ (s : State) (cs : List (Int × Int)), snakeCells s = some cs → (∀ d ∈ draws, d ∈ cs) →
      randomEgg s draws = none := by
  induction draws with
  | nil =>
    intro s cs _ _
    rfl
  | cons d ds ih =>
    intro s cs hcs hall
    have hmem : (d.1, d.2) ∈ cs := hall d (List.mem_cons_self _ _)
    rw [randomEgg_cons, isSnakeBody_of_snakeCells d.1 d.2 hcs]
    simp only [hmem, decide_True]
    exact ih _ cs hcs (fun e he => hall e (List.mem_cons_of_mem _ he))

theorem handleMove_eat_none (s : State) (t : Int) (draws : List (Int × Int)) (s1 s3 : State)
    (x y : Int) (hdue : t - s.lastTick > s.tickMS)
    (hcand : moveSnake s s.movingDirection = some (s1, x, y))
    (hbody : isSnakeBody s x y = some false) (hegg : x = s.eggX ∧ y = s.eggY)
    (hgrow : growSnakeAt { s1 with lastTick := t } x y = some s3)
    (hrand : randomEgg s3 draws = none) :
    handleMove s t draws = none := by
  obtain ⟨h, b, hhead, hb, hs1, hxy⟩ := moveSnake_inv hcand
  have hm := moveSnake_eq { s with lastTick := t } h b s.movingDirection hhead hb
  have hx : (stepFrom (turn s.snake.mdir s.movingDirection) b.x b.y).1 = x :=
    (congrArg Prod.fst hxy).symm
  have hy : (stepFrom (turn s.snake.mdir s.movingDirection) b.x b.y).2 = y :=
    (congrArg Prod.snd hxy).symm
  have hbody2 : isSnakeBody
      { s with lastTick := t, snake := { s.snake with mdir := turn s.snake.mdir s.movingDirection } }
      x y = some false := hbody
  subst hs1
  have hgrow2 : growSnakeAt
      { s with lastTick := t, snake := { s.snake with mdir := turn s.snake.mdir s.movingDirection } }
      x y = some s3 := hgrow
  unfold handleMove
  rw [if_pos hdue]
  simp only [hm, hx, hy, hbody2]
  rw [if_pos hegg]
  simp only [hgrow2, hrand]

theorem handleMove_eat_full (s : State) (t : Int) (draws : List (Int × Int))
    (cs : List (Int × Int)) (s1 : State) (x y : Int)
    (hwf : WellFormed s) (hcs : snakeCells s = some cs) (hdue : t - s.lastTick > s.tickMS)
    (hcand : moveSnake s s.movingDirection = some (s1, x, y))
    (hbody : isSnakeBody s x y = some false) (hegg : x = s.eggX ∧ y = s.eggY)
    (hfree : ∃ d ∈ draws, d ∉ cs ++ [(x, y)]) :
    ∃ s2, handleMove s t draws = some s2 ∧ WellFormed s2 ∧
      snakeCells s2 = some (cs ++ [(x, y)]) ∧
      (s2.eggX, s2.eggY) ∈ draws ∧ (s2.eggX, s2.eggY) ∉ cs ++ [(x, y)] ∧
      s2.snake.mdir = s1.snake.mdir ∧ s2.status = s.status ∧
      s2.lastTick = t ∧ s2.lastTimer = t ∧ s2.tickMS ≤ s.tickMS ∧
      s2.score = s.score + 1 := by
  obtain ⟨h, b, hhead, hb, hs1, hxy⟩ := moveSnake_inv hcand
  have hwfB : WellFormed { s1 with lastTick := t } := by
    rw [hs1]
    exact hwf.congr rfl rfl rfl
  have hcsB : snakeCells { s1 with lastTick := t } = some cs := by
    rw [hs1]
    exact hcs
  obtain ⟨s3, hgrow, hwf3, hcells3, _, hmdir3, _, hframe3⟩ :=
    growSnakeAt_spec _ x y cs hwfB hcsB
  obtain ⟨s4, pre, d, post, hrand, hsplit, _, hd, hs4⟩ :=
    randomEgg_spec draws s3 _ hcells3 hfree
  have hmove := handleMove_eat_eq s t draws s1 s3 s4 x y hdue hcand hbody hegg hgrow hrand
  obtain ⟨f1, f2, f3, f4, f5, _, f7, f8, f9, f10⟩ := eat_fields s4 t _ rfl
  have h4heap : s4.heap = s3.heap := by rw [hs4]
  have h4snake : s4.snake = s3.snake := by rw [hs4]
  have h4x : s4.eggX = d.1 := by rw [hs4]
  have h4y : s4.eggY = d.2 := by rw [hs4]
  have h4score : s4.score = s.score := by rw [hs4, hframe3, hs1]
  have h4tick : s4.tickMS = s.tickMS := by rw [hs4, hframe3, hs1]
  have h4last : s4.lastTick = t := by rw [hs4, hframe3]
  have h4status : s4.status = s.status := by rw [hs4, hframe3, hs1]
  have hcellsF := snakeCells_congr (f1.trans h4heap) ((congrArg Snake.tail f2).trans
    (congrArg Snake.tail h4snake))
  have heggF : ((_ : State).eggX, (_ : State).eggY) = d :=
    Prod.ext (f3.trans h4x) (f4.trans h4y)
  refine ⟨_, hmove, ?_, hcellsF.trans hcells3, ?_, ?_, ?_, ?_, ?_, f9, ?_, ?_⟩
  · exact hwf3.congr (f1.trans h4heap) ((congrArg Snake.head f2).trans
      (congrArg Snake.head h4snake)) ((congrArg Snake.tail f2).trans
      (congrArg Snake.tail h4snake))
  · rw [heggF, hsplit]
    simp
  · rw [heggF]
    exact hd
  · rw [f2, h4snake, hmdir3]
  · rw [f10, h4status]
  · rw [f8, h4last]
  · rw [f7, h4tick]
    split_ifs <;> omega
  · rw [f5, h4score]

theorem fillCells_succ (n : Nat) :
    (List.range (n + 1)).map fillCell =
      (List.range n).map fillCell ++ [((fillCell n).1, (fillCell n).2)] := by
  rw [List.range_succ, List.map_append]
  rfl

theorem fill_candidate (k : Nat) (hk : k < 767) (s : State) (hinv : FillInv k s)
    (ds : List (Int × Int)) :
    handleKeyboard s (fillInput k ds) = { s with movingDirection := fillDir k } ∧
    moveSnake { s with movingDirection := fillDir k } (fillDir k) =
      some ({ s with
        movingDirection := fillDir k
        snake := { s.snake with mdir := fillDir k } },
        (fillCell (k + 1)).1, (fillCell (k + 1)).2) ∧
    isSnakeBody { s with movingDirection := fillDir k } (fillCell (k + 1)).1
      (fillCell (k + 1)).2 = some false ∧
    (fillInput k ds).tMove - s.lastTick > s.tickMS ∧
    ((fillCell (k + 1)).1 = s.eggX ∧ (fillCell (k + 1)).2 = s.eggY) := by
  obtain ⟨hwf, hcs, hegg, hdir, _, hlast, _, htick, _⟩ := hinv
  obtain ⟨hd, b, hhead, hb, hlastc⟩ := wf_head_cell hwf hcs
  have hbc : (b.x, b.y) = fillCell k := by
    rw [List.getLast?_map, List.range_succ, List.getLast?_concat] at hlastc
    simpa using hlastc.symm
  have hbx : b.x = (fillCell k).1 := congrArg Prod.fst hbc
  have hby : b.y = (fillCell k).2 := congrArg Prod.snd hbc
  refine ⟨?_, ?_, ?_, ?_, ?_⟩
  · show ({ s with movingDirection := keyDirection (fillKey k) s.movingDirection } : State) = _
    rw [keyDirection_fillKey]
  · rw [moveSnake_eq { s with movingDirection := fillDir k } hd b (fillDir k) hhead hb]
    show some (_, stepFrom (turn s.snake.mdir (fillDir k)) b.x b.y) = _
    rw [turn_fillDir k hdir, hbx, hby, fill_next]
  · have hcsK : snakeCells { s with movingDirection := fillDir k } =
        some ((List.range (k + 1)).map fillCell) := hcs
    rw [isSnakeBody_of_snakeCells _ _ hcsK]
    have hnm : ((fillCell (k + 1)).1, (fillCell (k + 1)).2) ∉ (List.range (k + 1)).map fillCell :=
      fillCell_not_mem (by omega) (le_refl _)
    simp only [hnm, decide_False]
  · show 1000 + 200 * ((k : Int) + 1) - s.lastTick > s.tickMS
    rw [hlast]
    omega
  · exact ⟨(congrArg Prod.fst hegg).symm, (congrArg Prod.snd hegg).symm⟩

theorem fill_step (k : Nat) (hk : k + 2 < 768) (s : State) (hinv : FillInv k s) :
    ∃ s2, Update s (fillInput k [fillCell (k + 2)]) = some s2 ∧ FillInv (k + 1) s2 := by
  obtain ⟨hkey, hmove, hbody, hdue, hegg⟩ := fill_candidate k (by omega) s hinv [fillCell (k + 2)]
  obtain ⟨hwf, hcs, _, _, hrun, _, _, htick, hscore⟩ := hinv
  have hfree : ∃ d ∈ [fillCell (k + 2)],
      d ∉ (List.range (k + 1)).map fillCell ++ [((fillCell (k + 1)).1, (fillCell (k + 1)).2)] := by
    refine ⟨fillCell (k + 2), by simp, ?_⟩
    rw [← fillCells_succ]
    exact fillCell_not_mem hk (le_refl _)
  obtain ⟨s2, hres, hwf2, hcs2, hmem, _, hmdir, hstatus, hlt, hltm, htk, hsc⟩ :=
    handleMove_eat_full { s with movingDirection := fillDir k }
      (fillInput k [fillCell (k + 2)]).tMove [fillCell (k + 2)] _ _ _ _
      (hwf.congr rfl rfl rfl) hcs hdue hmove hbody hegg hfree
  have hidle : handleTimeout s2 (fillInput k [fillCell (k + 2)]).tTimeout = some s2 := by
    apply handleTimeout_idle
    rw [hltm]
    show 1000 + 200 * ((k : Int) + 1) - (1000 + 200 * ((k : Int) + 1)) ≤ 30000
    omega
  have hne : ¬ s.status = STATUS_PAUSED := by
    rw [hrun]
    decide
  refine ⟨s2, ?_, hwf2, ?_, ?_, ?_, ?_, ?_, ?_, ?_, ?_⟩
  · unfold Update
    rw [if_neg hne, if_pos hrun, hkey]
    show (match handleMove { s with movingDirection := fillDir k }
        (fillInput k [fillCell (k + 2)]).tMove [fillCell (k + 2)] with
      | none => none
      | some s1 => handleTimeout s1 (fillInput k [fillCell (k + 2)]).tTimeout) = some s2
    rw [hres]
    exact hidle
  · rw [hcs2, ← fillCells_succ]
  · simpa using hmem
  · rw [hmdir]
    exact fillDir_up_or_right k
  · rw [hstatus]
    exact hrun
  · rw [hlt]
    show 1000 + 200 * ((k : Int) + 1) = 1000 + 200 * ((k + 1 : Nat) : Int)
    push_cast
    rfl
  · rw [hltm]
    show 1000 + 200 * ((k : Int) + 1) = 1000 + 200 * ((k + 1 : Nat) : Int)
    push_cast
    rfl
  · exact le_trans htk htick
  · rw [hsc]
    show s.score + 1 = ((k + 1 : Nat) : Int)
    rw [hscore]
    push_cast
    rfl

theorem fill_run (n : Nat) :
    ∀ (k : Nat) (s : State), FillInv k s → k + n + 1 < 768 →
      ∃ s2, run s ((List.range' k n).map (fun i => fillInput i [fillCell (i + 2)])) = some s2 ∧
        FillInv (k + n) s2 := by
  induction n with
  | zero =>
    intro k s hinv _
    exact ⟨s, rfl, hinv⟩
  | succ n ih =>
    intro k s hinv hk
    obtain ⟨s1, hstep, hinv1⟩ := fill_step k (by omega) s hinv
    obtain ⟨s2, hrunr, hinv2⟩ := ih (k + 1) s1 hinv1 (by omega)
    refine ⟨s2, ?_, ?_⟩
    · rw [List.range'_succ, List.map_cons]
      simp only [run, hstep]
      exact hrunr
    · have : k + (n + 1) = k + 1 + n := by omega
      rw [this]
      exact hinv2

theorem run_reachable (inps : List Input) :
    ∀ s s2 : State, Reachable s → run s inps = some s2 → Reachable s2 := by
  induction inps with
  | nil =>
    intro s s2 hr h
    simp only [run, Option.some.injEq] at h
    rw [← h]
    exact hr
  | cons inp inps ih =>
    intro s s2 hr h
    simp only [run] at h
    cases hu : Update s inp with
    | none => simp [hu] at h
    | some s1 =>
      simp only [hu] at h
      exact ih s1 s2 (Reachable.step hr hu) h

theorem startedState_fillInv : FillInv 0 startedState :=
  ⟨startedState_wf, by decide, by decide, Or.inl (by decide), by decide, by decide, by decide,
    by decide, by decide⟩

theorem run_cons (s : State) (inp : Input) (inps : List Input) :
    run s (inp :: inps) =
      match Update s inp with
      | none => none
      | some s1 => run s1 inps := rfl

/-- C12, evaluated where it fails.  `main` resets the game at time 1000 with
the egg drawn at (16, 11); the player presses a key and then, in 766 `Update`
calls 200 ms apart, steers up each column and right into the next, while the
random source puts each new egg on the next cell of that path (all draws are
cells of the grid).  The state reached is RUNNING with score 766 and a snake
on 767 distinct cells, the egg on the last free cell, straight ahead.  In the
next `Update` call `handleMove` eats it: `growSnakeAt` leaves a snake on all
768 cells, `isSnakeBody` is true on every cell of the grid, so `randomEgg`
rejects every draw and never returns, and neither does `Update`. -/
theorem perfect_play_fills_grid :
    resetGame zeroState 1000 [(16, 11)] = some centreState ∧
    (∀ inp ∈ fillInputs 766, ∀ d ∈ inp.draws,
      0 ≤ d.1 ∧ d.1 < 32 ∧ 0 ≤ d.2 ∧ d.2 < 24) ∧
    ∃ s, run centreState (upAt 1100 :: fillInputs 766) = some s ∧ Reachable s ∧
      s.status = STATUS_RUNNING ∧ s.score = 766 ∧
      snakeCells s = some ((List.range 767).map fillCell) ∧
      ((List.range 767).map fillCell).Nodup ∧
      ((List.range 767).map fillCell).length = 767 ∧
      (s.eggX, s.eggY) = fillCell 767 ∧
      ∃ s3, growSnakeAt
          { s with
            movingDirection := fillDir 766
            snake := { s.snake with mdir := fillDir 766 }
            lastTick := (fillInput 766 []).tMove }
          (fillCell 767).1 (fillCell 767).2 = some s3 ∧
        snakeCells s3 = some ((List.range 768).map fillCell) ∧
        ((List.range 768).map fillCell).Nodup ∧
        (∀ x y, 0 ≤ x ∧ x < 32 → 0 ≤ y ∧ y < 24 → isSnakeBody s3 x y = some true) ∧
        ∀ ds, (∀ d ∈ ds, 0 ≤ d.1 ∧ d.1 < 32 ∧ 0 ≤ d.2 ∧ d.2 < 24) →
          randomEgg s3 ds = none ∧ Update s (fillInput 766 ds) = none := by
  have hreset : resetGame zeroState 1000 [(16, 11)] = some centreState := by decide
  have hwake : Update centreState (upAt 1100) = some startedState := by decide
  obtain ⟨s, hrun, hinv⟩ := fill_run 766 0 startedState startedState_fillInv (by decide)
  have hrun2 : run centreState (upAt 1100 :: fillInputs 766) = some s := by
    rw [run_cons, hwake, fillInputs, List.range_eq_range']
    exact hrun
  have hreach : Reachable s :=
    run_reachable _ _ _ (Reachable.init hreset) hrun2
  refine ⟨hreset, ?_, s, hrun2, hreach, hinv.2.2.2.2.1, hinv.2.2.2.2.2.2.2.2, hinv.2.1,
    fillCells_nodup 767 (by decide), by simp, hinv.2.2.1, ?_⟩
  · intro inp hinp d hd
    unfold fillInputs at hinp
    obtain ⟨k, _, rfl⟩ := List.mem_map.mp hinp
    have : d = fillCell (k + 2) := by simpa [fillInput] using hd
    rw [this]
    exact fillCell_inGrid _
  · have hinv0 := hinv
    obtain ⟨hwf, hcs, _, _, hstatus, _, _, _, _⟩ := hinv
    have hwfB : WellFormed
        { s with
          movingDirection := fillDir 766
          snake := { s.snake with mdir := fillDir 766 }
          lastTick := (fillInput 766 []).tMove } := hwf.congr rfl rfl rfl
    obtain ⟨s3, hgrow, _, hcells3, _⟩ :=
      growSnakeAt_spec _ (fillCell 767).1 (fillCell 767).2 _ hwfB hcs
    rw [← fillCells_succ] at hcells3
    have hall : ∀ x y : Int, 0 ≤ x ∧ x < 32 → 0 ≤ y ∧ y < 24 →
        (x, y) ∈ (List.range 768).map fillCell := by
      intro x y hx hy
      obtain ⟨k, hk, hke⟩ := fillCell_surj x y hx hy
      exact List.mem_map.mpr ⟨k, List.mem_range.mpr hk, hke⟩
    refine ⟨s3, hgrow, hcells3, fillCells_nodup 768 (le_refl _), ?_, ?_⟩
    · intro x y hx hy
      rw [isSnakeBody_of_snakeCells x y hcells3]
      simp only [hall x y hx hy, decide_True]
    · intro ds hds
      have hstuck : randomEgg s3 ds = none :=
        randomEgg_stuck ds s3 _ hcells3
          (fun d hd => hall d.1 d.2 ⟨(hds d hd).1, (hds d hd).2.1⟩
            ⟨(hds d hd).2.2.1, (hds d hd).2.2.2⟩)
      refine ⟨hstuck, ?_⟩
      obtain ⟨hkey, hmove, hbody, hdue, hegg⟩ :=
        fill_candidate 766 (by decide) s hinv0 ds
      have hnone := handleMove_eat_none { s with movingDirection := fillDir 766 }
        (fillInput 766 ds).tMove ds _ s3 _ _ hdue hmove hbody hegg hgrow hstuck
      have hne : ¬ s.status = STATUS_PAUSED := by
        rw [hstatus]
        decide
      unfold Update
      rw [if_neg hne, if_pos hstatus, hkey]
      show (match handleMove { s with movingDirection := fillDir 766 }
          (fillInput 766 ds).tMove ds with
        | none => none
        | some s1 => handleTimeout s1 (fillInput 766 ds).tTimeout) = none
      rw [hnone]

/-! ## The egg pickup on the last free cell (C4) -/

theorem filled_state_reachable :
    ∃ s, run centreState (upAt 1100 :: fillInputs 766) = some s ∧ Reachable s ∧
      FillInv 766 s := by
  have hreset : resetGame zeroState 1000 [(16, 11)] = some centreState := by decide
  have hwake : Update centreState (upAt 1100) = some startedState := by decide
  obtain ⟨s, hrun, hinv⟩ := fill_run 766 0 startedState startedState_fillInv (by decide)
  have hrun2 : run centreState (upAt 1100 :: fillInputs 766) = some s := by
    rw [run_cons, hwake, fillInputs, List.range_eq_range']
    exact hrun
  exact ⟨s, hrun2, run_reachable _ _ _ (Reachable.init hreset) hrun2, hinv⟩

/-- C4, evaluated where it fails.  Take the state `s` that perfect play reaches
from `resetGame` (score 766, a well-formed snake on 767 distinct cells, RUNNING)
and the `Update` call at time 154400 with the up arrow held: `handleMove`
receives `s` with `movingDirection` UP.  Every condition of C4 holds there: the
tick is due, the candidate cell of `moveSnake` is (15, 20), `isSnakeBody` is
false on it, and it is the egg cell.  Yet `handleMove` yields no state, for
any sequence of draws inside the grid: after `growSnakeAt` the snake covers
the whole grid and `randomEgg` never finds a free cell.  So there is no new
egg, and score, highest, tickMS and lastTimer are never updated. -/
theorem egg_pickup_never_returns :
    fillCell 767 = (15, 20) ∧ (fillInput 766 []).tMove = 154400 ∧ fillDir 766 = DIR_UP ∧
    ∃ s s1, Reachable s ∧ WellFormed s ∧
      snakeCells s = some ((List.range 767).map fillCell) ∧
      handleKeyboard s (fillInput 766 []) = { s with movingDirection := DIR_UP } ∧
      ({ s with movingDirection := DIR_UP } : State).status = STATUS_RUNNING ∧
      154400 - ({ s with movingDirection := DIR_UP } : State).lastTick >
        ({ s with movingDirection := DIR_UP } : State).tickMS ∧
      moveSnake { s with movingDirection := DIR_UP }
        ({ s with movingDirection := DIR_UP } : State).movingDirection = some (s1, 15, 20) ∧
      isSnakeBody { s with movingDirection := DIR_UP } 15 20 = some false ∧
      (15 = ({ s with movingDirection := DIR_UP } : State).eggX ∧
        20 = ({ s with movingDirection := DIR_UP } : State).eggY) ∧
      ∀ ds, (∀ d ∈ ds, 0 ≤ d.1 ∧ d.1 < 32 ∧ 0 ≤ d.2 ∧ d.2 < 24) →
        handleMove { s with movingDirection := DIR_UP } 154400 ds = none := by
  have hcell : fillCell 767 = (15, 20) := by decide
  have htime : (fillInput 766 []).tMove = 154400 := by decide
  have hdirv : fillDir 766 = DIR_UP := by decide
  obtain ⟨s, _, hreach, hinv⟩ := filled_state_reachable
  obtain ⟨hkey, hmove, hbody, hdue, hegg⟩ := fill_candidate 766 (by decide) s hinv []
  obtain ⟨hwf, hcs, _, _, hstatus, _, _, _, _⟩ := hinv
  rw [hdirv] at hkey hmove hbody
  rw [htime] at hdue
  have hx : (fillCell (766 + 1)).1 = 15 := congrArg Prod.fst hcell
  have hy : (fillCell (766 + 1)).2 = 20 := congrArg Prod.snd hcell
  rw [hx, hy] at hmove hbody hegg
  refine ⟨hcell, htime, hdirv, s, _, hreach, hwf, hcs, hkey, hstatus, hdue, hmove, hbody, hegg, ?_⟩
  intro ds hds
  have hwfB : WellFormed
      { s with
        movingDirection := DIR_UP
        snake := { s.snake with mdir := DIR_UP }
        lastTick := 154400 } := hwf.congr rfl rfl rfl
  obtain ⟨s3, hgrow, _, hcells3, _⟩ := growSnakeAt_spec _ 15 20 _ hwfB hcs
  have hcells768 : snakeCells s3 = some ((List.range 768).map fillCell) := by
    rw [hcells3, fillCells_succ 767, hx, hy]
  have hall : ∀ d ∈ ds, d ∈ (List.range 768).map fillCell := by
    intro d hd
    obtain ⟨k, hk, hke⟩ := fillCell_surj d.1 d.2 ⟨(hds d hd).1, (hds d hd).2.1⟩
      ⟨(hds d hd).2.2.1, (hds d hd).2.2.2⟩
    exact List.mem_map.mpr ⟨k, List.mem_range.mpr hk, hke⟩
  exact handleMove_eat_none { s with movingDirection := DIR_UP } 154400 ds _ s3 15 20 hdue hmove
    hbody hegg hgrow (randomEgg_stuck ds s3 _ hcells768 hall)

end SnakeGo
